import Mathlib

/-!
Verification of the page-enhancement layer of this repository
(`src/assets/js/jupyterbook.js`) against its natural-language specification.

The script manipulates the browser DOM.  We embed the fragment of the DOM
that the script uses shallowly:

* an element tree (`Elem` / `ElemList`), where every element carries a
  unique reference number `ref` standing for its JavaScript object
  identity, its tag name, its `classList`, its attribute list, its
  `checked` property (meaningful for `<input>` elements) and the list of
  event names for which listeners were attached via `addEventListener`;
* the CSS selectors the script uses (tag/class/id simple selectors and
  the combinators space, `>`, `+`), with `querySelectorAll` returning
  matches in document order (pre-order traversal), as the DOM does;
* mutation primitives keyed by `ref`: `setAttribute`, `classList.add` /
  `classList.remove`, the `checked` property, `insertAdjacentHTML`
  with positions `afterend` and `beforeend` (the two the script uses);
* the page-global state the script touches: the `pageElements` lookup
  table, the accidental global `hideLink`, and the `window.*` globals of
  the three third-party libraries, modelled as loaded/not-loaded flags.

Calls into the third-party libraries themselves (ClipboardJS, anchors,
tocbot) are out of scope of the specification; they are recorded as
opaque `Effect` values rather than interpreted.  Text nodes are not
modelled: no routine of the script reads or writes text content.
-/

namespace JBook

/- A DOM element.  `ref` models JavaScript object identity: queries hand
out refs, and the mutation primitives are keyed by ref.  `listeners`
records event names attached with `addEventListener`. -/
mutual
inductive Elem : Type where
  | mk (ref : Nat) (tag : String) (classes : List String)
       (attrs : List (String × String)) (checked : Bool)
       (listeners : List String) (children : ElemList)
inductive ElemList : Type where
  | nil
  | cons (e : Elem) (es : ElemList)
end

def Elem.ref : Elem → Nat
  | .mk r _ _ _ _ _ _ => r

def Elem.tag : Elem → String
  | .mk _ t _ _ _ _ _ => t

def Elem.classes : Elem → List String
  | .mk _ _ c _ _ _ _ => c

def Elem.attrs : Elem → List (String × String)
  | .mk _ _ _ a _ _ _ => a

def Elem.checked : Elem → Bool
  | .mk _ _ _ _ ch _ _ => ch

def Elem.listeners : Elem → List String
  | .mk _ _ _ _ _ ls _ => ls

def Elem.children : Elem → ElemList
  | .mk _ _ _ _ _ _ cs => cs

/-- `el.getAttribute(k)`: `none` models the JavaScript `null` returned for
an absent attribute. -/
def Elem.getAttribute (e : Elem) (k : String) : Option String :=
  (e.attrs.find? (fun p => p.1 == k)).map (fun p => p.2)

/-- Replace the value of attribute `k` (first occurrence) or append it. -/
def setAttrList : List (String × String) → String → String → List (String × String)
  | [], k, v => [(k, v)]
  | (k0, v0) :: rest, k, v =>
    if k0 == k then (k0, v) :: rest else (k0, v0) :: setAttrList rest k v

/-- `el.setAttribute(k, v)`. -/
def Elem.setAttribute : Elem → String → String → Elem
  | .mk r t c a ch ls cs, k, v => .mk r t c (setAttrList a k v) ch ls cs

/-- `el.classList.add(c)`: appends unless already present. -/
def Elem.addClass : Elem → String → Elem
  | .mk r t c a ch ls cs, cl =>
    .mk r t (if c.contains cl then c else c ++ [cl]) a ch ls cs

/-- `el.classList.remove(c)`. -/
def Elem.removeClass : Elem → String → Elem
  | .mk r t c a ch ls cs, cl => .mk r t (c.filter (fun x => x != cl)) a ch ls cs

/-- Assignment to the `checked` property of an input element. -/
def Elem.setChecked : Elem → Bool → Elem
  | .mk r t c a _ ls cs, b => .mk r t c a b ls cs

/-- `el.addEventListener(ev, handler)`: we record the event name. -/
def Elem.addListener : Elem → String → Elem
  | .mk r t c a ch ls cs, ev => .mk r t c a ch (ls ++ [ev]) cs

/-- Turn a plain list of elements into an `ElemList`. -/
def ofListEL : List Elem → ElemList
  | [] => .nil
  | n :: ns => .cons n (ofListEL ns)

/-- Append a plain list of elements at the end of an `ElemList`. -/
def appendEL : ElemList → List Elem → ElemList
  | .nil, ns => ofListEL ns
  | .cons e es, ns => .cons e (appendEL es ns)

/- All refs of a tree / forest in document order (pre-order). -/
mutual
def refsE : Elem → List Nat
  | .mk r _ _ _ _ _ cs => r :: refsL cs
def refsL : ElemList → List Nat
  | .nil => []
  | .cons e es => refsE e ++ refsL es
end

/- First element with the given ref, in document order. -/
mutual
def findE (r : Nat) : Elem → Option Elem
  | .mk r0 t c a ch ls cs =>
    if r0 == r then some (.mk r0 t c a ch ls cs) else findL r cs
def findL (r : Nat) : ElemList → Option Elem
  | .nil => none
  | .cons e es =>
    match findE r e with
    | some x => some x
    | none => findL r es
end

/-- `getAttribute` through a ref, reading in the tree `root`. -/
def getAttributeByRef (root : Elem) (r : Nat) (k : String) : Option String :=
  (findE r root).bind (fun e => e.getAttribute k)

/- Apply `f` to the first element with ref `r` (its scalar fields);
`none` when no element has that ref. -/
mutual
def updateE (r : Nat) (f : Elem → Elem) : Elem → Option Elem
  | .mk r0 t c a ch ls cs =>
    if r0 == r then some (f (.mk r0 t c a ch ls cs))
    else (updateL r f cs).map (fun cs2 => .mk r0 t c a ch ls cs2)
def updateL (r : Nat) (f : Elem → Elem) : ElemList → Option ElemList
  | .nil => none
  | .cons e es =>
    match updateE r f e with
    | some e2 => some (.cons e2 es)
    | none => (updateL r f es).map (fun es2 => .cons e es2)
end

/-- Total wrapper: in the browser a held element reference always
denotes a node, so the miss case cannot arise along the executions the
theorems speak about. -/
def updateByRef (root : Elem) (r : Nat) (f : Elem → Elem) : Elem :=
  (updateE r f root).getD root

/-- Prepend a plain list of elements in front of an `ElemList`. -/
def consAll : List Elem → ElemList → ElemList
  | [], l => l
  | n :: ns, l => .cons n (consAll ns l)

/- `insertAdjacentHTML('afterend', …)`: splice `new` immediately after
the (first) element with ref `r`.  `none` when `r` has no parent in the
tree. -/
mutual
def insertAfterE (r : Nat) (new : List Elem) : Elem → Option Elem
  | .mk r0 t c a ch ls cs =>
    (insertAfterL r new cs).map (fun cs2 => .mk r0 t c a ch ls cs2)
def insertAfterL (r : Nat) (new : List Elem) : ElemList → Option ElemList
  | .nil => none
  | .cons e es =>
    if e.ref == r then some (.cons e (consAll new es))
    else
      match insertAfterE r new e with
      | some e2 => some (.cons e2 es)
      | none => (insertAfterL r new es).map (fun es2 => .cons e es2)
end

def insertAfterByRef (root : Elem) (r : Nat) (new : List Elem) : Elem :=
  (insertAfterE r new root).getD root

/- `insertAdjacentHTML('beforeend', …)`: append `new` at the end of the
children of the element with ref `r`. -/
mutual
def appendChildE (r : Nat) (new : List Elem) : Elem → Option Elem
  | .mk r0 t c a ch ls cs =>
    if r0 == r then some (.mk r0 t c a ch ls (appendEL cs new))
    else (appendChildL r new cs).map (fun cs2 => .mk r0 t c a ch ls cs2)
def appendChildL (r : Nat) (new : List Elem) : ElemList → Option ElemList
  | .nil => none
  | .cons e es =>
    match appendChildE r new e with
    | some e2 => some (.cons e2 es)
    | none => (appendChildL r new es).map (fun es2 => .cons e es2)
end

def appendChildByRef (root : Elem) (r : Nat) (new : List Elem) : Elem :=
  (appendChildE r new root).getD root

/- `nextElementSibling` of the (first) element with ref `r`. -/
mutual
def nextSibE (r : Nat) : Elem → Option Elem
  | .mk _ _ _ _ _ _ cs => nextSibL r cs
def nextSibL (r : Nat) : ElemList → Option Elem
  | .nil => none
  | .cons e es =>
    if e.ref == r then
      match es with
      | .nil => none
      | .cons d _ => some d
    else
      match nextSibE r e with
      | some x => some x
      | none => nextSibL r es
end

/-- A compound CSS selector without combinators: optional tag name,
required classes, optional `#id`. -/
structure SimpleSel where
  tagName : Option String
  classNames : List String
  idName : Option String

/-- Whether an element matches a compound selector. -/
def matchesSimple (s : SimpleSel) (e : Elem) : Bool :=
  (match s.tagName with
   | none => true
   | some t => t == e.tag) &&
  s.classNames.all (fun c => e.classes.contains c) &&
  (match s.idName with
   | none => true
   | some i => e.getAttribute "id" == some i)

/-- A CSS selector: a chain of compound selectors joined by the
combinators the script uses — descendant (space), child (`>`) and
adjacent sibling (`+`). -/
inductive Sel where
  | simple (s : SimpleSel)
  | child (a : Sel) (s : SimpleSel)
  | desc (a : Sel) (s : SimpleSel)
  | adj (a : Sel) (s : SimpleSel)

/-- A context frame: an ancestor element together with its previous
siblings, nearest first. -/
abbrev Frame := Elem × List Elem

/-- Does any suffix-frame of the ancestor chain satisfy `p`? -/
def anyFrame (p : Elem → List Elem → List Frame → Bool) : List Frame → Bool
  | [] => false
  | (e, prevs) :: rest => p e prevs rest || anyFrame p rest

/-- Whether selector `sel` matches the element `e`, whose previous
siblings (nearest first) are `prevs` and whose ancestor chain (nearest
first, each with its own previous siblings) is `ups`. -/
def matchesAt : Sel → Elem → List Elem → List Frame → Bool
  | .simple s, e, _, _ => matchesSimple s e
  | .child a s, e, _, ups =>
    matchesSimple s e &&
      (match ups with
       | [] => false
       | (p, pp) :: rest => matchesAt a p pp rest)
  | .desc a s, e, _, ups =>
    matchesSimple s e && anyFrame (fun p pp rest => matchesAt a p pp rest) ups
  | .adj a s, e, prevs, ups =>
    matchesSimple s e &&
      (match prevs with
       | [] => false
       | q :: qs => matchesAt a q qs ups)

/- Collect, in document order (pre-order), the refs of all elements
matching any selector of the comma-separated list `sels`. -/
mutual
def collectE (sels : List Sel) : Elem → List Elem → List Frame → List Nat
  | .mk r t c a ch ls cs, prevs, ups =>
    (if sels.any (fun s => matchesAt s (.mk r t c a ch ls cs) prevs ups) then [r] else []) ++
      collectL sels cs [] ((Elem.mk r t c a ch ls cs, prevs) :: ups)
def collectL (sels : List Sel) : ElemList → List Elem → List Frame → List Nat
  | .nil, _, _ => []
  | .cons e es, prevs, ups =>
    collectE sels e prevs ups ++ collectL sels es (e :: prevs) ups

end

/-- The document: the root element plus the next unused ref, from which
nodes created by `insertAdjacentHTML` take their identities. -/
structure Doc where
  root : Elem
  nextRef : Nat

/-- `document.querySelectorAll(sels)`, as a static list of refs in
document order. -/
def querySelectorAll (d : Doc) (sels : List Sel) : List Nat :=
  collectE sels d.root [] []

/-- `document.querySelector(sels)`: the first match in document order. -/
def querySelectorFirst (d : Doc) (sels : List Sel) : Option Nat :=
  (querySelectorAll d sels).head?

/- `document.getElementById(x)`: the first element in document order
whose `id` attribute is `x`. -/
mutual
def getIdE (x : String) : Elem → Option Nat
  | .mk r t c a ch ls cs =>
    if (Elem.mk r t c a ch ls cs).getAttribute "id" == some x then some r
    else getIdL x cs
def getIdL (x : String) : ElemList → Option Nat
  | .nil => none
  | .cons e es =>
    match getIdE x e with
    | some v => some v
    | none => getIdL x es
end

def getElementById (d : Doc) (x : String) : Option Nat :=
  getIdE x d.root

/- `element.querySelector(s)` for a compound selector without
combinators (the script only ever calls it with `'div.input'`): the
first strict descendant of the element, in document order, matching the
compound selector. -/
mutual
def firstDescE (p : SimpleSel) : Elem → Option Nat
  | .mk _ _ _ _ _ _ cs => firstDescL p cs
def firstDescL (p : SimpleSel) : ElemList → Option Nat
  | .nil => none
  | .cons e es =>
    if matchesSimple p e then some e.ref
    else
      match firstDescE p e with
      | some v => some v
      | none => firstDescL p es
end

/-- `cell.querySelector(simple)` where `cell` is the element with ref
`r` of the document. -/
def elemQuerySelector (d : Doc) (r : Nat) (p : SimpleSel) : Option Nat :=
  (findE r d.root).bind (fun e => firstDescE p e)

/-!
The page-global state the script touches, and the record of one run of
a routine.
-/

/-- The `pageElements` lookup table (`pageElements = {}` at load time,
so both entries start out absent). -/
structure PageElements where
  codeCells : Option (List Nat)
  inputCells : Option (List Nat)
deriving DecidableEq

/-- Whether each optional third-party library global
(`window.ClipboardJS`, `window.anchors`, `window.tocbot`) is defined. -/
structure Window where
  clipboardJS : Bool
  anchors : Bool
  tocbot : Bool
deriving DecidableEq

/-- The mutable page state visible to the routines: the document, the
`pageElements` table, the `window` library globals, and the accidental
global `hideLink` assigned (without declaration) inside
`addHideButton`. -/
structure PageState where
  doc : Doc
  pageElements : PageElements
  win : Window
  hideLink : Option Nat

/-- Names of the routines registered with `initFunction` (used to state
that a polling routine re-schedules itself). -/
inductive RName where
  | findCodeCells
  | findInputCells
  | addCopyButtonToCodeCells
  | initHiddenCells
  | initAnchors
  | initToc
deriving DecidableEq

/-- The configuration object literal passed to `tocbot.init`. -/
structure TocbotConfig where
  tocSelector : String
  contentSelector : String
  headingSelector : String
  orderedList : Bool
  collapseDepth : Nat
  listClass : String
  activeListItemClass : String
  activeLinkClass : String
deriving DecidableEq

/-- Calls into third-party libraries and document-level listener
registrations, recorded rather than interpreted. -/
inductive Effect where
  | clipboardNew (sel : String)
  | clipboardOn (ev : String)
  | docAddEventListener (ev : String)
  | anchorsAdd (sel : String)
  | tocbotInit (cfg : TocbotConfig)
deriving DecidableEq

/-- One completed run of a routine: the state it leaves behind, the
`setTimeout(self, delay)` re-scheduling it performed (if any), and the
third-party calls it made. -/
structure RunResult where
  state : PageState
  retry : Option (Nat × RName)
  effects : List Effect

/-!
Translations of the top half of `jupyterbook.js`: the id helpers, the
selector literals, and the HTML template literals.
-/

/-- `codeCellId = index => codecell-index` (template literal). -/
def codeCellId (index : Nat) : String := "codecell" ++ Nat.repr index

/-- `inputCellId = index => inputcell-index` (template literal). -/
def inputCellId (index : Nat) : String := "inputcell" ++ Nat.repr index

/-- JavaScript string conversion of a nullable string, as performed by
template literals, `+` concatenation and `setAttribute`: `null` becomes
the four-character string `"null"`. -/
def jsStr : Option String → String
  | some s => s
  | none => "null"

/-- `div.c-textbook__content > div.highlighter-rouge > div.highlight > pre,
div.input_area pre, div.text_cell_render div.highlight pre` —
the selector list of `findCodeCells`. -/
def selCodeCells : List Sel :=
  [Sel.child
      (Sel.child
        (Sel.child (Sel.simple ⟨some "div", ["c-textbook__content"], none⟩)
          ⟨some "div", ["highlighter-rouge"], none⟩)
        ⟨some "div", ["highlight"], none⟩)
      ⟨some "pre", [], none⟩,
   Sel.desc (Sel.simple ⟨some "div", ["input_area"], none⟩) ⟨some "pre", [], none⟩,
   Sel.desc (Sel.desc (Sel.simple ⟨some "div", ["text_cell_render"], none⟩)
        ⟨some "div", ["highlight"], none⟩)
      ⟨some "pre", [], none⟩]

/-- `div.jb_cell` — the selector of `findInputCells`. -/
def selJbCell : List Sel := [Sel.simple ⟨some "div", ["jb_cell"], none⟩]

/-- `div.tag_hide_input input` — the guard selector of `addHideButton`
and the loop selector of `initHiddenCells`. -/
def selHideGuard : List Sel :=
  [Sel.desc (Sel.simple ⟨some "div", ["tag_hide_input"], none⟩) ⟨some "input", [], none⟩]

/-- `div.input` — the scoped selector inside `addHideButton`. -/
def selDivInput : SimpleSel := ⟨some "div", ["input"], none⟩

/-- `#id div.inner_cell + input + label` — the `hideLink` selector of
`addHideButton` (template literal over the cell id). -/
def selHideLink (id : String) : List Sel :=
  [Sel.adj
      (Sel.adj
        (Sel.desc (Sel.simple ⟨none, [], some id⟩) ⟨some "div", ["inner_cell"], none⟩)
        ⟨some "input", [], none⟩)
      ⟨some "label", [], none⟩]

/-- `#id div.highlight` — the selector of `setCodeCellVisibility`
(template literal over the value of the `data-id` attribute). -/
def selIdHighlight (id : String) : List Sel :=
  [Sel.desc (Sel.simple ⟨none, [], some id⟩) ⟨some "div", ["highlight"], none⟩]

/-- `.anchorjs-link` — the selector of `initAnchors`. -/
def selAnchorsLink : List Sel := [Sel.simple ⟨none, ["anchorjs-link"], none⟩]

/-- `SIDEBAR_CONTENT_TAGS.join(', ')` = `.tag_full_width, .tag_popout` —
the sidebar-content query of `initToc`. -/
def selSidebarContent : List Sel :=
  [Sel.simple ⟨none, ["tag_full_width"], none⟩, Sel.simple ⟨none, ["tag_popout"], none⟩]

/-- `nav.onthispage` — the sidebar nav selector of `initToc`. -/
def selNavOnthispage : List Sel := [Sel.simple ⟨some "nav", ["onthispage"], none⟩]

/-- `.toc-list-item a` — the TOC link selector of `initToc`. -/
def selTocLink : List Sel :=
  [Sel.desc (Sel.simple ⟨none, ["toc-list-item"], none⟩) ⟨some "a", [], none⟩]

/-- The `d` attribute of the `<path>` inside the `copySVG` template. -/
def copyPathD : String :=
  "M433.941 65.941l-51.882-51.882A48 48 0 0 0 348.118 0H176c-26.51 0-48 21.49-48 48v48H48c-26.51 0-48 21.49-48 48v320c0 26.51 21.49 48 48 48h224c26.51 0 48-21.49 48-48v-48h80c26.51 0 48-21.49 48-48V99.882a48 48 0 0 0-14.059-33.941zM266 464H54a6 6 0 0 1-6-6V150a6 6 0 0 1 6-6h74v224c0 26.51 21.49 48 48 48h96v42a6 6 0 0 1-6 6zm128-96H182a6 6 0 0 1-6-6V54a6 6 0 0 1 6-6h106v88c0 13.255 10.745 24 24 24h88v202a6 6 0 0 1-6 6zm6-256h-64V48h9.632c1.591 0 3.117.632 4.243 1.757l48.368 48.368a6 6 0 0 1 1.757 4.243V112z"

/-- The `copySVG` template literal, parsed: an `<svg>` with a `<title>`
and a `<path>` child (text content not modelled).  `base` is the ref of
the `<svg>`; the children take the two following refs. -/
def copySVG (base : Nat) : Elem :=
  .mk base "svg" ["svg-inline--fa", "fa-copy", "fa-w-14"]
    [("aria-labelledby", "title"), ("aria-hidden", "true"), ("data-prefix", "far"),
     ("data-icon", "copy"), ("role", "img"), ("xmlns", "http://www.w3.org/2000/svg"),
     ("viewBox", "0 0 448 512")] false []
    (.cons (.mk (base + 1) "title" [] [("id", "title"), ("lang", "en")] false [] .nil)
      (.cons (.mk (base + 2) "path" [] [("fill", "#777"), ("d", copyPathD)] false [] .nil)
        .nil))

/-- The `clipboardButton(id)` template literal, parsed.  The anchor and
the three nodes of its `copySVG` child take refs `base` … `base + 3`. -/
def clipboardButton (id : String) (base : Nat) : Elem :=
  .mk base "a" ["btn", "copybtn", "o-tooltip--left"]
    [("id", "copy-button-" ++ id), ("data-tooltip", "Copy"),
     ("data-clipboard-target", "#" ++ id)] false []
    (.cons (copySVG (base + 1)) .nil)

/-- The `hideCodeButton(id)` template literal, parsed: an `<input
type=checkbox>` followed by a `<label>` holding two `<span>`s.  The four
nodes take refs `base` … `base + 3`. -/
def hideCodeButton (id : String) (base : Nat) : List Elem :=
  [.mk base "input" ["hidebtn"]
      [("type", "checkbox"), ("id", "hidebtn" ++ id), ("data-id", id)] false [] .nil,
   .mk (base + 1) "label" ["plusminus"]
      [("title", "Toggle cell"), ("for", "hidebtn" ++ id)] false []
      (.cons (.mk (base + 2) "span" ["pm_h"] [] false [] .nil)
        (.cons (.mk (base + 3) "span" ["pm_v"] [] false [] .nil) .nil))]

/-!
The routines themselves, one Lean definition per function of
`jupyterbook.js`.  A routine returns `none` when its JavaScript body
would throw an uncaught `TypeError` (reading `.forEach` of an undefined
`pageElements` entry, or calling a method on the `null` result of a
query); `some` carries the state it leaves behind.
-/

/-- `findCodeCells` (jupyterbook.js lines 56-72): select the code cells,
store the collection in `pageElements['codeCells']`, and give the
`index`-th cell the id `codecell-index`. -/
def findCodeCells (s : PageState) : RunResult :=
  let codeCells := querySelectorAll s.doc selCodeCells
  let root := codeCells.enum.foldl
    (fun rt ir => updateByRef rt ir.2 (fun e => e.setAttribute "id" (codeCellId ir.1)))
    s.doc.root
  { state := { s with
      doc := { s.doc with root := root },
      pageElements := { s.pageElements with codeCells := some codeCells } },
    retry := none
    effects := [] }

/-- `findInputCells` (lines 82-98): select `div.jb_cell` elements, store
them in `pageElements['inputCells']`, and give the `index`-th the id
`inputcell-index`. -/
def findInputCells (s : PageState) : RunResult :=
  let inputCells := querySelectorAll s.doc selJbCell
  let root := inputCells.enum.foldl
    (fun rt ir => updateByRef rt ir.2 (fun e => e.setAttribute "id" (inputCellId ir.1)))
    s.doc.root
  { state := { s with
      doc := { s.doc with root := root },
      pageElements := { s.pageElements with inputCells := some inputCells } },
    retry := none
    effects := [] }

/-- `addCopyButtonToCodeCells` (lines 161-219).  If `window.ClipboardJS`
is undefined it re-schedules itself after 250 ms and returns.  Otherwise
it walks `pageElements['codeCells']`, skipping a cell only when
`document.getElementById('copy-button' + id)` finds something, and
inserts the `clipboardButton(id)` markup after the cell; then it builds
the ClipboardJS object, attaches its handlers, and registers the
`turbolinks:before-visit` cleanup.  `addCopyButtonStep` is the body of
its `forEach`. -/
def addCopyButtonStep (d : Doc) (cell : Nat) : Doc :=
  let id := jsStr (getAttributeByRef d.root cell "id")
  if getElementById d ("copy-button" ++ id) = none then
    { root := insertAfterByRef d.root cell [clipboardButton id d.nextRef],
      nextRef := d.nextRef + 4 }
  else d

def addCopyButtonToCodeCells (s : PageState) : Option RunResult :=
  if s.win.clipboardJS = false then
    some { state := s, retry := some (250, RName.addCopyButtonToCodeCells), effects := [] }
  else
    match s.pageElements.codeCells with
    | none => none
    | some cells =>
      let d := cells.foldl addCopyButtonStep s.doc
      some { state := { s with doc := d }
             retry := none
             effects := [Effect.clipboardNew ".copybtn", Effect.clipboardOn "success",
                         Effect.clipboardOn "error",
                         Effect.docAddEventListener "turbolinks:before-visit"] }

/-- `temporarilyChangeTooltip` (lines 149-157): read the old
`data-tooltip` value, write the new text, and hand the old value to a
2000 ms timer.  The pair returned is the updated tree together with the
timer: its delay and the captured old value. -/
def temporarilyChangeTooltip (root : Elem) (el : Nat) (newText : String) :
    Elem × Nat × Option String :=
  let oldText := getAttributeByRef root el "data-tooltip"
  (updateByRef root el (fun e => e.setAttribute "data-tooltip" newText), 2000, oldText)

/-- The timer callback of `temporarilyChangeTooltip`:
`el.setAttribute('data-tooltip', oldText)`.  When `oldText` is `null`
(the attribute was absent), `setAttribute` stores the string `"null"`,
as the DOM does. -/
def tooltipTimerFire (root : Elem) (el : Nat) (oldText : Option String) : Elem :=
  updateByRef root el (fun e => e.setAttribute "data-tooltip" (jsStr oldText))

/-- `setCodeCellVisibility` (lines 230-254): follow the input field's
`data-id` to `#id div.highlight` and toggle the `hidden` class and the
`checked` property. -/
def setCodeCellVisibility (d : Doc) (inputField : Nat) (kind : String) : Option Doc :=
  let id := jsStr (getAttributeByRef d.root inputField "data-id")
  match querySelectorFirst d (selIdHighlight id) with
  | none => none
  | some codeCell =>
    if kind == "visible" then
      let root2 := updateByRef (updateByRef d.root codeCell (fun e => e.removeClass "hidden"))
        inputField (fun e => e.setChecked true)
      some { d with root := root2 }
    else
      let root2 := updateByRef (updateByRef d.root codeCell (fun e => e.addClass "hidden"))
        inputField (fun e => e.setChecked false)
      some { d with root := root2 }

/-- The body of the `forEach` of `addHideButton` (lines 312-340), acting
on one entry of `pageElements['inputCells']`.  The fold state is the
document together with the accidental global `hideLink`. -/
def addHideButtonStep (st : Doc × Option Nat) (cell : Nat) : Option (Doc × Option Nat) :=
  match findE cell st.1.root with
  | none => none
  | some inputCell =>
    if inputCell.classes.contains "tag_hide_input" = false then some st
    else
      let id := jsStr (inputCell.getAttribute "id")
      match elemQuerySelector st.1 cell selDivInput with
      | none => none
      | some divInput =>
        let d1 : Doc :=
          { root := appendChildByRef st.1.root divInput (hideCodeButton id st.1.nextRef),
            nextRef := st.1.nextRef + 4 }
        match querySelectorFirst d1 (selHideLink id) with
        | none => none
        | some link =>
          some ({ d1 with root := updateByRef d1.root link (fun e => e.addListener "click") },
                some link)

/-- `addHideButton` (lines 298-342): return at once when the document
already holds a `div.tag_hide_input input` match, else walk the input
cells, appending the `hideCodeButton(id)` markup inside `div.input` of
every cell tagged `tag_hide_input` and wiring the label. -/
def addHideButton (s : PageState) : Option RunResult :=
  if (querySelectorFirst s.doc selHideGuard).isSome then
    some { state := s, retry := none, effects := [] }
  else
    match s.pageElements.inputCells with
    | none => none
    | some cells =>
      match cells.foldlM addHideButtonStep (s.doc, s.hideLink) with
      | none => none
      | some st =>
        some { state := { s with doc := st.1, hideLink := st.2 }, retry := none, effects := [] }

/-- `initHiddenCells` (lines 350-368): run `addHideButton`, then for
every `div.tag_hide_input input` match hide its code cell and set its
`checked` property. -/
def initHiddenCells (s : PageState) : Option RunResult :=
  match addHideButton s with
  | none => none
  | some rr =>
    let items := querySelectorAll rr.state.doc selHideGuard
    match items.foldlM
        (fun (d : Doc) item =>
          (setCodeCellVisibility d item "hidden").map
            (fun d1 => { d1 with root := updateByRef d1.root item (fun e => e.setChecked true) }))
        rr.state.doc with
    | none => none
    | some d2 =>
      some { state := { rr.state with doc := d2 }, retry := none, effects := rr.effects }

/-- `initAnchors` (lines 373-393).  If `window.anchors` is undefined it
re-schedules itself after 250 ms; otherwise it calls `anchors.add` (a
third-party DOM effect, recorded) and disables Turbolinks on every
`.anchorjs-link` via `dataset`, which writes the `data-turbolinks`
attribute. -/
def initAnchors (s : PageState) : RunResult :=
  if s.win.anchors = false then
    { state := s, retry := some (250, RName.initAnchors), effects := [] }
  else
    let links := querySelectorAll s.doc selAnchorsLink
    let root := links.foldl
      (fun rt l => updateByRef rt l (fun e => e.setAttribute "data-turbolinks" "false"))
      s.doc.root
    { state := { s with doc := { s.doc with root := root } }
      retry := none
      effects := [Effect.anchorsAdd "main h1, main h2, main h3, main h4"] }

/-- The object literal passed to `tocbot.init` (lines 425-443). -/
def tocbotConfig : TocbotConfig :=
  { tocSelector := "nav.onthispage"
    contentSelector := ".c-textbook__content"
    headingSelector := "h2, h3"
    orderedList := false
    collapseDepth := 6
    listClass := "toc__menu"
    activeListItemClass := " "
    activeLinkClass := " " }

/-- `initToc` (lines 397-453).  If `window.tocbot` is undefined it
re-schedules itself after 250 ms; otherwise, when the page has no
sidebar content, it adds `no_sidebar_content` to `nav.onthispage`
(throwing when that nav is absent), calls `tocbot.init`, and disables
Turbolinks on every `.toc-list-item a`. -/
def initToc (s : PageState) : Option RunResult :=
  if s.win.tocbot = false then
    some { state := s, retry := some (250, RName.initToc), effects := [] }
  else
    let step1 : Option Doc :=
      if (querySelectorAll s.doc selSidebarContent).length = 0 then
        (querySelectorFirst s.doc selNavOnthispage).map
          (fun nav =>
            { s.doc with root := updateByRef s.doc.root nav (fun e => e.addClass "no_sidebar_content") })
      else some s.doc
    match step1 with
    | none => none
    | some d1 =>
      let links := querySelectorAll d1 selTocLink
      let root := links.foldl
        (fun rt l => updateByRef rt l (fun e => e.setAttribute "data-turbolinks" "false"))
        d1.root
      some { state := { s with doc := { d1 with root := root } }
             retry := none
             effects := [Effect.tocbotInit tocbotConfig] }

/-!
`runWhenDOMLoaded` and `initFunction` (lines 1-33), modelled as handler
registration followed by a trace of page events.
-/

/-- `document.readyState`. -/
inductive ReadyState where
  | loading
  | interactive
  | complete
deriving DecidableEq

/-- What the document offers at registration time: its ready state, and
whether `document.addEventListener` exists (the `attachEvent` branch
serves ancient browsers without it). -/
structure DocEnv where
  readyState : ReadyState
  hasAddEventListener : Bool
deriving DecidableEq

/-- The outcome of registering a callback: did it run synchronously, and
on which events does it remain registered. -/
structure Handlers where
  ranImmediately : Bool
  onDOMContentLoaded : Bool
  onReadyStateChange : Bool
  onTurbolinksLoad : Bool
deriving DecidableEq

/-- `runWhenDOMLoaded` (lines 1-21): run the callback at once unless the
document is still loading, else wait for `DOMContentLoaded`, falling
back to `onreadystatechange` polling for `complete`. -/
def runWhenDOMLoaded (env : DocEnv) : Handlers :=
  if env.readyState != ReadyState.loading then
    { ranImmediately := true, onDOMContentLoaded := false,
      onReadyStateChange := false, onTurbolinksLoad := false }
  else if env.hasAddEventListener then
    { ranImmediately := false, onDOMContentLoaded := true,
      onReadyStateChange := false, onTurbolinksLoad := false }
  else
    { ranImmediately := false, onDOMContentLoaded := false,
      onReadyStateChange := true, onTurbolinksLoad := false }

/-- `initFunction` (lines 27-33): `runWhenDOMLoaded(myfunc)` plus a
`turbolinks:load` listener. -/
def initFunction (env : DocEnv) : Handlers :=
  let h := runWhenDOMLoaded env
  { h with onTurbolinksLoad := true }

/-- The document-level events relevant to the registered callbacks. -/
inductive PageEvent where
  | domContentLoaded
  | readyStateChange (st : ReadyState)
  | turbolinksLoad
deriving DecidableEq

/-- How many times the callback runs when `ev` fires: the
`onreadystatechange` handler invokes it only once the state reads
`complete` (line 15). -/
def runsOn (h : Handlers) : PageEvent → Nat
  | .domContentLoaded => if h.onDOMContentLoaded then 1 else 0
  | .readyStateChange st => if h.onReadyStateChange && st == ReadyState.complete then 1 else 0
  | .turbolinksLoad => if h.onTurbolinksLoad then 1 else 0

/-- Total number of runs of the callback: the synchronous run plus the
runs triggered along the event trace. -/
def totalRuns (h : Handlers) (trace : List PageEvent) : Nat :=
  (if h.ranImmediately then 1 else 0) + (trace.map (runsOn h)).sum

/-- Number of `DOMContentLoaded` events in a trace. -/
def countDCL (trace : List PageEvent) : Nat :=
  trace.countP (fun ev => match ev with | .domContentLoaded => true | _ => false)

/-- Number of `readystatechange` events reading `complete` in a trace. -/
def countRSC (trace : List PageEvent) : Nat :=
  trace.countP
    (fun ev => match ev with | .readyStateChange st => st == ReadyState.complete | _ => false)

/-- Number of `turbolinks:load` events in a trace. -/
def countTL (trace : List PageEvent) : Nat :=
  trace.countP (fun ev => match ev with | .turbolinksLoad => true | _ => false)

/-- A trace is browser-consistent for a registration environment: if the
document was still loading when the callback was registered, readiness
arrives exactly once afterwards — one `DOMContentLoaded` and one
`readystatechange` to `complete`. -/
def WFTrace (env : DocEnv) (trace : List PageEvent) : Prop :=
  env.readyState = ReadyState.loading → countDCL trace = 1 ∧ countRSC trace = 1

/-!
Concrete pages used by the witnesses and counterexamples below.
`wDoc` is a one-cell jupyter-book page of the shape the theme renders:
`div.jb_cell.tag_hide_input > div.input > div.inner_cell >
div.input_area > div.highlight > pre`.
-/

def wCell : Elem :=
  .mk 1 "div" ["jb_cell", "tag_hide_input"] [] false []
    (.cons (.mk 2 "div" ["input"] [] false []
      (.cons (.mk 3 "div" ["inner_cell"] [] false []
        (.cons (.mk 4 "div" ["input_area"] [] false []
          (.cons (.mk 5 "div" ["highlight"] [] false []
            (.cons (.mk 6 "pre" [] [] false [] .nil) .nil)) .nil)) .nil)) .nil)) .nil)

def wRoot : Elem := .mk 0 "html" [] [] false [] (.cons wCell .nil)

def wDoc : Doc := ⟨wRoot, 7⟩

/-- The one-cell page, all three libraries loaded, nothing run yet. -/
def wState : PageState := ⟨wDoc, ⟨none, none⟩, ⟨true, true, true⟩, none⟩

/-- The one-cell page with none of the three libraries loaded. -/
def wStateNoLibs : PageState := ⟨wDoc, ⟨none, none⟩, ⟨false, false, false⟩, none⟩

/-- The one-cell page after `findCodeCells` and `findInputCells` ran. -/
def wState1 : PageState := (findInputCells (findCodeCells wState).state).state

/-- A page whose single code cell already carries the id `codecell0`,
with a stale empty `pageElements['codeCells']` entry: the document
`findCodeCells` leaves behind is identical, only `pageElements`
changes. -/
def xCell : Elem :=
  .mk 1 "div" ["input_area"] [] false []
    (.cons (.mk 2 "pre" [] [("id", "codecell0")] false [] .nil) .nil)

def xRoot : Elem := .mk 0 "html" [] [] false [] (.cons xCell .nil)

def xDoc : Doc := ⟨xRoot, 3⟩

def xState : PageState := ⟨xDoc, ⟨some [], none⟩, ⟨true, true, true⟩, none⟩

/-- A page containing a `nav.onthispage` element, used for the `initToc`
witnesses. -/
def navRoot : Elem :=
  .mk 0 "html" [] [] false []
    (.cons (.mk 1 "nav" ["onthispage"] [] false [] .nil) .nil)

def navState : PageState := ⟨⟨navRoot, 2⟩, ⟨some [], some []⟩, ⟨true, true, true⟩, none⟩

/-- A run record standing in for a missing result (`Option.getD`
default in witness statements). -/
def noRun (s : PageState) : RunResult := ⟨s, none, []⟩

/-- The observable outcome of one run: what it did to the document, the
re-scheduling it requested and the third-party calls it made. -/
def obs (rr : RunResult) : Doc × Option (Nat × RName) × List Effect :=
  (rr.state.doc, rr.retry, rr.effects)

/-- A single detached anchor element with no `data-tooltip` attribute
(the `temporarilyChangeTooltip` counterexample). -/
def tipBareRoot : Elem := .mk 0 "a" ["copybtn"] [] false [] .nil

/-- A single detached anchor element carrying `data-tooltip="Copy"`. -/
def tipRoot : Elem := .mk 0 "a" ["copybtn"] [("data-tooltip", "Copy")] false [] .nil

/-!
A family of rendered jupyter-book pages for the hide-button claims:
`flags` lists the page's cells in order, `true` marking a cell tagged
`tag_hide_input`.  Cell `i` occupies refs `6*i+1 … 6*i+6`, has the shape
the theme renders (`div.jb_cell > div.input > div.inner_cell >
div.input_area > div.highlight > pre`) and carries the id
`findInputCells` assigns.  `btnCell` is the same cell after
`addHideButton` injected the `hideCodeButton` markup (`hid`/`chk` track
the later visibility pass, `ls` the label's listeners); `doneCells` and
`finCells` describe whole pages after `addHideButton` and after
`initHiddenCells` respectively, threading the checkbox refs from `b`.
-/

def innerChain (i : Nat) (hid : Bool) : Elem :=
  .mk (6*i+3) "div" ["inner_cell"] [] false []
    (.cons (.mk (6*i+4) "div" ["input_area"] [] false []
      (.cons (.mk (6*i+5) "div" (if hid then ["highlight", "hidden"] else ["highlight"]) [] false []
        (.cons (.mk (6*i+6) "pre" [] [] false [] .nil) .nil)) .nil)) .nil)

def genCell (i : Nat) (t : Bool) : Elem :=
  .mk (6*i+1) "div" (if t then ["jb_cell", "tag_hide_input"] else ["jb_cell"])
    [("id", inputCellId i)] false []
    (.cons (.mk (6*i+2) "div" ["input"] [] false [] (.cons (innerChain i false) .nil)) .nil)

def hideBox (i b : Nat) (chk : Bool) : Elem :=
  .mk b "input" ["hidebtn"]
    [("type", "checkbox"), ("id", "hidebtn" ++ inputCellId i), ("data-id", inputCellId i)]
    chk [] .nil

def hideLabel (i b : Nat) (ls : List String) : Elem :=
  .mk (b+1) "label" ["plusminus"]
    [("title", "Toggle cell"), ("for", "hidebtn" ++ inputCellId i)] false ls
    (.cons (.mk (b+2) "span" ["pm_h"] [] false [] .nil)
      (.cons (.mk (b+3) "span" ["pm_v"] [] false [] .nil) .nil))

def btnCell (i b : Nat) (hid chk : Bool) (ls : List String) : Elem :=
  .mk (6*i+1) "div" ["jb_cell", "tag_hide_input"] [("id", inputCellId i)] false []
    (.cons (.mk (6*i+2) "div" ["input"] [] false []
      (.cons (innerChain i hid)
        (.cons (hideBox i b chk) (.cons (hideLabel i b ls) .nil)))) .nil)

def pendCells : Nat → List Bool → List Elem
  | _, [] => []
  | k, t :: rest => genCell k t :: pendCells (k+1) rest

def doneCells : Nat → Nat → List Bool → List Elem
  | _, _, [] => []
  | k, b, t :: rest =>
    if t then btnCell k b false false ["click"] :: doneCells (k+1) (b+4) rest
    else genCell k false :: doneCells (k+1) b rest

def finCells : Nat → Nat → List Bool → List Elem
  | _, _, [] => []
  | k, b, t :: rest =>
    if t then btnCell k b true true ["click"] :: finCells (k+1) (b+4) rest
    else genCell k false :: finCells (k+1) b rest

def boxRefs : Nat → Nat → List Bool → List Nat
  | _, _, [] => []
  | k, b, t :: rest => if t then b :: boxRefs (k+1) (b+4) rest else boxRefs (k+1) b rest

def cellRefs : Nat → List Bool → List Nat
  | _, [] => []
  | k, _ :: rest => (6*k+1) :: cellRefs (k+1) rest

def mkRoot (cs : List Elem) : Elem := .mk 0 "html" [] [] false [] (ofListEL cs)

def genDoc (flags : List Bool) : Doc := ⟨mkRoot (pendCells 0 flags), 6 * flags.length + 1⟩

/-- The generated page, ready (`pageElements['inputCells']` holding the
cell refs, as `findInputCells` leaves them). -/
def genState (flags : List Bool) : PageState :=
  ⟨genDoc flags, ⟨none, some (cellRefs 0 flags)⟩, ⟨true, true, true⟩, none⟩

/-!
Helper lemmas about the DOM primitives.
-/

/-- A scalar element update: one that leaves identity and children
alone, as `setAttribute`, `classList` edits, `checked` assignment and
listener attachment all do. -/
def ScalarF (f : Elem → Elem) : Prop :=
  ∀ x : Elem, (f x).ref = x.ref ∧ (f x).children = x.children

theorem scalarF_setAttribute (k v : String) :
    ScalarF (fun e => e.setAttribute k v) := by
  intro x; cases x; exact ⟨rfl, rfl⟩

theorem scalarF_addClass (c : String) : ScalarF (fun e => e.addClass c) := by
  intro x; cases x; exact ⟨rfl, rfl⟩

theorem scalarF_removeClass (c : String) : ScalarF (fun e => e.removeClass c) := by
  intro x; cases x; exact ⟨rfl, rfl⟩

theorem scalarF_setChecked (b : Bool) : ScalarF (fun e => e.setChecked b) := by
  intro x; cases x; exact ⟨rfl, rfl⟩

theorem scalarF_addListener (ev : String) : ScalarF (fun e => e.addListener ev) := by
  intro x; cases x; exact ⟨rfl, rfl⟩

mutual
theorem updateE_none_iff (r : Nat) (f : Elem → Elem) (e : Elem) :
    updateE r f e = none ↔ findE r e = none := by
  cases e with
  | mk r0 t c a ch ls cs =>
    by_cases h : r0 = r
    · simp [updateE, findE, h]
    · simp only [updateE, findE, beq_iff_eq, h, if_false, Option.map_eq_none']
      exact updateL_none_iff r f cs
theorem updateL_none_iff (r : Nat) (f : Elem → Elem) (l : ElemList) :
    updateL r f l = none ↔ findL r l = none := by
  cases l with
  | nil => simp [updateL, findL]
  | cons e es =>
    simp only [updateL, findL]
    cases hE : updateE r f e with
    | some e2 =>
      have : findE r e ≠ none := by
        intro hc
        rw [← updateE_none_iff r f e] at hc
        rw [hE] at hc; exact Option.noConfusion hc
      cases hF : findE r e with
      | some x => simp
      | none => exact absurd hF this
    | none =>
      have hFe : findE r e = none := (updateE_none_iff r f e).mp hE
      rw [hFe]
      simp only [Option.map_eq_none']
      exact updateL_none_iff r f es
end

mutual
theorem findE_updateE_same (r : Nat) (f : Elem → Elem) (hf : ScalarF f) (e e2 : Elem)
    (h : updateE r f e = some e2) : findE r e2 = (findE r e).map f := by
  cases e with
  | mk r0 t c a ch ls cs =>
    by_cases hr : r0 = r
    · subst hr
      simp only [updateE, beq_self_eq_true, if_true, Option.some.injEq] at h
      subst h
      have hX : findE r0 (Elem.mk r0 t c a ch ls cs) = some (Elem.mk r0 t c a ch ls cs) := by
        simp [findE]
      rw [hX]
      have h1 := (hf (Elem.mk r0 t c a ch ls cs)).1
      cases hfe : f (Elem.mk r0 t c a ch ls cs) with
      | mk r1 t1 c1 a1 ch1 ls1 cs1 =>
        rw [hfe] at h1
        simp only [Elem.ref] at h1
        simp [findE, h1, hfe]
    · simp only [updateE, beq_iff_eq, hr, if_false, Option.map_eq_some'] at h
      obtain ⟨cs2, hcs, rfl⟩ := h
      simp only [findE, beq_iff_eq, hr, if_false]
      exact findL_updateL_same r f hf cs cs2 hcs
theorem findL_updateL_same (r : Nat) (f : Elem → Elem) (hf : ScalarF f) (l l2 : ElemList)
    (h : updateL r f l = some l2) : findL r l2 = (findL r l).map f := by
  cases l with
  | nil => simp [updateL] at h
  | cons e es =>
    simp only [updateL] at h
    cases hE : updateE r f e with
    | some e2 =>
      rw [hE] at h
      simp only [Option.some.injEq] at h
      subst h
      simp only [findL]
      rw [findE_updateE_same r f hf e e2 hE]
      cases hFe : findE r e with
      | some x => simp
      | none =>
        have : updateE r f e = none := (updateE_none_iff r f e).mpr hFe
        rw [this] at hE; exact Option.noConfusion hE
    | none =>
      rw [hE] at h
      simp only [Option.map_eq_some'] at h
      obtain ⟨es2, hes, rfl⟩ := h
      have hFe : findE r e = none := (updateE_none_iff r f e).mp hE
      simp only [findL, hFe]
      exact findL_updateL_same r f hf es es2 hes
end

/-- The scalar data of an element: everything except its children. -/
def scalarOf (x : Elem) : Nat × String × List String × List (String × String) × Bool × List String :=
  (x.ref, x.tag, x.classes, x.attrs, x.checked, x.listeners)

mutual
theorem findE_updateE_other (r q : Nat) (hq : q ≠ r) (f : Elem → Elem) (hf : ScalarF f)
    (e e2 : Elem) (h : updateE r f e = some e2) :
    (findE q e2).map scalarOf = (findE q e).map scalarOf := by
  cases e with
  | mk r0 t c a ch ls cs =>
    by_cases hr : r0 = r
    · subst hr
      simp only [updateE, beq_self_eq_true, if_true, Option.some.injEq] at h
      subst h
      have h1 := (hf (Elem.mk r0 t c a ch ls cs)).1
      have h2 := (hf (Elem.mk r0 t c a ch ls cs)).2
      cases hfe : f (Elem.mk r0 t c a ch ls cs) with
      | mk r1 t1 c1 a1 ch1 ls1 cs1 =>
        rw [hfe] at h1 h2
        simp only [Elem.ref] at h1
        simp only [Elem.children] at h2
        have hr0q : ¬ (r0 = q) := fun hc => hq hc.symm
        have hr1q : ¬ (r1 = q) := by rw [h1]; exact hr0q
        simp [findE, beq_iff_eq, hr0q, hr1q, h2]
    · simp only [updateE, beq_iff_eq, hr, if_false, Option.map_eq_some'] at h
      obtain ⟨cs2, hcs, rfl⟩ := h
      by_cases hq0 : r0 = q
      · simp [findE, beq_iff_eq, hq0, scalarOf, Elem.ref, Elem.tag, Elem.classes,
          Elem.attrs, Elem.checked, Elem.listeners]
      · simp only [findE, beq_iff_eq, hq0, if_false]
        exact findL_updateL_other r q hq f hf cs cs2 hcs
theorem findL_updateL_other (r q : Nat) (hq : q ≠ r) (f : Elem → Elem) (hf : ScalarF f)
    (l l2 : ElemList) (h : updateL r f l = some l2) :
    (findL q l2).map scalarOf = (findL q l).map scalarOf := by
  cases l with
  | nil => simp [updateL] at h
  | cons e es =>
    simp only [updateL] at h
    cases hE : updateE r f e with
    | some e2 =>
      rw [hE] at h
      simp only [Option.some.injEq] at h
      subst h
      simp only [findL]
      have hrec := findE_updateE_other r q hq f hf e e2 hE
      cases hA : findE q e2 with
      | some x =>
        rw [hA] at hrec
        cases hB : findE q e with
        | some y => rw [hB] at hrec; simpa using hrec
        | none => rw [hB] at hrec; simp at hrec
      | none =>
        rw [hA] at hrec
        cases hB : findE q e with
        | some y => rw [hB] at hrec; simp at hrec
        | none => rfl
    | none =>
      rw [hE] at h
      simp only [Option.map_eq_some'] at h
      obtain ⟨es2, hes, rfl⟩ := h
      simp only [findL]
      cases hB : findE q e with
      | some y => simp
      | none => exact findL_updateL_other r q hq f hf es es2 hes
end

mutual
theorem refsE_updateE (r : Nat) (f : Elem → Elem) (hf : ScalarF f) (e e2 : Elem)
    (h : updateE r f e = some e2) : refsE e2 = refsE e := by
  cases e with
  | mk r0 t c a ch ls cs =>
    by_cases hr : r0 = r
    · subst hr
      simp only [updateE, beq_self_eq_true, if_true, Option.some.injEq] at h
      subst h
      have h1 := (hf (Elem.mk r0 t c a ch ls cs)).1
      have h2 := (hf (Elem.mk r0 t c a ch ls cs)).2
      cases hfe : f (Elem.mk r0 t c a ch ls cs) with
      | mk r1 t1 c1 a1 ch1 ls1 cs1 =>
        rw [hfe] at h1 h2
        simp only [Elem.ref] at h1
        simp only [Elem.children] at h2
        simp [refsE, h1, h2]
    · simp only [updateE, beq_iff_eq, hr, if_false, Option.map_eq_some'] at h
      obtain ⟨cs2, hcs, rfl⟩ := h
      simp only [refsE]
      rw [refsL_updateL r f hf cs cs2 hcs]
theorem refsL_updateL (r : Nat) (f : Elem → Elem) (hf : ScalarF f) (l l2 : ElemList)
    (h : updateL r f l = some l2) : refsL l2 = refsL l := by
  cases l with
  | nil => simp [updateL] at h
  | cons e es =>
    simp only [updateL] at h
    cases hE : updateE r f e with
    | some e2 =>
      rw [hE] at h
      simp only [Option.some.injEq] at h
      subst h
      simp only [refsL]
      rw [refsE_updateE r f hf e e2 hE]
    | none =>
      rw [hE] at h
      simp only [Option.map_eq_some'] at h
      obtain ⟨es2, hes, rfl⟩ := h
      simp only [refsL]
      rw [refsL_updateL r f hf es es2 hes]
end

/-- `updateByRef` through the total wrapper: find at the updated ref. -/
theorem findE_updateByRef_same (root : Elem) (r : Nat) (f : Elem → Elem) (hf : ScalarF f)
    (e : Elem) (h : findE r root = some e) :
    findE r (updateByRef root r f) = some (f e) := by
  unfold updateByRef
  cases hU : updateE r f root with
  | some root2 =>
    simp only [Option.getD]
    rw [findE_updateE_same r f hf root root2 hU, h, Option.map]
  | none =>
    have : findE r root = none := (updateE_none_iff r f root).mp hU
    rw [h] at this; exact Option.noConfusion this

/-- `updateByRef` leaves the scalar data of every other element alone. -/
theorem findE_updateByRef_other (root : Elem) (r q : Nat) (hq : q ≠ r) (f : Elem → Elem)
    (hf : ScalarF f) :
    (findE q (updateByRef root r f)).map scalarOf = (findE q root).map scalarOf := by
  unfold updateByRef
  cases hU : updateE r f root with
  | some root2 =>
    simp only [Option.getD]
    exact findE_updateE_other r q hq f hf root root2 hU
  | none => simp

/-- `updateByRef` preserves the refs of the tree. -/
theorem refsE_updateByRef (root : Elem) (r : Nat) (f : Elem → Elem) (hf : ScalarF f) :
    refsE (updateByRef root r f) = refsE root := by
  unfold updateByRef
  cases hU : updateE r f root with
  | some root2 => simpa using refsE_updateE r f hf root root2 hU
  | none => simp

/-- Looking up the key just written into an attribute list. -/
theorem find_setAttrList_same (a : List (String × String)) (k v : String) :
    ((setAttrList a k v).find? (fun p => p.1 == k)).map (fun p => p.2) = some v := by
  induction a with
  | nil => simp [setAttrList]
  | cons p rest ih =>
    cases p with
    | mk k0 v0 =>
      by_cases h : k0 = k
      · subst h
        simp [setAttrList, List.find?_cons]
      · have hb : (k0 == k) = false := by simp [h]
        simp [setAttrList, hb, List.find?_cons, ih]

/-- Writing one key leaves lookups of other keys unchanged. -/
theorem find_setAttrList_other (a : List (String × String)) (k k2 v : String) (h : k2 ≠ k) :
    (setAttrList a k v).find? (fun p => p.1 == k2) = a.find? (fun p => p.1 == k2) := by
  induction a with
  | nil =>
    have hb : (k == k2) = false := by simp; exact fun hc => h hc.symm
    simp [setAttrList, List.find?_cons, hb]
  | cons p rest ih =>
    cases p with
    | mk k0 v0 =>
      by_cases h0 : k0 = k
      · subst h0
        have hb0 : (k0 == k2) = false := by simp; exact fun hc => h hc.symm
        simp [setAttrList, List.find?_cons, hb0]
      · have hb : (k0 == k) = false := by simp [h0]
        cases hbk : (k0 == k2) with
        | true => simp [setAttrList, hb, List.find?_cons, hbk]
        | false => simp [setAttrList, hb, List.find?_cons, hbk, ih]

/-- Setting an attribute makes `getAttribute` read it back. -/
theorem getAttribute_setAttribute_same (e : Elem) (k v : String) :
    (e.setAttribute k v).getAttribute k = some v := by
  cases e with
  | mk r t c a ch ls cs =>
    simp only [Elem.setAttribute, Elem.getAttribute, Elem.attrs]
    exact find_setAttrList_same a k v

/-- Setting one attribute leaves the others readable. -/
theorem getAttribute_setAttribute_other (e : Elem) (k k2 v : String) (h : k2 ≠ k) :
    (e.setAttribute k v).getAttribute k2 = e.getAttribute k2 := by
  cases e with
  | mk r t c a ch ls cs =>
    simp only [Elem.setAttribute, Elem.getAttribute, Elem.attrs]
    rw [find_setAttrList_other a k k2 v h]

mutual
theorem findE_none_iff (r : Nat) (e : Elem) : findE r e = none ↔ r ∉ refsE e := by
  cases e with
  | mk r0 t c a ch ls cs =>
    by_cases h : r0 = r
    · subst h; simp [findE, refsE]
    · simp only [findE, refsE, beq_iff_eq, h, if_false, List.mem_cons]
      rw [findL_none_iff r cs]
      constructor
      · intro hn hc
        rcases hc with hc | hc
        · exact h hc.symm
        · exact hn hc
      · intro hn hc
        exact hn (Or.inr hc)
theorem findL_none_iff (r : Nat) (l : ElemList) : findL r l = none ↔ r ∉ refsL l := by
  cases l with
  | nil => simp [findL, refsL]
  | cons e es =>
    simp only [findL, refsL, List.mem_append]
    cases hE : findE r e with
    | some x =>
      have hmem : r ∈ refsE e := by
        by_contra hc
        rw [← findE_none_iff r e] at hc
        rw [hE] at hc; exact Option.noConfusion hc
      show some x = none ↔ _
      simp
      exact fun hn => absurd hmem hn
    | none =>
      have hne : r ∉ refsE e := (findE_none_iff r e).mp hE
      rw [findL_none_iff r es]
      constructor
      · intro hn hc
        rcases hc with hc | hc
        · exact hne hc
        · exact hn hc
      · intro hn hc
        exact hn (Or.inr hc)
end

/-- Refs found in the tree are exactly those `findE` resolves. -/
theorem findE_isSome_of_mem (r : Nat) (e : Elem) (h : r ∈ refsE e) :
    ∃ x, findE r e = some x := by
  cases hF : findE r e with
  | some x => exact ⟨x, rfl⟩
  | none => exact absurd ((findE_none_iff r e).mp hF) (fun hc => hc h)

mutual
theorem collectE_sublist (sels : List Sel) (e : Elem) (prevs : List Elem) (ups : List Frame) :
    List.Sublist (collectE sels e prevs ups) (refsE e) := by
  cases e with
  | mk r t c a ch ls cs =>
    simp only [collectE, refsE]
    cases sels.any
        (fun s => matchesAt s (Elem.mk r t c a ch ls cs) prevs ups) with
    | true =>
      simp only [if_true]
      exact (collectL_sublist sels cs [] ((Elem.mk r t c a ch ls cs, prevs) :: ups)).cons₂ r
    | false =>
      simp only [Bool.false_eq_true, if_false, List.nil_append]
      exact (collectL_sublist sels cs [] ((Elem.mk r t c a ch ls cs, prevs) :: ups)).cons r
theorem collectL_sublist (sels : List Sel) (l : ElemList) (prevs : List Elem) (ups : List Frame) :
    List.Sublist (collectL sels l prevs ups) (refsL l) := by
  cases l with
  | nil => simp [collectL, refsL]
  | cons e es =>
    simp only [collectL, refsL]
    exact (collectE_sublist sels e prevs ups).append (collectL_sublist sels es (e :: prevs) ups)
end

/-- `querySelectorAll` returns a sublist of the document refs. -/
theorem querySelectorAll_sublist (d : Doc) (sels : List Sel) :
    List.Sublist (querySelectorAll d sels) (refsE d.root) :=
  collectE_sublist sels d.root [] []

/-- Reads of other elements are untouched by `updateByRef`. -/
theorem getAttributeByRef_updateByRef_other (root : Elem) (r q : Nat) (hq : q ≠ r)
    (f : Elem → Elem) (hf : ScalarF f) (k : String) :
    getAttributeByRef (updateByRef root r f) q k = getAttributeByRef root q k := by
  unfold getAttributeByRef
  have h := findE_updateByRef_other root r q hq f hf
  cases hA : findE q (updateByRef root r f) with
  | some x =>
    rw [hA] at h
    cases hB : findE q root with
    | some y =>
      rw [hB] at h
      simp only [Option.map, Option.some.injEq, scalarOf] at h
      simp only [Option.bind]
      cases x with
      | mk xr xt xc xa xch xls xcs =>
        cases y with
        | mk yr yt yc ya ych yls ycs =>
          simp only [Elem.attrs, Elem.ref, Elem.tag, Elem.classes, Elem.checked,
            Elem.listeners, Prod.mk.injEq] at h
          simp [Elem.getAttribute, Elem.attrs, h.2.2.2.1]
    | none => rw [hB] at h; simp at h
  | none =>
    rw [hA] at h
    cases hB : findE q root with
    | some y => rw [hB] at h; simp at h
    | none => simp

/-- Assign the string of each pair as the `id` of the element whose ref
is the pair's first component, left to right: the shape of the
`forEach` loops of `findCodeCells` and `findInputCells`. -/
def assignIds (root : Elem) (pairs : List (Nat × String)) : Elem :=
  pairs.foldl (fun rt pr => updateByRef rt pr.1 (fun e => e.setAttribute "id" pr.2)) root

theorem assignIds_nil (root : Elem) : assignIds root [] = root := rfl

theorem assignIds_cons (root : Elem) (pr : Nat × String) (rest : List (Nat × String)) :
    assignIds root (pr :: rest) =
      assignIds (updateByRef root pr.1 (fun e => e.setAttribute "id" pr.2)) rest := rfl

/-- `assignIds` preserves the refs of the tree. -/
theorem refsE_assignIds (root : Elem) (pairs : List (Nat × String)) :
    refsE (assignIds root pairs) = refsE root := by
  induction pairs generalizing root with
  | nil => rfl
  | cons pr rest ih =>
    rw [assignIds_cons, ih, refsE_updateByRef _ _ _ (scalarF_setAttribute "id" pr.2)]

/-- Elements whose ref is not written keep their attributes through
`assignIds`. -/
theorem getAttributeByRef_assignIds_notin (root : Elem) (pairs : List (Nat × String))
    (q : Nat) (hq : q ∉ pairs.map Prod.fst) (k : String) :
    getAttributeByRef (assignIds root pairs) q k = getAttributeByRef root q k := by
  induction pairs generalizing root with
  | nil => rfl
  | cons pr rest ih =>
    simp only [List.map_cons, List.mem_cons] at hq
    push_neg at hq
    rw [assignIds_cons, ih _ hq.2,
      getAttributeByRef_updateByRef_other root pr.1 q hq.1 _ (scalarF_setAttribute "id" pr.2)]

/-- After `assignIds`, every written element reads back its value. -/
theorem getAttributeByRef_assignIds (root : Elem) (pairs : List (Nat × String))
    (hnd : (pairs.map Prod.fst).Nodup) (hmem : ∀ pr ∈ pairs, pr.1 ∈ refsE root) :
    ∀ pr ∈ pairs, getAttributeByRef (assignIds root pairs) pr.1 "id" = some pr.2 := by
  induction pairs generalizing root with
  | nil => intro pr hpr; simp at hpr
  | cons hd rest ih =>
    intro pr hpr
    simp only [List.map_cons, List.nodup_cons] at hnd
    rcases List.mem_cons.mp hpr with hpr | hpr
    · subst hpr
      obtain ⟨e, he⟩ := findE_isSome_of_mem pr.1 root (hmem pr (List.mem_cons_self pr rest))
      rw [assignIds_cons,
        getAttributeByRef_assignIds_notin _ rest pr.1 hnd.1 "id"]
      unfold getAttributeByRef
      rw [findE_updateByRef_same root pr.1 _ (scalarF_setAttribute "id" pr.2) e he]
      simp [getAttribute_setAttribute_same]
    · rw [assignIds_cons]
      refine ih _ hnd.2 ?_ pr hpr
      intro pr2 hpr2
      rw [refsE_updateByRef _ _ _ (scalarF_setAttribute "id" hd.2)]
      exact hmem pr2 (List.mem_cons_of_mem hd hpr2)

/-- The `forEach` of `findCodeCells` / `findInputCells`: folding the
enumerated cell list writes `g i` as the id of the `i`-th cell. -/
theorem getAttributeByRef_enum_fold (root : Elem) (cells : List Nat) (g : Nat → String)
    (hnd : (refsE root).Nodup) (hsub : List.Sublist cells (refsE root)) :
    ∀ i (hi : i < cells.length),
      getAttributeByRef
        (cells.enum.foldl
          (fun rt ir => updateByRef rt ir.2 (fun e => e.setAttribute "id" (g ir.1))) root)
        (cells.get ⟨i, hi⟩) "id" = some (g i) := by
  intro i hi
  have hfold :
      cells.enum.foldl
          (fun rt ir => updateByRef rt ir.2 (fun e => e.setAttribute "id" (g ir.1))) root
        = assignIds root (cells.enum.map (fun ir => (ir.2, g ir.1))) := by
    unfold assignIds
    rw [List.foldl_map]
  rw [hfold]
  have hfst : (cells.enum.map (fun ir => (ir.2, g ir.1))).map Prod.fst = cells := by
    rw [List.map_map]
    exact List.enum_map_snd cells
  have hnd2 : ((cells.enum.map (fun ir => (ir.2, g ir.1))).map Prod.fst).Nodup := by
    rw [hfst]; exact hsub.nodup hnd
  have hmem : ∀ pr ∈ cells.enum.map (fun ir => (ir.2, g ir.1)), pr.1 ∈ refsE root := by
    intro pr hpr
    rcases List.mem_map.mp hpr with ⟨ir, hir, rfl⟩
    have : ir.2 ∈ cells := by
      rw [← List.enum_map_snd cells]
      exact List.mem_map_of_mem Prod.snd hir
    exact hsub.subset this
  have hidx : (cells.get ⟨i, hi⟩, g i) ∈ cells.enum.map (fun ir => (ir.2, g ir.1)) := by
    have hlen : i < (cells.enum.map (fun ir => (ir.2, g ir.1))).length := by
      simpa using hi
    have : (cells.enum.map (fun ir => (ir.2, g ir.1))).get ⟨i, hlen⟩
        = (cells.get ⟨i, hi⟩, g i) := by
      simp [List.getElem_enum]
    rw [← this]
    exact List.get_mem _ i hlen
  exact getAttributeByRef_assignIds root _ hnd2 hmem _ hidx

/-!
The claims.
-/

/-- C5: `findCodeCells` assigns the id `codecell-i` to the `i`-th element
(0-based, in document order) matching its code-cell selectors and stores
the matched collection in `pageElements['codeCells']`; `findInputCells`
likewise assigns `inputcell-i` to the `i`-th element matching
`div.jb_cell` and stores the collection in
`pageElements['inputCells']`.  (Stated on documents with distinct
element identities, which every real DOM tree has.) -/
theorem C5_findCells_assign_ids (s : PageState) (hnd : (refsE s.doc.root).Nodup) :
    ((findCodeCells s).state.pageElements.codeCells
        = some (querySelectorAll s.doc selCodeCells) ∧
      ∀ i (hi : i < (querySelectorAll s.doc selCodeCells).length),
        getAttributeByRef (findCodeCells s).state.doc.root
          ((querySelectorAll s.doc selCodeCells).get ⟨i, hi⟩) "id" = some (codeCellId i)) ∧
    ((findInputCells s).state.pageElements.inputCells
        = some (querySelectorAll s.doc selJbCell) ∧
      ∀ i (hi : i < (querySelectorAll s.doc selJbCell).length),
        getAttributeByRef (findInputCells s).state.doc.root
          ((querySelectorAll s.doc selJbCell).get ⟨i, hi⟩) "id" = some (inputCellId i)) := by
  refine ⟨⟨rfl, ?_⟩, ⟨rfl, ?_⟩⟩
  · exact getAttributeByRef_enum_fold s.doc.root _ codeCellId hnd
      (querySelectorAll_sublist s.doc selCodeCells)
  · exact getAttributeByRef_enum_fold s.doc.root _ inputCellId hnd
      (querySelectorAll_sublist s.doc selJbCell)

/-- Witness for C5 on the one-cell page: the single code cell (ref 6)
receives id `codecell0`, the single input cell (ref 1) receives id
`inputcell0`, and both collections are stored. -/
theorem C5_witness :
    (refsE wState.doc.root).Nodup ∧
    (findCodeCells wState).state.pageElements.codeCells = some [6] ∧
    getAttributeByRef (findCodeCells wState).state.doc.root 6 "id" = some "codecell0" ∧
    (findInputCells wState).state.pageElements.inputCells = some [1] ∧
    getAttributeByRef (findInputCells wState).state.doc.root 1 "id" = some "inputcell0" :=
  ⟨by decide,
   (C5_findCells_assign_ids wState (by decide)).1.1,
   (C5_findCells_assign_ids wState (by decide)).1.2 0 (by decide),
   (C5_findCells_assign_ids wState (by decide)).2.1,
   (C5_findCells_assign_ids wState (by decide)).2.2 0 (by decide)⟩

/-- C3: the only error handling in the scripts is a polling-retry loop
waiting for an optional third-party script: with the library global
undefined, each of `addCopyButtonToCodeCells`, `initAnchors` and
`initToc` leaves the state untouched and re-schedules itself after
250 ms; with the global defined, a completing run never re-schedules,
so the work happens only once the global is defined. -/
theorem C3_polling_retry :
    (∀ s : PageState, s.win.clipboardJS = false →
      addCopyButtonToCodeCells s =
        some { state := s, retry := some (250, RName.addCopyButtonToCodeCells), effects := [] }) ∧
    (∀ s : PageState, s.win.anchors = false →
      initAnchors s = { state := s, retry := some (250, RName.initAnchors), effects := [] }) ∧
    (∀ s : PageState, s.win.tocbot = false →
      initToc s = some { state := s, retry := some (250, RName.initToc), effects := [] }) ∧
    (∀ (s : PageState) (rr : RunResult), s.win.clipboardJS = true →
      addCopyButtonToCodeCells s = some rr → rr.retry = none) ∧
    (∀ s : PageState, s.win.anchors = true → (initAnchors s).retry = none) ∧
    (∀ (s : PageState) (rr : RunResult), s.win.tocbot = true →
      initToc s = some rr → rr.retry = none) := by
  refine ⟨?_, ?_, ?_, ?_, ?_, ?_⟩
  · intro s h; simp [addCopyButtonToCodeCells, h]
  · intro s h; simp [initAnchors, h]
  · intro s h; simp [initToc, h]
  · intro s rr h hrun
    simp only [addCopyButtonToCodeCells, h] at hrun
    simp only [Bool.true_eq_false, if_false] at hrun
    cases hc : s.pageElements.codeCells with
    | none => rw [hc] at hrun; exact Option.noConfusion hrun
    | some cells =>
      rw [hc] at hrun
      simp only [Option.some.injEq] at hrun
      rw [← hrun]
  · intro s h; simp [initAnchors, h]
  · intro s rr h hrun
    simp only [initToc, h] at hrun
    simp only [Bool.true_eq_false, if_false] at hrun
    cases hc : (if (querySelectorAll s.doc selSidebarContent).length = 0 then
        (querySelectorFirst s.doc selNavOnthispage).map
          (fun nav =>
            { s.doc with
              root := updateByRef s.doc.root nav (fun e => e.addClass "no_sidebar_content") })
      else some s.doc) with
    | none => rw [hc] at hrun; exact Option.noConfusion hrun
    | some d1 =>
      rw [hc] at hrun
      simp only [Option.some.injEq] at hrun
      rw [← hrun]

/-- Witness for C3: on the one-cell page each polling routine with its
library missing re-schedules itself and changes nothing, and with the
library present each completes without re-scheduling. -/
theorem C3_witness :
    (wStateNoLibs.win.clipboardJS = false ∧
      addCopyButtonToCodeCells wStateNoLibs =
        some { state := wStateNoLibs, retry := some (250, RName.addCopyButtonToCodeCells),
               effects := [] }) ∧
    (wStateNoLibs.win.anchors = false ∧
      initAnchors wStateNoLibs =
        { state := wStateNoLibs, retry := some (250, RName.initAnchors), effects := [] }) ∧
    (wStateNoLibs.win.tocbot = false ∧
      initToc wStateNoLibs =
        some { state := wStateNoLibs, retry := some (250, RName.initToc), effects := [] }) ∧
    (navState.win.anchors = true ∧ (initAnchors navState).retry = none) ∧
    (navState.win.tocbot = true ∧
      (initToc navState).map (fun rr => rr.retry) = some none) := by
  refine ⟨⟨rfl, C3_polling_retry.1 wStateNoLibs rfl⟩,
          ⟨rfl, C3_polling_retry.2.1 wStateNoLibs rfl⟩,
          ⟨rfl, C3_polling_retry.2.2.1 wStateNoLibs rfl⟩,
          ⟨rfl, C3_polling_retry.2.2.2.2.1 navState rfl⟩,
          ⟨rfl, ?_⟩⟩
  have h6 := C3_polling_retry.2.2.2.2.2 navState
  have hrun : initToc navState =
      some ((initToc navState).getD { state := navState, retry := none, effects := [] }) := rfl
  rw [hrun, Option.map_some']
  rw [h6 _ rfl hrun]

/-- The per-event run counts split by handler. -/
theorem totalRuns_split (h : Handlers) (trace : List PageEvent) :
    (trace.map (runsOn h)).sum =
      (if h.onDOMContentLoaded then countDCL trace else 0) +
      (if h.onReadyStateChange then countRSC trace else 0) +
      (if h.onTurbolinksLoad then countTL trace else 0) := by
  induction trace with
  | nil => simp [countDCL, countRSC, countTL]
  | cons ev rest ih =>
    simp only [List.map_cons, List.sum_cons, ih]
    cases ev with
    | domContentLoaded =>
      simp only [runsOn, countDCL, countRSC, countTL, List.countP_cons]
      split_ifs <;> simp_all <;> omega
    | readyStateChange st =>
      simp only [runsOn, countDCL, countRSC, countTL, List.countP_cons]
      by_cases hst : st == ReadyState.complete
      · simp only [hst]
        split_ifs <;> simp_all <;> omega
      · simp only [Bool.not_eq_true] at hst
        simp only [hst]
        split_ifs <;> simp_all <;> omega
    | turbolinksLoad =>
      simp only [runsOn, countDCL, countRSC, countTL, List.countP_cons]
      split_ifs <;> simp_all <;> omega

/-- C4: a callback registered through `initFunction` runs exactly once
when the page becomes ready — immediately if `document.readyState` is
not `loading` at registration, else on the `DOMContentLoaded` (or
`readystatechange` to `complete`) event — and once more per subsequent
`turbolinks:load` event. -/
theorem C4_initFunction_runs (env : DocEnv) (trace : List PageEvent)
    (hwf : WFTrace env trace) :
    totalRuns (initFunction env) trace = 1 + countTL trace := by
  unfold totalRuns
  rw [totalRuns_split]
  by_cases hload : env.readyState = ReadyState.loading
  · obtain ⟨hdcl, hrsc⟩ := hwf hload
    by_cases hael : env.hasAddEventListener
    · simp only [initFunction, runWhenDOMLoaded, hload, hael, hdcl] <;>
        simp [hdcl] <;> omega
    · simp only [initFunction, runWhenDOMLoaded, hload, hael] <;>
        simp [hrsc] <;> omega
  · have hb : (env.readyState != ReadyState.loading) = true := by
      simp [bne_iff_ne]; exact hload
    simp [initFunction, runWhenDOMLoaded, hb] <;> omega

/-- Witness for C4: registration while loading, then `DOMContentLoaded`,
`readystatechange` to `complete` and one `turbolinks:load`: two runs in
total. -/
theorem C4_witness :
    WFTrace ⟨ReadyState.loading, true⟩
      [PageEvent.domContentLoaded, PageEvent.readyStateChange ReadyState.complete,
       PageEvent.turbolinksLoad] ∧
    totalRuns (initFunction ⟨ReadyState.loading, true⟩)
      [PageEvent.domContentLoaded, PageEvent.readyStateChange ReadyState.complete,
       PageEvent.turbolinksLoad] =
      1 + countTL
        [PageEvent.domContentLoaded, PageEvent.readyStateChange ReadyState.complete,
         PageEvent.turbolinksLoad] :=
  ⟨fun _ => ⟨rfl, rfl⟩,
   C4_initFunction_runs ⟨ReadyState.loading, true⟩ _ (fun _ => ⟨rfl, rfl⟩)⟩

/-- C10, counterexample: on an element with no `data-tooltip` attribute,
the set-then-restore round trip of `temporarilyChangeTooltip` does not
restore the previous value: `getAttribute` returned `null`, and the
timer's `setAttribute(…, null)` stores the string `"null"`, leaving the
attribute present afterwards. -/
theorem C10_counterexample :
    getAttributeByRef tipBareRoot 0 "data-tooltip" = none ∧
    getAttributeByRef
      (tooltipTimerFire (temporarilyChangeTooltip tipBareRoot 0 "Copied!").1 0
        (temporarilyChangeTooltip tipBareRoot 0 "Copied!").2.2) 0 "data-tooltip"
      = some "null" := by
  exact ⟨rfl, rfl⟩

/-- C10, amended: provided the element carries a `data-tooltip`
attribute before the call (and no other write interleaves),
`temporarilyChangeTooltip` sets the attribute to the new text, arms a
2000 ms timer, and the timer restores exactly the previous value; an
element lacking the attribute instead ends up with the literal string
`"null"`. -/
theorem C10_tooltip_roundtrip (root : Elem) (el : Nat) (newText old : String)
    (h : getAttributeByRef root el "data-tooltip" = some old) :
    (temporarilyChangeTooltip root el newText).2.1 = 2000 ∧
    getAttributeByRef (temporarilyChangeTooltip root el newText).1 el "data-tooltip"
      = some newText ∧
    getAttributeByRef
      (tooltipTimerFire (temporarilyChangeTooltip root el newText).1 el
        (temporarilyChangeTooltip root el newText).2.2) el "data-tooltip"
      = some old := by
  obtain ⟨e, he⟩ : ∃ e, findE el root = some e := by
    unfold getAttributeByRef at h
    cases hF : findE el root with
    | some e => exact ⟨e, rfl⟩
    | none => rw [hF] at h; exact Option.noConfusion h
  have hold : (temporarilyChangeTooltip root el newText).2.2 = some old := h
  refine ⟨rfl, ?_, ?_⟩
  · show getAttributeByRef
        (updateByRef root el (fun e => e.setAttribute "data-tooltip" newText)) el "data-tooltip"
      = some newText
    unfold getAttributeByRef
    rw [findE_updateByRef_same root el _ (scalarF_setAttribute "data-tooltip" newText) e he]
    simp [getAttribute_setAttribute_same]
  · rw [hold]
    show getAttributeByRef
        (updateByRef (updateByRef root el (fun e => e.setAttribute "data-tooltip" newText))
          el (fun e => e.setAttribute "data-tooltip" (jsStr (some old)))) el "data-tooltip"
      = some old
    have he2 : findE el (updateByRef root el (fun e => e.setAttribute "data-tooltip" newText))
        = some (e.setAttribute "data-tooltip" newText) :=
      findE_updateByRef_same root el _ (scalarF_setAttribute "data-tooltip" newText) e he
    unfold getAttributeByRef
    rw [findE_updateByRef_same _ el _ (scalarF_setAttribute "data-tooltip" (jsStr (some old)))
      _ he2]
    simp [getAttribute_setAttribute_same, jsStr]

/-- Witness for C10 (amended): on an element carrying
`data-tooltip="Copy"`, the round trip goes to `Copied!` and back. -/
theorem C10_witness :
    getAttributeByRef tipRoot 0 "data-tooltip" = some "Copy" ∧
    getAttributeByRef (temporarilyChangeTooltip tipRoot 0 "Copied!").1 0 "data-tooltip"
      = some "Copied!" ∧
    getAttributeByRef
      (tooltipTimerFire (temporarilyChangeTooltip tipRoot 0 "Copied!").1 0
        (temporarilyChangeTooltip tipRoot 0 "Copied!").2.2) 0 "data-tooltip"
      = some "Copy" :=
  ⟨rfl, (C10_tooltip_roundtrip tipRoot 0 "Copied!" "Copy" rfl).2.1,
   (C10_tooltip_roundtrip tipRoot 0 "Copied!" "Copy" rfl).2.2⟩

/-- C1, counterexample: `findCodeCells` can leave the document bit-for-bit
unchanged (every matched cell already carries its id) while still
changing `pageElements['codeCells']` — and `addCopyButtonToCodeCells`
then behaves differently on the same document, so its behaviour depends
on state another routine wrote through a channel other than the DOM. -/
theorem C1_counterexample :
    (findCodeCells xState).state.doc = xState.doc ∧
    (findCodeCells xState).state.pageElements.codeCells ≠ xState.pageElements.codeCells ∧
    ((addCopyButtonToCodeCells xState).map (fun rr => refsE rr.state.doc.root)) ≠
      ((addCopyButtonToCodeCells (findCodeCells xState).state).map
        (fun rr => refsE rr.state.doc.root)) := by
  exact ⟨rfl, by decide, by decide⟩

/-- C2, counterexample: `addHideButton` writes the undeclared global
`hideLink` — shared mutable state outside the DOM that is not
`pageElements` — so the routines do keep another variable live across
invocations. -/
theorem C2_counterexample :
    wState1.hideLink = none ∧
    (addHideButton wState1).map (fun rr => rr.state.hideLink) = some (some 8) := by
  exact ⟨rfl, by decide⟩

/-- The document part of the `addHideButton` loop never reads the
incoming `hideLink` value: it is write-only state. -/
theorem foldlM_addHideButtonStep_fst (cells : List Nat) (d : Doc) (h1 h2 : Option Nat) :
    (cells.foldlM addHideButtonStep (d, h1)).map Prod.fst
      = (cells.foldlM addHideButtonStep (d, h2)).map Prod.fst := by
  induction cells generalizing d h1 h2 with
  | nil => rfl
  | cons c rest ih =>
    rw [List.foldlM_cons, List.foldlM_cons]
    show (addHideButtonStep (d, h1) c >>= fun b => rest.foldlM addHideButtonStep b).map Prod.fst
        = (addHideButtonStep (d, h2) c >>= fun b => rest.foldlM addHideButtonStep b).map Prod.fst
    cases hF : findE c d.root with
    | none => simp [addHideButtonStep, hF]
    | some cell =>
      by_cases htag : cell.classes.contains "tag_hide_input" = false
      · simp only [addHideButtonStep, hF, htag, if_true, Option.some_bind]
        exact ih d h1 h2
      · simp only [addHideButtonStep, hF, htag, Bool.false_eq_true, if_false]
        cases hQ : elemQuerySelector d c selDivInput with
        | none => simp
        | some divInput =>
          simp only
          cases hL : querySelectorFirst
              ({ root := appendChildByRef d.root divInput
                    (hideCodeButton (jsStr (cell.getAttribute "id")) d.nextRef),
                  nextRef := d.nextRef + 4 } : Doc)
              (selHideLink (jsStr (cell.getAttribute "id"))) with
          | none => simp
          | some link =>
            simp only [Option.some_bind]
            exact ih _ _ _

/-- `addHideButton` leaves `window` and `pageElements` untouched. -/
theorem addHideButton_frame (s : PageState) (rr : RunResult)
    (hrun : addHideButton s = some rr) :
    rr.state.win = s.win ∧ rr.state.pageElements = s.pageElements := by
  unfold addHideButton at hrun
  split at hrun
  · cases hrun; exact ⟨rfl, rfl⟩
  · split at hrun
    · exact Option.noConfusion hrun
    · split at hrun
      · exact Option.noConfusion hrun
      · cases hrun; exact ⟨rfl, rfl⟩

/-- The observable behaviour of `addHideButton` reads only the document
and `pageElements['inputCells']` (in particular not `hideLink`). -/
theorem addHideButton_read_frame (s t : PageState) (hdoc : s.doc = t.doc)
    (hic : s.pageElements.inputCells = t.pageElements.inputCells) :
    (addHideButton s).map obs = (addHideButton t).map obs := by
  unfold addHideButton
  rw [hdoc, hic]
  by_cases hg : (querySelectorFirst t.doc selHideGuard).isSome
  · simp [hg, obs, hdoc]
  · simp only [hg, Bool.false_eq_true, if_false]
    cases t.pageElements.inputCells with
    | none => rfl
    | some cells =>
      simp only
      have hfold := foldlM_addHideButtonStep_fst cells t.doc s.hideLink t.hideLink
      cases hA : cells.foldlM addHideButtonStep (t.doc, s.hideLink) with
      | none =>
        rw [hA] at hfold
        cases hB : cells.foldlM addHideButtonStep (t.doc, t.hideLink) with
        | none => rfl
        | some st2 => rw [hB] at hfold; simp at hfold
      | some st =>
        rw [hA] at hfold
        cases hB : cells.foldlM addHideButtonStep (t.doc, t.hideLink) with
        | none => rw [hB] at hfold; simp at hfold
        | some st2 =>
          rw [hB] at hfold
          simp only [Option.map_some', Option.some.injEq] at hfold
          simp [obs, hfold]

/-- The observable behaviour of `initHiddenCells` reads only the
document and `pageElements['inputCells']`. -/
theorem initHiddenCells_read_frame (s t : PageState) (hdoc : s.doc = t.doc)
    (hic : s.pageElements.inputCells = t.pageElements.inputCells) :
    (initHiddenCells s).map obs = (initHiddenCells t).map obs := by
  unfold initHiddenCells
  have hAB := addHideButton_read_frame s t hdoc hic
  cases hA : addHideButton s with
  | none =>
    rw [hA] at hAB
    cases hB : addHideButton t with
    | none => rfl
    | some rr2 => rw [hB] at hAB; simp at hAB
  | some rr1 =>
    rw [hA] at hAB
    cases hB : addHideButton t with
    | none => rw [hB] at hAB; simp at hAB
    | some rr2 =>
      rw [hB] at hAB
      simp only [Option.map_some', Option.some.injEq, obs, Prod.mk.injEq] at hAB
      obtain ⟨hd12, hr12, he12⟩ := hAB
      simp only [hd12, hr12, he12]
      cases hfold : (querySelectorAll rr2.state.doc selHideGuard).foldlM
          (fun d item =>
            (setCodeCellVisibility d item "hidden").map
              (fun d1 =>
                { d1 with root := updateByRef d1.root item (fun e => e.setChecked true) }))
          rr2.state.doc with
      | none => rfl
      | some d2 => simp [obs, he12]

/-- The observable behaviour of `addCopyButtonToCodeCells` reads only
the document, `pageElements['codeCells']` and `window.ClipboardJS`. -/
theorem addCopy_read_frame (s t : PageState) (hdoc : s.doc = t.doc)
    (hcc : s.pageElements.codeCells = t.pageElements.codeCells)
    (hwin : s.win.clipboardJS = t.win.clipboardJS) :
    (addCopyButtonToCodeCells s).map obs = (addCopyButtonToCodeCells t).map obs := by
  unfold addCopyButtonToCodeCells
  rw [hdoc, hcc, hwin]
  by_cases hw : t.win.clipboardJS = false
  · simp [hw, obs, hdoc]
  · simp only [hw, if_false]
    cases t.pageElements.codeCells with
    | none => rfl
    | some cells => simp [obs]

/-- `addCopyButtonToCodeCells` leaves `window`, `pageElements` and
`hideLink` untouched. -/
theorem addCopy_frame (s : PageState) (rr : RunResult)
    (hrun : addCopyButtonToCodeCells s = some rr) :
    rr.state.win = s.win ∧ rr.state.hideLink = s.hideLink ∧
    rr.state.pageElements = s.pageElements := by
  unfold addCopyButtonToCodeCells at hrun
  split at hrun
  · cases hrun; exact ⟨rfl, rfl, rfl⟩
  · split at hrun
    · exact Option.noConfusion hrun
    · cases hrun; exact ⟨rfl, rfl, rfl⟩

/-- `initToc` leaves `window`, `pageElements` and `hideLink`
untouched. -/
theorem initToc_frame (s : PageState) (rr : RunResult)
    (hrun : initToc s = some rr) :
    rr.state.win = s.win ∧ rr.state.hideLink = s.hideLink ∧
    rr.state.pageElements = s.pageElements := by
  unfold initToc at hrun
  split at hrun
  · cases hrun; exact ⟨rfl, rfl, rfl⟩
  · split at hrun
    · cases hq : querySelectorFirst s.doc selNavOnthispage with
      | none => rw [hq] at hrun; exact Option.noConfusion hrun
      | some nav => rw [hq] at hrun; cases hrun; exact ⟨rfl, rfl, rfl⟩
    · cases hrun; exact ⟨rfl, rfl, rfl⟩

/-- Search order of `findL` over a spliced-in segment. -/
theorem findL_consAll (q : Nat) (new : List Elem) (es : ElemList) :
    findL q (consAll new es) =
      match findL q (ofListEL new) with
      | some x => some x
      | none => findL q es := by
  induction new with
  | nil => simp [consAll, ofListEL, findL]
  | cons n ns ih =>
    simp only [consAll, ofListEL, findL]
    cases findE q n with
    | some x => simp
    | none => simpa using ih

/-- Refs of a spliced-in segment. -/
theorem refsL_consAll (new : List Elem) (es : ElemList) :
    refsL (consAll new es) = refsL (ofListEL new) ++ refsL es := by
  induction new with
  | nil => simp [consAll, ofListEL, refsL]
  | cons n ns ih => simp [consAll, ofListEL, refsL, ih]

mutual
theorem nextSibE_none_of_notmem (q : Nat) (e : Elem) (h : q ∉ refsE e) :
    nextSibE q e = none := by
  cases e with
  | mk r t c a ch ls cs =>
    simp only [refsE, List.mem_cons] at h
    push_neg at h
    simp only [nextSibE]
    exact nextSibL_none_of_notmem q cs h.2
theorem nextSibL_none_of_notmem (q : Nat) (l : ElemList) (h : q ∉ refsL l) :
    nextSibL q l = none := by
  cases l with
  | nil => rfl
  | cons e es =>
    simp only [refsL, List.mem_append] at h
    push_neg at h
    have href : (e.ref == q) = false := by
      simp only [beq_eq_false_iff_ne, ne_eq]
      intro hc
      apply h.1
      cases e with
      | mk r t c a ch ls cs =>
        simp only [Elem.ref] at hc
        simp [refsE, hc]
    simp only [nextSibL, href, Bool.false_eq_true, if_false,
      nextSibE_none_of_notmem q e h.1]
    exact nextSibL_none_of_notmem q es h.2
end

/-- `nextSibL` skips a spliced-in segment that does not hold the ref. -/
theorem nextSibL_consAll (q : Nat) (new : List Elem) (es : ElemList)
    (hq : q ∉ refsL (ofListEL new)) :
    nextSibL q (consAll new es) = nextSibL q es := by
  induction new with
  | nil => simp [consAll]
  | cons n ns ih =>
    simp only [ofListEL, refsL, List.mem_append] at hq
    push_neg at hq
    have href : (n.ref == q) = false := by
      simp only [beq_eq_false_iff_ne, ne_eq]
      intro hc
      apply hq.1
      cases n with
      | mk r t c a ch ls cs =>
        simp only [Elem.ref] at hc
        simp [refsE, hc]
    simp only [consAll, nextSibL, href, Bool.false_eq_true, if_false,
      nextSibE_none_of_notmem q n hq.1]
    exact ih hq.2

/-- `getIdL` over a spliced-in segment. -/
theorem getIdL_consAll (x : String) (new : List Elem) (es : ElemList) :
    getIdL x (consAll new es) =
      match getIdL x (ofListEL new) with
      | some v => some v
      | none => getIdL x es := by
  induction new with
  | nil => simp [consAll, ofListEL, getIdL]
  | cons n ns ih =>
    simp only [consAll, ofListEL, getIdL]
    cases getIdE x n with
    | some v => simp
    | none => simpa using ih

theorem refsE_eq (e : Elem) : refsE e = e.ref :: refsL e.children := by
  cases e; rfl

theorem ref_mem_refsE (e : Elem) : e.ref ∈ refsE e := by
  rw [refsE_eq]; exact List.mem_cons_self _ _

mutual
theorem insertAfterE_none_iff (r : Nat) (new : List Elem) (e : Elem) :
    insertAfterE r new e = none ↔ r ∉ refsL e.children := by
  cases e with
  | mk r0 t c a ch ls cs =>
    simp only [insertAfterE, Option.map_eq_none', Elem.children]
    exact insertAfterL_none_iff r new cs
theorem insertAfterL_none_iff (r : Nat) (new : List Elem) (l : ElemList) :
    insertAfterL r new l = none ↔ r ∉ refsL l := by
  cases l with
  | nil => simp [insertAfterL, refsL]
  | cons e es =>
    simp only [insertAfterL, refsL, List.mem_append]
    by_cases hr : (e.ref == r) = true
    · simp only [hr, if_true]
      have : r ∈ refsE e := by
        rw [refsE_eq]
        simp only [beq_iff_eq] at hr
        rw [hr]
        exact List.mem_cons_self _ _
      constructor
      · intro hc; exact Option.noConfusion hc
      · intro hn; exact absurd (Or.inl this) hn
    · simp only [hr, Bool.false_eq_true, if_false]
      cases hE : insertAfterE r new e with
      | some e2 =>
        have : r ∈ refsL e.children := by
          by_contra hc
          rw [← insertAfterE_none_iff r new e] at hc
          rw [hE] at hc; exact Option.noConfusion hc
        have hmem : r ∈ refsE e := by
          rw [refsE_eq]; exact List.mem_cons_of_mem _ this
        constructor
        · intro hc; exact Option.noConfusion hc
        · intro hn; exact absurd (Or.inl hmem) hn
      | none =>
        have hne : r ∉ refsL e.children := (insertAfterE_none_iff r new e).mp hE
        have hnee : r ∉ refsE e := by
          rw [refsE_eq]
          intro hc
          rcases List.mem_cons.mp hc with hc | hc
          · simp only [beq_iff_eq] at hr; exact hr hc.symm
          · exact hne hc
        simp only [Option.map_eq_none']
        rw [insertAfterL_none_iff r new es]
        constructor
        · intro hn hc
          rcases hc with hc | hc
          · exact hnee hc
          · exact hn hc
        · intro hn hc
          exact hn (Or.inr hc)
end

mutual
theorem findE_insertAfterE (r q : Nat) (new : List Elem)
    (hq : q ∉ refsL (ofListEL new)) (e e2 : Elem) (h : insertAfterE r new e = some e2) :
    (findE q e2).map scalarOf = (findE q e).map scalarOf := by
  cases e with
  | mk r0 t c a ch ls cs =>
    simp only [insertAfterE, Option.map_eq_some'] at h
    obtain ⟨cs2, hcs, rfl⟩ := h
    by_cases hq0 : (r0 == q) = true
    · simp [findE, hq0, scalarOf, Elem.ref, Elem.tag, Elem.classes, Elem.attrs,
        Elem.checked, Elem.listeners]
    · simp only [findE, hq0, Bool.false_eq_true, if_false]
      exact findL_insertAfterL r q new hq cs cs2 hcs
theorem findL_insertAfterL (r q : Nat) (new : List Elem)
    (hq : q ∉ refsL (ofListEL new)) (l l2 : ElemList) (h : insertAfterL r new l = some l2) :
    (findL q l2).map scalarOf = (findL q l).map scalarOf := by
  cases l with
  | nil => simp [insertAfterL] at h
  | cons e es =>
    simp only [insertAfterL] at h
    by_cases hr : (e.ref == r) = true
    · simp only [hr, if_true, Option.some.injEq] at h
      subst h
      simp only [findL]
      cases hF : findE q e with
      | some x => simp
      | none =>
        rw [findL_consAll q new es]
        rw [(findL_none_iff q (ofListEL new)).mpr hq]
    · simp only [hr, Bool.false_eq_true, if_false] at h
      cases hE : insertAfterE r new e with
      | some e2 =>
        rw [hE] at h
        simp only [Option.some.injEq] at h
        subst h
        simp only [findL]
        have hrec := findE_insertAfterE r q new hq e e2 hE
        cases hA : findE q e2 with
        | some x =>
          rw [hA] at hrec
          cases hB : findE q e with
          | some y => rw [hB] at hrec; simpa using hrec
          | none => rw [hB] at hrec; simp at hrec
        | none =>
          rw [hA] at hrec
          cases hB : findE q e with
          | some y => rw [hB] at hrec; simp at hrec
          | none => rfl
      | none =>
        rw [hE] at h
        simp only [Option.map_eq_some'] at h
        obtain ⟨es2, hes, rfl⟩ := h
        simp only [findL]
        cases hB : findE q e with
        | some y => simp
        | none => exact findL_insertAfterL r q new hq es es2 hes
end

mutual
theorem refsE_insertAfterE_sub (r : Nat) (new : List Elem) (e e2 : Elem)
    (h : insertAfterE r new e = some e2) :
    ∀ x, x ∈ refsE e2 → x ∈ refsE e ∨ x ∈ refsL (ofListEL new) := by
  cases e with
  | mk r0 t c a ch ls cs =>
    simp only [insertAfterE, Option.map_eq_some'] at h
    obtain ⟨cs2, hcs, rfl⟩ := h
    intro x hx
    simp only [refsE, List.mem_cons] at hx ⊢
    rcases hx with hx | hx
    · exact Or.inl (Or.inl hx)
    · rcases refsL_insertAfterL_sub r new cs cs2 hcs x hx with hh | hh
      · exact Or.inl (Or.inr hh)
      · exact Or.inr hh
theorem refsL_insertAfterL_sub (r : Nat) (new : List Elem) (l l2 : ElemList)
    (h : insertAfterL r new l = some l2) :
    ∀ x, x ∈ refsL l2 → x ∈ refsL l ∨ x ∈ refsL (ofListEL new) := by
  cases l with
  | nil => simp [insertAfterL] at h
  | cons e es =>
    simp only [insertAfterL] at h
    by_cases hr : (e.ref == r) = true
    · simp only [hr, if_true, Option.some.injEq] at h
      subst h
      intro x hx
      simp only [refsL, List.mem_append] at hx ⊢
      rcases hx with hx | hx
      · exact Or.inl (Or.inl hx)
      · rw [refsL_consAll new es, List.mem_append] at hx
        rcases hx with hx | hx
        · exact Or.inr hx
        · exact Or.inl (Or.inr hx)
    · simp only [hr, Bool.false_eq_true, if_false] at h
      cases hE : insertAfterE r new e with
      | some e2 =>
        rw [hE] at h
        simp only [Option.some.injEq] at h
        subst h
        intro x hx
        simp only [refsL, List.mem_append] at hx ⊢
        rcases hx with hx | hx
        · rcases refsE_insertAfterE_sub r new e e2 hE x hx with hh | hh
          · exact Or.inl (Or.inl hh)
          · exact Or.inr hh
        · exact Or.inl (Or.inr hx)
      | none =>
        rw [hE] at h
        simp only [Option.map_eq_some'] at h
        obtain ⟨es2, hes, rfl⟩ := h
        intro x hx
        simp only [refsL, List.mem_append] at hx ⊢
        rcases hx with hx | hx
        · exact Or.inl (Or.inl hx)
        · rcases refsL_insertAfterL_sub r new es es2 hes x hx with hh | hh
          · exact Or.inl (Or.inr hh)
          · exact Or.inr hh
end

mutual
theorem refsE_insertAfterE_super (r : Nat) (new : List Elem) (e e2 : Elem)
    (h : insertAfterE r new e = some e2) :
    ∀ x, x ∈ refsE e → x ∈ refsE e2 := by
  cases e with
  | mk r0 t c a ch ls cs =>
    simp only [insertAfterE, Option.map_eq_some'] at h
    obtain ⟨cs2, hcs, rfl⟩ := h
    intro x hx
    simp only [refsE, List.mem_cons] at hx ⊢
    rcases hx with hx | hx
    · exact Or.inl hx
    · exact Or.inr (refsL_insertAfterL_super r new cs cs2 hcs x hx)
theorem refsL_insertAfterL_super (r : Nat) (new : List Elem) (l l2 : ElemList)
    (h : insertAfterL r new l = some l2) :
    ∀ x, x ∈ refsL l → x ∈ refsL l2 := by
  cases l with
  | nil => simp [insertAfterL] at h
  | cons e es =>
    simp only [insertAfterL] at h
    by_cases hr : (e.ref == r) = true
    · simp only [hr, if_true, Option.some.injEq] at h
      subst h
      intro x hx
      simp only [refsL, List.mem_append] at hx ⊢
      rcases hx with hx | hx
      · exact Or.inl hx
      · rw [refsL_consAll new es, List.mem_append]
        exact Or.inr (Or.inr hx)
    · simp only [hr, Bool.false_eq_true, if_false] at h
      cases hE : insertAfterE r new e with
      | some e2 =>
        rw [hE] at h
        simp only [Option.some.injEq] at h
        subst h
        intro x hx
        simp only [refsL, List.mem_append] at hx ⊢
        rcases hx with hx | hx
        · exact Or.inl (refsE_insertAfterE_super r new e e2 hE x hx)
        · exact Or.inr hx
      | none =>
        rw [hE] at h
        simp only [Option.map_eq_some'] at h
        obtain ⟨es2, hes, rfl⟩ := h
        intro x hx
        simp only [refsL, List.mem_append] at hx ⊢
        rcases hx with hx | hx
        · exact Or.inl hx
        · exact Or.inr (refsL_insertAfterL_super r new es es2 hes x hx)
end

mutual
theorem nextSibE_insertAfterE_self (r : Nat) (b : Elem) (rest : List Elem) (e e2 : Elem)
    (h : insertAfterE r (b :: rest) e = some e2) : nextSibE r e2 = some b := by
  cases e with
  | mk r0 t c a ch ls cs =>
    simp only [insertAfterE, Option.map_eq_some'] at h
    obtain ⟨cs2, hcs, rfl⟩ := h
    simp only [nextSibE]
    exact nextSibL_insertAfterL_self r b rest cs cs2 hcs
theorem nextSibL_insertAfterL_self (r : Nat) (b : Elem) (rest : List Elem) (l l2 : ElemList)
    (h : insertAfterL r (b :: rest) l = some l2) : nextSibL r l2 = some b := by
  cases l with
  | nil => simp [insertAfterL] at h
  | cons e es =>
    simp only [insertAfterL] at h
    by_cases hr : (e.ref == r) = true
    · simp only [hr, if_true, Option.some.injEq] at h
      subst h
      simp [nextSibL, hr, consAll]
    · simp only [hr, Bool.false_eq_true, if_false] at h
      cases hE : insertAfterE r (b :: rest) e with
      | some e2 =>
        rw [hE] at h
        simp only [Option.some.injEq] at h
        subst h
        have hr2 : (e2.ref == r) = false := by
          cases e with
          | mk r0 t c a ch ls cs =>
            simp only [insertAfterE, Option.map_eq_some'] at hE
            obtain ⟨cs2, hcs, rfl⟩ := hE
            exact hr |> fun hh => by simpa [Elem.ref] using hh
        simp only [nextSibL, hr2, Bool.false_eq_true, if_false]
        rw [nextSibE_insertAfterE_self r b rest e e2 hE]
      | none =>
        rw [hE] at h
        simp only [Option.map_eq_some'] at h
        obtain ⟨es2, hes, rfl⟩ := h
        have hnse : nextSibE r e = none := by
          have : r ∉ refsL e.children := (insertAfterE_none_iff r (b :: rest) e).mp hE
          cases e with
          | mk r0 t c a ch ls cs =>
            simp only [Elem.children] at this
            simp only [nextSibE]
            exact nextSibL_none_of_notmem r cs this
        simp only [nextSibL, hr, Bool.false_eq_true, if_false, hnse]
        exact nextSibL_insertAfterL_self r b rest es es2 hes
end

mutual
theorem nextSibE_insertAfterE_pres (r q : Nat) (hqr : q ≠ r) (new : List Elem)
    (hq : q ∉ refsL (ofListEL new)) (e e2 : Elem) (h : insertAfterE r new e = some e2)
    (hx : ∀ x, nextSibE q e = some x → r ∉ refsE x) :
    nextSibE q e2 = nextSibE q e := by
  cases e with
  | mk r0 t c a ch ls cs =>
    simp only [insertAfterE, Option.map_eq_some'] at h
    obtain ⟨cs2, hcs, rfl⟩ := h
    simp only [nextSibE] at hx ⊢
    exact nextSibL_insertAfterL_pres r q hqr new hq cs cs2 hcs hx
theorem nextSibL_insertAfterL_pres (r q : Nat) (hqr : q ≠ r) (new : List Elem)
    (hq : q ∉ refsL (ofListEL new)) (l l2 : ElemList) (h : insertAfterL r new l = some l2)
    (hx : ∀ x, nextSibL q l = some x → r ∉ refsE x) :
    nextSibL q l2 = nextSibL q l := by
  cases l with
  | nil => simp [insertAfterL] at h
  | cons e es =>
    simp only [insertAfterL] at h
    by_cases hr : (e.ref == r) = true
    · simp only [hr, if_true, Option.some.injEq] at h
      subst h
      have h1 : e.ref = r := by simpa using hr
      have hq0 : (e.ref == q) = false := by
        rw [h1]
        simp only [beq_eq_false_iff_ne, ne_eq]
        exact fun hc => hqr hc.symm
      simp only [nextSibL, hq0, Bool.false_eq_true, if_false]
      cases hse : nextSibE q e with
      | some x => rfl
      | none => exact nextSibL_consAll q new es hq
    · simp only [hr, Bool.false_eq_true, if_false] at h
      cases hE : insertAfterE r new e with
      | some e2 =>
        rw [hE] at h
        simp only [Option.some.injEq] at h
        subst h
        obtain ⟨r0, t, c, a, ch, ls, cs⟩ := e
        simp only [insertAfterE, Option.map_eq_some'] at hE
        obtain ⟨cs2, hcs, rfl⟩ := hE
        by_cases hq0 : (r0 == q) = true
        · simp only [nextSibL, Elem.ref, hq0, if_true]
        · simp only [Bool.not_eq_true] at hq0
          simp only [nextSibL, Elem.ref, hq0, Bool.false_eq_true, if_false] at hx ⊢
          have hpres : nextSibE q (Elem.mk r0 t c a ch ls cs2)
              = nextSibE q (Elem.mk r0 t c a ch ls cs) := by
            apply nextSibE_insertAfterE_pres r q hqr new hq
            · simp only [insertAfterE]
              rw [hcs]
              rfl
            · intro x hxx
              apply hx x
              simp only [nextSibE] at hxx
              simp only [nextSibE, hxx]
          rw [hpres]
      | none =>
        rw [hE] at h
        simp only [Option.map_eq_some'] at h
        obtain ⟨es2, hes, rfl⟩ := h
        by_cases hq0 : (e.ref == q) = true
        · simp only [nextSibL, hq0, if_true]
          cases es with
          | nil => simp [insertAfterL] at hes
          | cons d ds =>
            have hxd : r ∉ refsE d := by
              apply hx d
              simp only [nextSibL, hq0, if_true]
            have hdr : (d.ref == r) = false := by
              simp only [beq_eq_false_iff_ne, ne_eq]
              intro hc; apply hxd; rw [← hc]; exact ref_mem_refsE d
            simp only [insertAfterL, hdr, Bool.false_eq_true, if_false] at hes
            cases hdE : insertAfterE r new d with
            | some d2 =>
              have hin : r ∈ refsL d.children := by
                by_contra hc
                rw [← insertAfterE_none_iff r new d] at hc
                rw [hdE] at hc; exact Option.noConfusion hc
              exact absurd (by rw [refsE_eq]; exact List.mem_cons_of_mem _ hin) hxd
            | none =>
              rw [hdE] at hes
              simp only [Option.map_eq_some'] at hes
              obtain ⟨ds2, hds, rfl⟩ := hes
              rfl
        · simp only [Bool.not_eq_true] at hq0
          simp only [nextSibL, hq0, Bool.false_eq_true, if_false]
          cases hse : nextSibE q e with
          | some x => rfl
          | none =>
            apply nextSibL_insertAfterL_pres r q hqr new hq es es2 hes
            intro x hxx
            apply hx x
            simp only [nextSibL, hq0, Bool.false_eq_true, if_false, hse, hxx]
end

mutual
theorem getIdE_insertAfterE (x : String) (r : Nat) (new : List Elem)
    (hnew : getIdL x (ofListEL new) = none) (e e2 : Elem)
    (h : insertAfterE r new e = some e2) : getIdE x e2 = getIdE x e := by
  cases e with
  | mk r0 t c a ch ls cs =>
    simp only [insertAfterE, Option.map_eq_some'] at h
    obtain ⟨cs2, hcs, rfl⟩ := h
    simp only [getIdE, Elem.getAttribute, Elem.attrs]
    rw [getIdL_insertAfterL x r new hnew cs cs2 hcs]
theorem getIdL_insertAfterL (x : String) (r : Nat) (new : List Elem)
    (hnew : getIdL x (ofListEL new) = none) (l l2 : ElemList)
    (h : insertAfterL r new l = some l2) : getIdL x l2 = getIdL x l := by
  cases l with
  | nil => simp [insertAfterL] at h
  | cons e es =>
    simp only [insertAfterL] at h
    by_cases hr : (e.ref == r) = true
    · simp only [hr, if_true, Option.some.injEq] at h
      subst h
      simp only [getIdL]
      cases getIdE x e with
      | some v => rfl
      | none =>
        rw [getIdL_consAll x new es, hnew]
    · simp only [hr, Bool.false_eq_true, if_false] at h
      cases hE : insertAfterE r new e with
      | some e2 =>
        rw [hE] at h
        simp only [Option.some.injEq] at h
        subst h
        simp only [getIdL]
        rw [getIdE_insertAfterE x r new hnew e e2 hE]
      | none =>
        rw [hE] at h
        simp only [Option.map_eq_some'] at h
        obtain ⟨es2, hes, rfl⟩ := h
        simp only [getIdL]
        cases getIdE x e with
        | some v => rfl
        | none => exact getIdL_insertAfterL x r new hnew es es2 hes
end

mutual
theorem findE_insertAfterE_fresh (r q : Nat) (new : List Elem) (e e2 : Elem)
    (hq : q ∉ refsE e) (h : insertAfterE r new e = some e2) :
    findE q e2 = findL q (ofListEL new) := by
  cases e with
  | mk r0 t c a ch ls cs =>
    simp only [insertAfterE, Option.map_eq_some'] at h
    obtain ⟨cs2, hcs, rfl⟩ := h
    simp only [refsE, List.mem_cons] at hq
    push_neg at hq
    have hq0 : (r0 == q) = false := by
      simp only [beq_eq_false_iff_ne, ne_eq]
      exact fun hc => hq.1 hc.symm
    simp only [findE, hq0, Bool.false_eq_true, if_false]
    exact findL_insertAfterL_fresh r q new cs cs2 hq.2 hcs
theorem findL_insertAfterL_fresh (r q : Nat) (new : List Elem) (l l2 : ElemList)
    (hq : q ∉ refsL l) (h : insertAfterL r new l = some l2) :
    findL q l2 = findL q (ofListEL new) := by
  cases l with
  | nil => simp [insertAfterL] at h
  | cons e es =>
    simp only [insertAfterL] at h
    simp only [refsL, List.mem_append] at hq
    push_neg at hq
    have hFe : findE q e = none := (findE_none_iff q e).mpr hq.1
    have hFes : findL q es = none := (findL_none_iff q es).mpr hq.2
    by_cases hr : (e.ref == r) = true
    · simp only [hr, if_true, Option.some.injEq] at h
      subst h
      simp only [findL, hFe]
      rw [findL_consAll q new es]
      cases hN : findL q (ofListEL new) with
      | some v => rfl
      | none => exact hFes
    · simp only [hr, Bool.false_eq_true, if_false] at h
      cases hE : insertAfterE r new e with
      | some e2 =>
        rw [hE] at h
        simp only [Option.some.injEq] at h
        subst h
        simp only [findL]
        rw [findE_insertAfterE_fresh r q new e e2 hq.1 hE]
        cases hN : findL q (ofListEL new) with
        | some v => rfl
        | none => exact hFes
      | none =>
        rw [hE] at h
        simp only [Option.map_eq_some'] at h
        obtain ⟨es2, hes, rfl⟩ := h
        simp only [findL, hFe]
        exact findL_insertAfterL_fresh r q new es es2 hq.2 hes
end

/-- Equal scalar views give equal attribute reads. -/
theorem getAttributeByRef_congr_scalar (a b : Elem) (q : Nat) (k : String)
    (h : (findE q a).map scalarOf = (findE q b).map scalarOf) :
    getAttributeByRef a q k = getAttributeByRef b q k := by
  unfold getAttributeByRef
  cases hA : findE q a with
  | some x =>
    rw [hA] at h
    cases hB : findE q b with
    | some y =>
      rw [hB] at h
      simp only [Option.map_some', Option.some.injEq, scalarOf] at h
      cases x with
      | mk xr xt xc xa xch xls xcs =>
        cases y with
        | mk yr yt yc ya ych yls ycs =>
          simp only [Elem.attrs, Elem.ref, Elem.tag, Elem.classes, Elem.checked,
            Elem.listeners, Prod.mk.injEq] at h
          simp [Elem.getAttribute, Elem.attrs, h.2.2.2.1]
    | none => rw [hB] at h; simp at h
  | none =>
    rw [hA] at h
    cases hB : findE q b with
    | some y => rw [hB] at h; simp at h
    | none => simp

/-- Children refs survive an insertion. -/
theorem children_insertAfterE_super (r : Nat) (new : List Elem) (e e2 : Elem)
    (h : insertAfterE r new e = some e2) :
    ∀ x, x ∈ refsL e.children → x ∈ refsL e2.children := by
  cases e with
  | mk r0 t c a ch ls cs =>
    simp only [insertAfterE, Option.map_eq_some'] at h
    obtain ⟨cs2, hcs, rfl⟩ := h
    simpa only [Elem.children] using refsL_insertAfterL_super r new cs cs2 hcs

/-- The refs a `clipboardButton` template occupies. -/
theorem refsE_clipboardButton (id : String) (base : Nat) :
    refsE (clipboardButton id base) = [base, base + 1, base + 2, base + 3] := by
  simp only [clipboardButton, copySVG, refsE, refsL, List.cons_append, List.nil_append]

theorem ref_clipboardButton (id : String) (base : Nat) :
    (clipboardButton id base).ref = base := rfl

/-- A `copy-button…` lookup string is never the id `title`. -/
theorem copyButton_ne_title (x : String) : "copy-button" ++ x ≠ "title" := by
  intro h
  have hlen := congrArg String.length h
  simp only [String.length_append] at hlen
  have h1 : ("copy-button" : String).length = 11 := by decide
  have h2 : ("title" : String).length = 5 := by decide
  omega

/-- No element inside a freshly built `clipboardButton` carries an id
that a `'copy-button' + id` lookup could hit. -/
theorem getId_clipboardButton_none (x id : String) (base : Nat)
    (h1 : x ≠ "copy-button-" ++ id) (h2 : x ≠ "title") :
    getIdL x (ofListEL [clipboardButton id base]) = none := by
  have hb1 : (("copy-button-" ++ id : String) == x) = false := by
    simp only [beq_eq_false_iff_ne, ne_eq]
    exact fun hc => h1 hc.symm
  have hb2 : (("title" : String) == x) = false := by
    simp only [beq_eq_false_iff_ne, ne_eq]
    exact fun hc => h2 hc.symm
  simp [ofListEL, getIdL, getIdE, clipboardButton, copySVG, Elem.getAttribute,
    Elem.attrs, List.find?, hb1, hb2]

/-- Full specification of the `forEach` of `addCopyButtonToCodeCells`
on a well-formed document: every remaining cell gets a fresh
`clipboardButton` inserted immediately after it; identities, id
attributes, missing `copy-button…` ids and sibling relationships of
untouched elements survive. -/
theorem addCopy_fold_spec (ids : Nat → String) (nr0 : Nat) (full : List Nat)
    (hlt : ∀ c ∈ full, c < nr0)
    (hnm : ∀ c k, c ∈ full → k ∈ full →
      "copy-button" ++ ids c ≠ "copy-button-" ++ ids k) :
    ∀ (rem : List Nat) (d : Doc),
      (∀ c ∈ rem, c ∈ full) →
      rem.Nodup →
      nr0 ≤ d.nextRef →
      (∀ x ∈ refsE d.root, x < d.nextRef) →
      (∀ c ∈ full, jsStr (getAttributeByRef d.root c "id") = ids c) →
      (∀ c ∈ full, getElementById d ("copy-button" ++ ids c) = none) →
      (∀ c ∈ rem, c ∈ refsL d.root.children) →
      (rem.foldl addCopyButtonStep d).nextRef = d.nextRef + 4 * rem.length ∧
      (∀ x ∈ refsE (rem.foldl addCopyButtonStep d).root,
        x < (rem.foldl addCopyButtonStep d).nextRef) ∧
      (∀ q, q < d.nextRef →
        (findE q (rem.foldl addCopyButtonStep d).root).map scalarOf
          = (findE q d.root).map scalarOf) ∧
      (∀ c ∈ full,
        getElementById (rem.foldl addCopyButtonStep d) ("copy-button" ++ ids c) = none) ∧
      (∀ c, c ∈ refsL d.root.children →
        c ∈ refsL (rem.foldl addCopyButtonStep d).root.children) ∧
      (∀ q x, q < nr0 → q ∉ rem → (∀ y ∈ refsE x, nr0 ≤ y) →
        nextSibE q d.root = some x →
        nextSibE q (rem.foldl addCopyButtonStep d).root = some x) ∧
      (∀ c ∈ rem, ∃ base, d.nextRef ≤ base ∧
        base + 4 ≤ (rem.foldl addCopyButtonStep d).nextRef ∧
        nextSibE c (rem.foldl addCopyButtonStep d).root
          = some (clipboardButton (ids c) base) ∧
        (findE base (rem.foldl addCopyButtonStep d).root).map scalarOf
          = some (scalarOf (clipboardButton (ids c) base))) := by
  intro rem
  induction rem with
  | nil =>
    intro d hsub hnd hnr hbound hids hgid hpresent
    refine ⟨by simp, hbound, fun q hq => rfl, hgid, fun c hc => hc, ?_, ?_⟩
    · intro q x hq hqr hx hsib; exact hsib
    · intro c hc; simp at hc
  | cons c rest ih =>
    intro d hsub hnd hnr hbound hids hgid hpresent
    have hcfull : c ∈ full := hsub c (List.mem_cons_self c rest)
    have hclt : c < nr0 := hlt c hcfull
    -- the step takes the insertion branch
    have hstep : addCopyButtonStep d c =
        { root := insertAfterByRef d.root c [clipboardButton (ids c) d.nextRef],
          nextRef := d.nextRef + 4 } := by
      simp only [addCopyButtonStep]
      rw [hids c hcfull, hgid c hcfull]
      simp
    -- the insertion succeeds
    obtain ⟨root2, hroot2⟩ : ∃ root2,
        insertAfterE c [clipboardButton (ids c) d.nextRef] d.root = some root2 := by
      cases hI : insertAfterE c [clipboardButton (ids c) d.nextRef] d.root with
      | some x => exact ⟨x, rfl⟩
      | none =>
        rw [insertAfterE_none_iff] at hI
        exact absurd (hpresent c (List.mem_cons_self c rest)) hI
    have hwrap : insertAfterByRef d.root c [clipboardButton (ids c) d.nextRef] = root2 := by
      unfold insertAfterByRef
      rw [hroot2]
      rfl
    set btn := clipboardButton (ids c) d.nextRef with hbtn
    have hnewrefs : refsL (ofListEL [btn]) =
        [d.nextRef, d.nextRef + 1, d.nextRef + 2, d.nextRef + 3] := by
      simp [hbtn, ofListEL, refsL, refsE_clipboardButton]
    have hfreshmem : ∀ q, q < d.nextRef → q ∉ refsL (ofListEL [btn]) := by
      intro q hq hc
      rw [hnewrefs] at hc
      simp only [List.mem_cons, List.not_mem_nil, or_false] at hc
      omega
    have hd1 : (c :: rest).foldl addCopyButtonStep d
        = rest.foldl addCopyButtonStep
            { root := root2, nextRef := d.nextRef + 4 } := by
      rw [List.foldl_cons, hstep, hwrap]
    set d1 : Doc := { root := root2, nextRef := d.nextRef + 4 } with hd1def
    have hnr4 : d1.nextRef = d.nextRef + 4 := rfl
    -- hypotheses re-established at d1
    have hbound1 : ∀ x ∈ refsE d1.root, x < d1.nextRef := by
      intro x hx
      rcases refsE_insertAfterE_sub c [btn] d.root root2 hroot2 x hx with hh | hh
      · have := hbound x hh; omega
      · rw [hnewrefs] at hh
        simp only [List.mem_cons, List.not_mem_nil, or_false] at hh
        omega
    have hscal1 : ∀ q, q < d.nextRef →
        (findE q d1.root).map scalarOf = (findE q d.root).map scalarOf := by
      intro q hq
      exact findE_insertAfterE c q [btn] (hfreshmem q hq) d.root root2 hroot2
    have hids1 : ∀ c2 ∈ full, jsStr (getAttributeByRef d1.root c2 "id") = ids c2 := by
      intro c2 hc2
      rw [getAttributeByRef_congr_scalar d1.root d.root c2 "id"
        (hscal1 c2 (lt_of_lt_of_le (hlt c2 hc2) hnr))]
      exact hids c2 hc2
    have hgid1 : ∀ c2 ∈ full, getElementById d1 ("copy-button" ++ ids c2) = none := by
      intro c2 hc2
      show getIdE ("copy-button" ++ ids c2) d1.root = none
      rw [getIdE_insertAfterE ("copy-button" ++ ids c2) c [btn]
        (getId_clipboardButton_none _ _ _ (hnm c2 c hc2 hcfull)
          (copyButton_ne_title (ids c2))) d.root root2 hroot2]
      exact hgid c2 hc2
    have hpresent1 : ∀ c2 ∈ rest, c2 ∈ refsL d1.root.children := by
      intro c2 hc2
      exact children_insertAfterE_super c [btn] d.root root2 hroot2 c2
        (hpresent c2 (List.mem_cons_of_mem c hc2))
    have hIH := ih d1 (fun c2 hc2 => hsub c2 (List.mem_cons_of_mem c hc2))
      (List.Nodup.of_cons hnd) (by omega) hbound1 hids1 hgid1
      hpresent1
    obtain ⟨ih1, ih2, ih3, ih4, ih5, ih6, ih7⟩ := hIH
    rw [hd1]
    refine ⟨?_, ih2, ?_, ih4, ?_, ?_, ?_⟩
    · rw [ih1]
      simp only [List.length_cons]
      omega
    · intro q hq
      rw [ih3 q (by omega)]
      exact hscal1 q hq
    · intro c2 hc2
      exact ih5 c2 (children_insertAfterE_super c [btn] d.root root2 hroot2 c2 hc2)
    · intro q x hq hqr hx hsib
      have hqc : q ≠ c := fun hc => hqr (hc ▸ List.mem_cons_self c rest)
      have hsib1 : nextSibE q d1.root = some x := by
        rw [nextSibE_insertAfterE_pres c q hqc [btn] (hfreshmem q (lt_of_lt_of_le hq hnr))
          d.root root2 hroot2 ?_]
        · exact hsib
        · intro x2 hx2
          rw [hsib] at hx2
          cases hx2
          intro hcmem
          have := hx c hcmem
          omega
      exact ih6 q x hq (fun hc => hqr (List.mem_cons_of_mem c hc)) hx hsib1
    · intro c2 hc2
      rcases List.mem_cons.mp hc2 with rfl | hc2
      · -- the head cell: its button went in at base = d.nextRef
        refine ⟨d.nextRef, le_refl _, ?_, ?_, ?_⟩
        · rw [ih1]; omega
        · -- nextSib survives the rest of the fold
          have hstart : nextSibE c2 d1.root = some btn :=
            nextSibE_insertAfterE_self c2 btn [] d.root root2 hroot2
          exact ih6 c2 btn hclt (List.Nodup.not_mem hnd)
            (by rw [hbtn, refsE_clipboardButton]
                intro y hy
                simp only [List.mem_cons, List.mem_singleton] at hy
                rcases hy with rfl | rfl | rfl | rfl | h
                · omega
                · omega
                · omega
                · omega
                · simp at h) hstart
        · have hfind1 : findE d.nextRef d1.root = some btn := by
            have hfresh : d.nextRef ∉ refsE d.root := by
              intro hc
              have := hbound _ hc
              omega
            rw [findE_insertAfterE_fresh c2 d.nextRef [btn] d.root root2 hfresh hroot2]
            rw [hbtn]
            simp [ofListEL, findL, findE, clipboardButton]
          rw [ih3 d.nextRef (by omega), hfind1]
          rfl
      · obtain ⟨base, hb1, hb2, hb3, hb4⟩ := ih7 c2 hc2
        refine ⟨base, ?_, hb2, hb3, hb4⟩
        omega

/-- C1, amended: each routine's observable behaviour (document effect,
re-scheduling, third-party calls) is a function of the page's DOM, its
own `pageElements` entry and its own library global alone — so beyond
the DOM, the only cross-routine channels are `pageElements['codeCells']`
(written by `findCodeCells`, read by `addCopyButtonToCodeCells`) and
`pageElements['inputCells']` (written by `findInputCells`, read by
`initHiddenCells` / `addHideButton`). -/
theorem C1_read_frames :
    (∀ s t : PageState, s.doc = t.doc →
      (findCodeCells s).state.doc = (findCodeCells t).state.doc ∧
      (findCodeCells s).state.pageElements.codeCells
        = (findCodeCells t).state.pageElements.codeCells) ∧
    (∀ s t : PageState, s.doc = t.doc →
      (findInputCells s).state.doc = (findInputCells t).state.doc ∧
      (findInputCells s).state.pageElements.inputCells
        = (findInputCells t).state.pageElements.inputCells) ∧
    (∀ s t : PageState, s.doc = t.doc →
      s.pageElements.codeCells = t.pageElements.codeCells →
      s.win.clipboardJS = t.win.clipboardJS →
      (addCopyButtonToCodeCells s).map obs = (addCopyButtonToCodeCells t).map obs) ∧
    (∀ s t : PageState, s.doc = t.doc →
      s.pageElements.inputCells = t.pageElements.inputCells →
      (initHiddenCells s).map obs = (initHiddenCells t).map obs) ∧
    (∀ s t : PageState, s.doc = t.doc → s.win.anchors = t.win.anchors →
      obs (initAnchors s) = obs (initAnchors t)) ∧
    (∀ s t : PageState, s.doc = t.doc → s.win.tocbot = t.win.tocbot →
      (initToc s).map obs = (initToc t).map obs) := by
  refine ⟨?_, ?_, addCopy_read_frame, initHiddenCells_read_frame, ?_, ?_⟩
  · intro s t hdoc
    constructor <;> simp [findCodeCells, hdoc]
  · intro s t hdoc
    constructor <;> simp [findInputCells, hdoc]
  · intro s t hdoc hanch
    unfold initAnchors
    rw [hdoc, hanch]
    by_cases ha : t.win.anchors = false <;> simp [ha, obs, hdoc]
  · intro s t hdoc htoc
    unfold initToc
    rw [hdoc, htoc]
    by_cases ht : t.win.tocbot = false
    · simp [ht, obs, hdoc]
    · simp only [ht, if_false]
      cases (if (querySelectorAll t.doc selSidebarContent).length = 0 then
          (querySelectorFirst t.doc selNavOnthispage).map
            (fun nav =>
              { t.doc with
                root := updateByRef t.doc.root nav (fun e => e.addClass "no_sidebar_content") })
        else some t.doc) with
      | none => rfl
      | some d1 => simp [obs]

/-- Witness for amended C1: on the prepared one-cell page, changing the
`hideLink` global (the only non-DOM, non-`pageElements` state) does not
change what `addCopyButtonToCodeCells` or `initHiddenCells` do. -/
theorem C1_read_frames_witness :
    (addCopyButtonToCodeCells wState1).map obs
      = (addCopyButtonToCodeCells { wState1 with hideLink := some 99 }).map obs ∧
    (initHiddenCells wState1).map obs
      = (initHiddenCells { wState1 with hideLink := some 99 }).map obs :=
  ⟨C1_read_frames.2.2.1 wState1 { wState1 with hideLink := some 99 } rfl rfl rfl,
   C1_read_frames.2.2.2.1 wState1 { wState1 with hideLink := some 99 } rfl rfl⟩

/-- C2, amended: outside the DOM the routines write only their own
`pageElements` entry — except `addHideButton` (and hence
`initHiddenCells`), which also assigns the accidental global `hideLink`;
no routine writes the `window` globals, and no routine reads
`hideLink`. -/
theorem C2_write_frames :
    (∀ s : PageState, (findCodeCells s).state.win = s.win ∧
      (findCodeCells s).state.hideLink = s.hideLink ∧
      (findCodeCells s).state.pageElements.inputCells = s.pageElements.inputCells) ∧
    (∀ s : PageState, (findInputCells s).state.win = s.win ∧
      (findInputCells s).state.hideLink = s.hideLink ∧
      (findInputCells s).state.pageElements.codeCells = s.pageElements.codeCells) ∧
    (∀ (s : PageState) (rr : RunResult), addCopyButtonToCodeCells s = some rr →
      rr.state.win = s.win ∧ rr.state.hideLink = s.hideLink ∧
      rr.state.pageElements = s.pageElements) ∧
    (∀ (s : PageState) (rr : RunResult), addHideButton s = some rr →
      rr.state.win = s.win ∧ rr.state.pageElements = s.pageElements) ∧
    (∀ (s : PageState) (rr : RunResult), initHiddenCells s = some rr →
      rr.state.win = s.win ∧ rr.state.pageElements = s.pageElements) ∧
    (∀ s : PageState, (initAnchors s).state.win = s.win ∧
      (initAnchors s).state.hideLink = s.hideLink ∧
      (initAnchors s).state.pageElements = s.pageElements) ∧
    (∀ (s : PageState) (rr : RunResult), initToc s = some rr →
      rr.state.win = s.win ∧ rr.state.hideLink = s.hideLink ∧
      rr.state.pageElements = s.pageElements) ∧
    (∀ (s : PageState) (v : Option Nat),
      (addHideButton { s with hideLink := v }).map obs = (addHideButton s).map obs) := by
  refine ⟨fun s => ⟨rfl, rfl, rfl⟩, fun s => ⟨rfl, rfl, rfl⟩, addCopy_frame,
    addHideButton_frame, ?_, ?_, initToc_frame, ?_⟩
  · intro s rr hrun
    unfold initHiddenCells at hrun
    cases hA : addHideButton s with
    | none => rw [hA] at hrun; exact Option.noConfusion hrun
    | some rr1 =>
      rw [hA] at hrun
      simp only at hrun
      split at hrun
      · exact Option.noConfusion hrun
      · cases hrun
        have hfr := addHideButton_frame s rr1 hA
        exact ⟨hfr.1, hfr.2⟩
  · intro s
    unfold initAnchors
    by_cases ha : s.win.anchors = false <;> simp [ha]
  · intro s v
    exact addHideButton_read_frame { s with hideLink := v } s rfl rfl

/-- Witness for amended C2 on the prepared one-cell page. -/
theorem C2_write_frames_witness :
    ((findCodeCells wState).state.win = wState.win ∧
      (findCodeCells wState).state.hideLink = wState.hideLink ∧
      (findCodeCells wState).state.pageElements.inputCells
        = wState.pageElements.inputCells) ∧
    (((addHideButton wState1).getD (noRun wState1)).state.win = wState1.win ∧
      ((addHideButton wState1).getD (noRun wState1)).state.pageElements
        = wState1.pageElements) ∧
    (addHideButton { wState1 with hideLink := some 99 }).map obs
      = (addHideButton wState1).map obs :=
  ⟨C2_write_frames.1 wState,
   C2_write_frames.2.2.2.1 wState1 _ rfl,
   C2_write_frames.2.2.2.2.2.2.2 wState1 (some 99)⟩

/-- With `window.ClipboardJS` present and `pageElements['codeCells']`
populated, `addCopyButtonToCodeCells` folds its `forEach` body over the
stored cells and records the ClipboardJS wiring. -/
theorem addCopy_run (s : PageState) (cells : List Nat)
    (hwin : s.win.clipboardJS = true)
    (hcells : s.pageElements.codeCells = some cells) :
    addCopyButtonToCodeCells s =
      some { state := { s with doc := cells.foldl addCopyButtonStep s.doc },
             retry := none,
             effects := [Effect.clipboardNew ".copybtn", Effect.clipboardOn "success",
                         Effect.clipboardOn "error",
                         Effect.docAddEventListener "turbolinks:before-visit"] } := by
  unfold addCopyButtonToCodeCells
  rw [hwin, hcells]
  rfl

/-- The existence check's lookup string `'copy-button' + id` never
equals an inserted button's actual id `'copy-button-' + id'` when both
ids come from `codeCellId`: at character index 11 the former reads the
`c` of `codecell`, the latter the extra hyphen. -/
theorem copyButton_check_miss (i j : Nat) :
    "copy-button" ++ codeCellId i ≠ "copy-button-" ++ codeCellId j := by
  intro h
  have hd : ("copy-button".data ++ (codeCellId i).data)
      = ("copy-button-".data ++ (codeCellId j).data) := by
    have hq := congrArg String.data h
    rwa [String.data_append, String.data_append] at hq
  have h1 : ("copy-button".data ++ (codeCellId i).data)[11]? = some 'c' := by
    rw [List.getElem?_append_right (show "copy-button".data.length ≤ 11 by decide)]
    have h0 : 11 - "copy-button".data.length = 0 := by decide
    rw [h0]
    unfold codeCellId
    rw [String.data_append,
      List.getElem?_append_left (show 0 < "codecell".data.length by decide)]
    decide
  have h2 : ("copy-button-".data ++ (codeCellId j).data)[11]? = some '-' := by
    rw [List.getElem?_append_left (show 11 < "copy-button-".data.length by decide)]
    decide
  rw [hd, h2] at h1
  exact absurd h1 (by decide)

/-- C7: when `addCopyButtonToCodeCells` runs with `window.ClipboardJS`
defined, it inserts immediately after every element stored in
`pageElements['codeCells']` a copy-to-clipboard button anchor whose
`data-clipboard-target` attribute is `#` followed by that element's id. -/
theorem C7_copy_button_targets (s : PageState) (cells : List Nat)
    (hwin : s.win.clipboardJS = true)
    (hcells : s.pageElements.codeCells = some cells)
    (hnd : cells.Nodup)
    (hbound : ∀ x ∈ refsE s.doc.root, x < s.doc.nextRef)
    (hpresent : ∀ c ∈ cells, c ∈ refsL s.doc.root.children)
    (hgid : ∀ c ∈ cells,
      getElementById s.doc
        ("copy-button" ++ jsStr (getAttributeByRef s.doc.root c "id")) = none)
    (hnm : ∀ c ∈ cells, ∀ k ∈ cells,
      "copy-button" ++ jsStr (getAttributeByRef s.doc.root c "id")
        ≠ "copy-button-" ++ jsStr (getAttributeByRef s.doc.root k "id")) :
    ∃ rr, addCopyButtonToCodeCells s = some rr ∧
      ∀ c ∈ cells, ∃ b : Elem,
        nextSibE c rr.state.doc.root = some b ∧
        b.tag = "a" ∧
        b.classes = ["btn", "copybtn", "o-tooltip--left"] ∧
        b.getAttribute "data-clipboard-target"
          = some ("#" ++ jsStr (getAttributeByRef s.doc.root c "id")) := by
  have hlt : ∀ c ∈ cells, c < s.doc.nextRef := by
    intro c hc
    refine hbound c ?_
    rw [refsE_eq]
    exact List.mem_cons_of_mem _ (hpresent c hc)
  have hspec := addCopy_fold_spec
    (fun c => jsStr (getAttributeByRef s.doc.root c "id")) s.doc.nextRef cells hlt
    (fun c k hc hk => hnm c hc k hk) cells s.doc
    (fun c hc => hc) hnd (Nat.le_refl _) hbound (fun c hc => rfl) hgid hpresent
  refine ⟨_, addCopy_run s cells hwin hcells, ?_⟩
  intro c hc
  obtain ⟨base, hb1, hb2, hb3, hb4⟩ := hspec.2.2.2.2.2.2 c hc
  exact ⟨clipboardButton (jsStr (getAttributeByRef s.doc.root c "id")) base,
    hb3, rfl, rfl, rfl⟩

/-- Witness for C7 on the prepared one-cell page: the single collected
code cell (ref 6, id `codecell0`) gets a button anchor right after it
targeting `#codecell0`. -/
theorem C7_witness :
    ∃ rr, addCopyButtonToCodeCells wState1 = some rr ∧
      ∀ c ∈ [6], ∃ b : Elem,
        nextSibE c rr.state.doc.root = some b ∧
        b.tag = "a" ∧
        b.classes = ["btn", "copybtn", "o-tooltip--left"] ∧
        b.getAttribute "data-clipboard-target"
          = some ("#" ++ jsStr (getAttributeByRef wState1.doc.root c "id")) :=
  C7_copy_button_targets wState1 [6] rfl rfl (by decide) (by decide) (by decide)
    (by decide) (by decide)

/-- C9: `addCopyButtonToCodeCells` is not idempotent.  When the ids are
the `codecell-index` ids `findCodeCells` assigns, the check string
`'copy-button' + id` never equals a button id `'copy-button-' + id'`;
consequently a second completed run inserts a fresh button (a new ref)
immediately after every collected cell, while the button the first run
inserted is still in the document. -/
theorem C9_not_idempotent (s : PageState) (cells : List Nat)
    (hwin : s.win.clipboardJS = true)
    (hcells : s.pageElements.codeCells = some cells)
    (hnd : cells.Nodup)
    (hbound : ∀ x ∈ refsE s.doc.root, x < s.doc.nextRef)
    (hpresent : ∀ c ∈ cells, c ∈ refsL s.doc.root.children)
    (hform : ∀ c ∈ cells, ∃ i, jsStr (getAttributeByRef s.doc.root c "id") = codeCellId i)
    (hgid : ∀ c ∈ cells,
      getElementById s.doc
        ("copy-button" ++ jsStr (getAttributeByRef s.doc.root c "id")) = none) :
    (∀ i j : Nat, "copy-button" ++ codeCellId i ≠ "copy-button-" ++ codeCellId j) ∧
    ∃ rr1 rr2, addCopyButtonToCodeCells s = some rr1 ∧
      addCopyButtonToCodeCells rr1.state = some rr2 ∧
      ∀ c ∈ cells, ∃ b1 b2 : Elem,
        nextSibE c rr1.state.doc.root = some b1 ∧
        nextSibE c rr2.state.doc.root = some b2 ∧
        b1.getAttribute "id"
          = some ("copy-button-" ++ jsStr (getAttributeByRef s.doc.root c "id")) ∧
        b2.getAttribute "id" = b1.getAttribute "id" ∧
        b2.ref ≠ b1.ref ∧
        (findE b1.ref rr2.state.doc.root).map scalarOf = some (scalarOf b1) := by
  refine ⟨fun i j => copyButton_check_miss i j, ?_⟩
  have hnm : ∀ c k, c ∈ cells → k ∈ cells →
      "copy-button" ++ jsStr (getAttributeByRef s.doc.root c "id")
        ≠ "copy-button-" ++ jsStr (getAttributeByRef s.doc.root k "id") := by
    intro c k hc hk
    obtain ⟨i, hi⟩ := hform c hc
    obtain ⟨j, hj⟩ := hform k hk
    rw [hi, hj]
    exact copyButton_check_miss i j
  have hlt : ∀ c ∈ cells, c < s.doc.nextRef := by
    intro c hc
    refine hbound c ?_
    rw [refsE_eq]
    exact List.mem_cons_of_mem _ (hpresent c hc)
  have hspec1 := addCopy_fold_spec
    (fun c => jsStr (getAttributeByRef s.doc.root c "id")) s.doc.nextRef cells hlt
    hnm cells s.doc
    (fun c hc => hc) hnd (Nat.le_refl _) hbound (fun c hc => rfl) hgid hpresent
  obtain ⟨hnr1, hbound1, hscal1, hgid1, hsup1, hsib1, hins1⟩ := hspec1
  have hids2 : ∀ c ∈ cells,
      jsStr (getAttributeByRef (cells.foldl addCopyButtonStep s.doc).root c "id")
        = jsStr (getAttributeByRef s.doc.root c "id") := by
    intro c hc
    rw [getAttributeByRef_congr_scalar (cells.foldl addCopyButtonStep s.doc).root
      s.doc.root c "id" (hscal1 c (hlt c hc))]
  have hspec2 := addCopy_fold_spec
    (fun c => jsStr (getAttributeByRef s.doc.root c "id")) s.doc.nextRef cells hlt
    hnm cells (cells.foldl addCopyButtonStep s.doc)
    (fun c hc => hc) hnd (by omega) hbound1 hids2 hgid1
    (fun c hc => hsup1 c (hpresent c hc))
  obtain ⟨hnr2, hbound2, hscal2, hgid2, hsup2, hsib2, hins2⟩ := hspec2
  refine ⟨_, _, addCopy_run s cells hwin hcells,
    addCopy_run { s with doc := cells.foldl addCopyButtonStep s.doc } cells hwin hcells,
    ?_⟩
  intro c hc
  obtain ⟨base1, h11, h12, h13, h14⟩ := hins1 c hc
  obtain ⟨base2, h21, h22, h23, h24⟩ := hins2 c hc
  refine ⟨clipboardButton (jsStr (getAttributeByRef s.doc.root c "id")) base1,
    clipboardButton (jsStr (getAttributeByRef s.doc.root c "id")) base2,
    h13, h23, rfl, rfl, ?_, ?_⟩
  · show base2 ≠ base1
    omega
  · show (findE base1 (cells.foldl addCopyButtonStep
        (cells.foldl addCopyButtonStep s.doc)).root).map scalarOf = _
    rw [hscal2 base1 (by omega)]
    exact h14

/-- Witness for C9 on the prepared one-cell page: two runs over the
single cell (ref 6, id `codecell0`), a fresh second button, the first
one still present. -/
theorem C9_witness :
    (∀ i j : Nat, "copy-button" ++ codeCellId i ≠ "copy-button-" ++ codeCellId j) ∧
    ∃ rr1 rr2, addCopyButtonToCodeCells wState1 = some rr1 ∧
      addCopyButtonToCodeCells rr1.state = some rr2 ∧
      ∀ c ∈ [6], ∃ b1 b2 : Elem,
        nextSibE c rr1.state.doc.root = some b1 ∧
        nextSibE c rr2.state.doc.root = some b2 ∧
        b1.getAttribute "id"
          = some ("copy-button-" ++ jsStr (getAttributeByRef wState1.doc.root c "id")) ∧
        b2.getAttribute "id" = b1.getAttribute "id" ∧
        b2.ref ≠ b1.ref ∧
        (findE b1.ref rr2.state.doc.root).map scalarOf = some (scalarOf b1) :=
  C9_not_idempotent wState1 [6] rfl rfl (by decide) (by decide) (by decide)
    (by intro c hc
        have hc6 : c = 6 := by simpa using hc
        subst hc6
        exact ⟨0, by decide⟩)
    (by decide)

/-!
`Nat.repr` is injective — needed because the generated cells carry the
`inputcell-index` ids and the hide-button queries look cells up by id.
-/

theorem toDigitsCore_eq_digits (fuel : Nat) :
    ∀ (n : Nat) (acc : List Char), n < fuel → n ≠ 0 →
    Nat.toDigitsCore 10 fuel n acc
      = ((Nat.digits 10 n).map Nat.digitChar).reverse ++ acc := by
  induction fuel with
  | zero => intro n acc h hn; omega
  | succ f ih =>
    intro n acc hlt hn
    rw [Nat.toDigitsCore]
    by_cases h0 : n / 10 = 0
    · rw [if_pos h0]
      have hn10 : n < 10 := by omega
      have hmod : n % 10 = n := by omega
      rw [hmod, Nat.digits_of_lt 10 n hn hn10]
      simp
    · rw [if_neg h0]
      have hdlt : n / 10 < n := Nat.div_lt_self (by omega) (by omega)
      rw [ih (n / 10) _ (by omega) h0]
      rw [Nat.digits_def' (show 1 < 10 by omega) (show 0 < n by omega)]
      simp

theorem repr_eq_digits (n : Nat) (hn : n ≠ 0) :
    Nat.repr n = (((Nat.digits 10 n).map Nat.digitChar).reverse).asString := by
  show (Nat.toDigits 10 n).asString = _
  unfold Nat.toDigits
  rw [toDigitsCore_eq_digits (n + 1) n [] (by omega) hn]
  simp

theorem digitChar_inj (a b : Nat) (ha : a < 10) (hb : b < 10)
    (h : Nat.digitChar a = Nat.digitChar b) : a = b := by
  interval_cases a <;> interval_cases b <;> revert h <;> decide

theorem map_digitChar_inj (l1 : List Nat) :
    ∀ l2 : List Nat, (∀ x ∈ l1, x < 10) → (∀ x ∈ l2, x < 10) →
    l1.map Nat.digitChar = l2.map Nat.digitChar → l1 = l2 := by
  induction l1 with
  | nil =>
    intro l2 _ _ h
    cases l2 with
    | nil => rfl
    | cons b t2 => simp at h
  | cons a t ih =>
    intro l2 h1 h2 h
    cases l2 with
    | nil => simp at h
    | cons b t2 =>
      simp only [List.map_cons, List.cons.injEq] at h
      have hab := digitChar_inj a b (h1 a (by simp)) (h2 b (by simp)) h.1
      rw [hab, ih t2 (fun x hx => h1 x (by simp [hx])) (fun x hx => h2 x (by simp [hx])) h.2]

theorem repr_injective (m n : Nat) (h : Nat.repr m = Nat.repr n) : m = n := by
  by_cases hm : m = 0
  · by_cases hn : n = 0
    · omega
    · exfalso
      subst hm
      rw [repr_eq_digits n hn] at h
      have hd := congrArg String.data h
      have hz : (Nat.repr 0).data = ['0'] := by decide
      rw [hz] at hd
      simp only [List.asString] at hd
      have hmap : (Nat.digits 10 n).map Nat.digitChar = ['0'] := by
        have hr := congrArg List.reverse hd
        simpa using hr.symm
      have hdig : Nat.digits 10 n = [0] := by
        apply map_digitChar_inj
        · exact fun x hx => Nat.digits_lt_base (by omega) hx
        · intro x hx; simp at hx; omega
        · simpa using hmap
      have hof := Nat.ofDigits_digits 10 n
      rw [hdig] at hof
      simp [Nat.ofDigits] at hof
      omega
  · by_cases hn : n = 0
    · exfalso
      subst hn
      rw [repr_eq_digits m hm] at h
      have hd := congrArg String.data h
      have hz : (Nat.repr 0).data = ['0'] := by decide
      rw [hz] at hd
      simp only [List.asString] at hd
      have hmap : (Nat.digits 10 m).map Nat.digitChar = ['0'] := by
        have hr := congrArg List.reverse hd
        simpa using hr
      have hdig : Nat.digits 10 m = [0] := by
        apply map_digitChar_inj
        · exact fun x hx => Nat.digits_lt_base (by omega) hx
        · intro x hx; simp at hx; omega
        · simpa using hmap
      have hof := Nat.ofDigits_digits 10 m
      rw [hdig] at hof
      simp [Nat.ofDigits] at hof
      omega
    · rw [repr_eq_digits m hm, repr_eq_digits n hn] at h
      have hd := congrArg String.data h
      simp only [List.asString] at hd
      have hmap : (Nat.digits 10 m).map Nat.digitChar
          = (Nat.digits 10 n).map Nat.digitChar := by
        have hr := congrArg List.reverse hd
        simpa using hr
      have hdig := map_digitChar_inj (Nat.digits 10 m) (Nat.digits 10 n)
        (fun x hx => Nat.digits_lt_base (by omega) hx)
        (fun x hx => Nat.digits_lt_base (by omega) hx) hmap
      have h1 := Nat.ofDigits_digits 10 m
      have h2 := Nat.ofDigits_digits 10 n
      rw [hdig, h2] at h1
      omega

theorem inputCellId_injective (i j : Nat) (h : inputCellId i = inputCellId j) : i = j := by
  unfold inputCellId at h
  have hd := congrArg String.data h
  rw [String.data_append, String.data_append] at hd
  have hc := List.append_cancel_left hd
  exact repr_injective i j (String.ext hc)

theorem inputCellId_beq_false {i j : Nat} (h : i ≠ j) :
    (inputCellId i == inputCellId j) = false :=
  beq_eq_false_iff_ne.mpr (fun hc => h (inputCellId_injective i j hc))

/-!
Ref inventories of the generated pages, and traversal helpers that skip
a region of the child list a DOM operation does not touch.
-/

theorem refsE_innerChain (i : Nat) (hid : Bool) :
    refsE (innerChain i hid) = [6*i+3, 6*i+4, 6*i+5, 6*i+6] := by
  cases hid <;> simp [innerChain, refsE, refsL]

theorem refsE_genCell (i : Nat) (t : Bool) :
    refsE (genCell i t) = [6*i+1, 6*i+2, 6*i+3, 6*i+4, 6*i+5, 6*i+6] := by
  cases hid : (false : Bool) <;> simp [genCell, innerChain, refsE, refsL]

theorem refsE_btnCell (i b : Nat) (hid chk : Bool) (ls : List String) :
    refsE (btnCell i b hid chk ls)
      = [6*i+1, 6*i+2, 6*i+3, 6*i+4, 6*i+5, 6*i+6, b, b+1, b+2, b+3] := by
  cases hid <;> simp [btnCell, hideBox, hideLabel, innerChain, refsE, refsL]

theorem refs_pendCells : ∀ (fl : List Bool) (k : Nat), ∀ x ∈ pendCells k fl, ∀ r ∈ refsE x,
    6*k+1 ≤ r ∧ r ≤ 6*(k + fl.length) := by
  intro fl
  induction fl with
  | nil => intro k x hx; simp [pendCells] at hx
  | cons t rest ih =>
    intro k x hx r hr
    simp only [pendCells, List.mem_cons] at hx
    rcases hx with rfl | hx
    · rw [refsE_genCell] at hr
      simp only [List.mem_cons, List.not_mem_nil, or_false] at hr
      simp only [List.length_cons]
      omega
    · obtain ⟨h1, h2⟩ := ih (k+1) x hx r hr
      simp only [List.length_cons]
      omega

theorem refs_doneCells : ∀ (fl : List Bool) (k b : Nat), ∀ x ∈ doneCells k b fl, ∀ r ∈ refsE x,
    (6*k+1 ≤ r ∧ r ≤ 6*(k + fl.length)) ∨ (b ≤ r ∧ r < b + 4 * fl.count true) := by
  intro fl
  induction fl with
  | nil => intro k b x hx; simp [doneCells] at hx
  | cons t rest ih =>
    intro k b x hx r hr
    cases t with
    | false =>
      simp [doneCells] at hx
      rcases hx with rfl | hx
      · rw [refsE_genCell] at hr
        simp only [List.mem_cons, List.not_mem_nil, or_false] at hr
        simp only [List.length_cons]
        omega
      · rcases ih (k+1) b x hx r hr with ⟨h1, h2⟩ | ⟨h1, h2⟩
        · simp only [List.length_cons]; left; omega
        · right
          simp only [List.count_cons] at h2 ⊢
          simp only [show ((false == true) = false) from rfl, if_false] at h2 ⊢
          omega
    | true =>
      simp [doneCells] at hx
      rcases hx with rfl | hx
      · rw [refsE_btnCell] at hr
        simp only [List.mem_cons, List.not_mem_nil, or_false] at hr
        simp only [List.length_cons, List.count_cons]
        rcases hr with rfl | rfl | rfl | rfl | rfl | rfl | rfl | rfl | rfl | rfl
        · left; omega
        · left; omega
        · left; omega
        · left; omega
        · left; omega
        · left; omega
        · right; simp; try omega
        · right; simp; try omega
        · right; simp; try omega
        · right; simp; try omega
      · rcases ih (k+1) (b+4) x hx r hr with ⟨h1, h2⟩ | ⟨h1, h2⟩
        · simp only [List.length_cons]; left; omega
        · right
          simp only [List.count_cons] at h2 ⊢
          simp only [show ((true == true) = true) from rfl, if_true] at h2 ⊢
          omega

theorem refs_finCells : ∀ (fl : List Bool) (k b : Nat), ∀ x ∈ finCells k b fl, ∀ r ∈ refsE x,
    (6*k+1 ≤ r ∧ r ≤ 6*(k + fl.length)) ∨ (b ≤ r ∧ r < b + 4 * fl.count true) := by
  intro fl
  induction fl with
  | nil => intro k b x hx; simp [finCells] at hx
  | cons t rest ih =>
    intro k b x hx r hr
    cases t with
    | false =>
      simp [finCells] at hx
      rcases hx with rfl | hx
      · rw [refsE_genCell] at hr
        simp only [List.mem_cons, List.not_mem_nil, or_false] at hr
        simp only [List.length_cons]
        omega
      · rcases ih (k+1) b x hx r hr with ⟨h1, h2⟩ | ⟨h1, h2⟩
        · simp only [List.length_cons]; left; omega
        · right
          simp only [List.count_cons] at h2 ⊢
          simp only [show ((false == true) = false) from rfl, if_false] at h2 ⊢
          omega
    | true =>
      simp [finCells] at hx
      rcases hx with rfl | hx
      · rw [refsE_btnCell] at hr
        simp only [List.mem_cons, List.not_mem_nil, or_false] at hr
        simp only [List.length_cons, List.count_cons]
        rcases hr with rfl | rfl | rfl | rfl | rfl | rfl | rfl | rfl | rfl | rfl
        · left; omega
        · left; omega
        · left; omega
        · left; omega
        · left; omega
        · left; omega
        · right; simp; try omega
        · right; simp; try omega
        · right; simp; try omega
        · right; simp; try omega
      · rcases ih (k+1) (b+4) x hx r hr with ⟨h1, h2⟩ | ⟨h1, h2⟩
        · simp only [List.length_cons]; left; omega
        · right
          simp only [List.count_cons] at h2 ⊢
          simp only [show ((true == true) = true) from rfl, if_true] at h2 ⊢
          omega

mutual
theorem appendChildE_none_iff (r : Nat) (new : List Elem) (e : Elem) :
    appendChildE r new e = none ↔ r ∉ refsE e := by
  cases e with
  | mk r0 t c a ch ls cs =>
    by_cases h : r0 = r
    · simp [appendChildE, refsE, h]
    · simp only [appendChildE, beq_iff_eq, h, if_false, Option.map_eq_none', refsE,
        List.mem_cons]
      rw [appendChildL_none_iff r new cs]
      constructor
      · intro hn hc
        rcases hc with hc | hc
        · exact h hc.symm
        · exact hn hc
      · intro hn hc
        exact hn (Or.inr hc)
theorem appendChildL_none_iff (r : Nat) (new : List Elem) (l : ElemList) :
    appendChildL r new l = none ↔ r ∉ refsL l := by
  cases l with
  | nil => simp [appendChildL, refsL]
  | cons e es =>
    simp only [appendChildL, refsL, List.mem_append]
    cases hE : appendChildE r new e with
    | some e2 =>
      have hin : r ∈ refsE e := by
        by_contra hc
        rw [← appendChildE_none_iff r new e] at hc
        rw [hE] at hc; exact Option.noConfusion hc
      simp [hin]
    | none =>
      have hni : r ∉ refsE e := (appendChildE_none_iff r new e).mp hE
      simp only [Option.map_eq_none']
      rw [appendChildL_none_iff r new es]
      constructor
      · intro hn hc
        rcases hc with hc | hc
        · exact hni hc
        · exact hn hc
      · intro hn hc
        exact hn (Or.inr hc)
end

theorem findL_ofListEL_skip (r : Nat) (ys : List Elem) :
    ∀ xs : List Elem, (∀ x ∈ xs, findE r x = none) →
    findL r (ofListEL (xs ++ ys)) = findL r (ofListEL ys) := by
  intro xs
  induction xs with
  | nil => intro h; rfl
  | cons a t ih =>
    intro h
    simp only [List.cons_append, ofListEL, findL, h a (List.mem_cons_self a t)]
    exact ih (fun x hx => h x (List.mem_cons_of_mem a hx))

theorem appendChildL_ofListEL_skip (r : Nat) (new ys : List Elem) :
    ∀ xs : List Elem, (∀ x ∈ xs, r ∉ refsE x) →
    appendChildL r new (ofListEL (xs ++ ys))
      = (appendChildL r new (ofListEL ys)).map (consAll xs) := by
  intro xs
  induction xs with
  | nil =>
    intro h
    simp only [List.nil_append, consAll]
    cases appendChildL r new (ofListEL ys) <;> rfl
  | cons a t ih =>
    intro h
    have ha : appendChildE r new a = none :=
      (appendChildE_none_iff r new a).mpr (h a (List.mem_cons_self a t))
    simp only [List.cons_append, ofListEL, appendChildL, ha, List.append_eq]
    rw [ih (fun x hx => h x (List.mem_cons_of_mem a hx))]
    cases appendChildL r new (ofListEL ys) <;> rfl

theorem updateL_ofListEL_skip (r : Nat) (f : Elem → Elem) (ys : List Elem) :
    ∀ xs : List Elem, (∀ x ∈ xs, r ∉ refsE x) →
    updateL r f (ofListEL (xs ++ ys))
      = (updateL r f (ofListEL ys)).map (consAll xs) := by
  intro xs
  induction xs with
  | nil =>
    intro h
    simp only [List.nil_append, consAll]
    cases updateL r f (ofListEL ys) <;> rfl
  | cons a t ih =>
    intro h
    have ha : updateE r f a = none := by
      rw [updateE_none_iff, findE_none_iff]
      exact h a (List.mem_cons_self a t)
    simp only [List.cons_append, ofListEL, updateL, ha, List.append_eq]
    rw [ih (fun x hx => h x (List.mem_cons_of_mem a hx))]
    cases updateL r f (ofListEL ys) <;> rfl

theorem collectL_ofListEL_append (sels : List Sel) (ys : List Elem) :
    ∀ (xs : List Elem) (prevs : List Elem) (ups : List Frame),
    collectL sels (ofListEL (xs ++ ys)) prevs ups
      = collectL sels (ofListEL xs) prevs ups
        ++ collectL sels (ofListEL ys) (xs.reverse ++ prevs) ups := by
  intro xs
  induction xs with
  | nil => intro prevs ups; simp [ofListEL, collectL]
  | cons a t ih =>
    intro prevs ups
    simp only [List.cons_append, ofListEL, collectL, List.append_eq]
    rw [ih (a :: prevs) ups]
    simp [List.append_assoc]

/-!
Evaluation of the DOM primitives and of the script's selectors on the
generated cells.
-/

theorem beq_false_of_ne {α : Type} [BEq α] [LawfulBEq α] {a b : α} (h : a ≠ b) :
    (a == b) = false :=
  beq_eq_false_iff_ne.mpr h

theorem someBeq (a b : String) : ((some a : Option String) == some b) = (a == b) := rfl

theorem noneBeq (b : String) : ((none : Option String) == some b) = false := rfl

theorem findE_genCell_self (i : Nat) (t : Bool) :
    findE (6*i+1) (genCell i t) = some (genCell i t) := by
  simp [genCell, findE]

theorem findE_btnCell_self (i b : Nat) (hid chk : Bool) (ls : List String) :
    findE (6*i+1) (btnCell i b hid chk ls) = some (btnCell i b hid chk ls) := by
  simp [btnCell, findE]

theorem findE_btnCell_box (i b : Nat) (hid chk : Bool) (ls : List String)
    (hb : 6*i+6 < b) : findE b (btnCell i b hid chk ls) = some (hideBox i b chk) := by
  simp [btnCell, innerChain, hideBox, hideLabel, findE, findL,
    eq_false (show (6*i+1 : Nat) ≠ b by omega), eq_false (show (6*i+2 : Nat) ≠ b by omega),
    eq_false (show (6*i+3 : Nat) ≠ b by omega), eq_false (show (6*i+4 : Nat) ≠ b by omega),
    eq_false (show (6*i+5 : Nat) ≠ b by omega), eq_false (show (6*i+6 : Nat) ≠ b by omega)]

theorem updateE_btnCell_label (i b : Nat) (hid chk : Bool) (ls : List String)
    (hb : 6*i+6 < b) :
    updateE (b+1) (fun e => e.addListener "click") (btnCell i b hid chk ls)
      = some (btnCell i b hid chk (ls ++ ["click"])) := by
  simp [btnCell, innerChain, hideBox, hideLabel, updateE, updateL, Elem.addListener,
    eq_false (show (6*i : Nat) ≠ b by omega), eq_false (show (6*i+1 : Nat) ≠ b by omega),
    eq_false (show (6*i+2 : Nat) ≠ b by omega), eq_false (show (6*i+3 : Nat) ≠ b by omega),
    eq_false (show (6*i+4 : Nat) ≠ b by omega), eq_false (show (6*i+5 : Nat) ≠ b by omega),
    eq_false (show (6*i+6 : Nat) ≠ b by omega),
    eq_false (show (6*i+1 : Nat) ≠ b+1 by omega),
    eq_false (show (6*i+2 : Nat) ≠ b+1 by omega),
    eq_false (show (6*i+3 : Nat) ≠ b+1 by omega),
    eq_false (show (6*i+4 : Nat) ≠ b+1 by omega),
    eq_false (show (6*i+5 : Nat) ≠ b+1 by omega),
    eq_false (show (6*i+6 : Nat) ≠ b+1 by omega)]

theorem updateE_btnCell_highlight (i b : Nat) (chk : Bool) (ls : List String)
    (hb : 6*i+6 < b) :
    updateE (6*i+5) (fun e => e.addClass "hidden") (btnCell i b false chk ls)
      = some (btnCell i b true chk ls) := by
  simp [btnCell, innerChain, hideBox, hideLabel, updateE, updateL, Elem.addClass,
    eq_false (show (6*i+1 : Nat) ≠ 6*i+5 by omega),
    eq_false (show (6*i+2 : Nat) ≠ 6*i+5 by omega),
    eq_false (show (6*i+3 : Nat) ≠ 6*i+5 by omega),
    eq_false (show (6*i+4 : Nat) ≠ 6*i+5 by omega)]

theorem updateE_btnCell_box (i b : Nat) (hid chk c : Bool) (ls : List String)
    (hb : 6*i+6 < b) :
    updateE b (fun e => e.setChecked c) (btnCell i b hid chk ls)
      = some (btnCell i b hid c ls) := by
  simp [btnCell, innerChain, hideBox, hideLabel, updateE, updateL, Elem.setChecked,
    eq_false (show (6*i+1 : Nat) ≠ b by omega), eq_false (show (6*i+2 : Nat) ≠ b by omega),
    eq_false (show (6*i+3 : Nat) ≠ b by omega), eq_false (show (6*i+4 : Nat) ≠ b by omega),
    eq_false (show (6*i+5 : Nat) ≠ b by omega), eq_false (show (6*i+6 : Nat) ≠ b by omega)]

theorem appendChildE_genCell (i b : Nat) :
    appendChildE (6*i+2) (hideCodeButton (inputCellId i) b) (genCell i true)
      = some (btnCell i b false false []) := by
  simp [genCell, innerChain, appendChildE, appendChildL, appendEL, ofListEL,
    hideCodeButton, btnCell, hideBox, hideLabel]

theorem firstDescE_genCell (i : Nat) :
    firstDescE selDivInput (genCell i true) = some (6*i+2) := by
  simp [genCell, innerChain, firstDescE, firstDescL, selDivInput, matchesSimple,
    Elem.tag, Elem.classes, Elem.ref, Elem.getAttribute, Elem.attrs]

/-!
Evaluation of the script's selectors on the generated cells.
-/

theorem collect_hideLink_genCell (id : String) (j : Nat) (t : Bool)
    (prevs : List Elem) (ups : List Frame) :
    collectE (selHideLink id) (genCell j t) prevs ups = [] := by
  cases t <;>
    simp [genCell, innerChain, collectE, collectL, selHideLink, matchesAt, matchesSimple,
      anyFrame, Elem.tag, Elem.classes, Elem.getAttribute, Elem.attrs]

theorem collect_guard_genCell (j : Nat) (t : Bool)
    (prevs : List Elem) (ups : List Frame) :
    collectE selHideGuard (genCell j t) prevs ups = [] := by
  cases t <;>
    simp [genCell, innerChain, collectE, collectL, selHideGuard, matchesAt, matchesSimple,
      anyFrame, Elem.tag, Elem.classes, Elem.getAttribute, Elem.attrs]

theorem collect_guard_btnCell (j b : Nat) (hid chk : Bool) (ls : List String)
    (prevs : List Elem) (ups : List Frame) :
    collectE selHideGuard (btnCell j b hid chk ls) prevs ups = [b] := by
  cases hid <;>
    simp [btnCell, innerChain, hideBox, hideLabel, collectE, collectL, selHideGuard,
      matchesAt, matchesSimple, anyFrame, Elem.tag, Elem.classes, Elem.getAttribute,
      Elem.attrs, Elem.ref]

theorem collect_hideLink_btnCell_self (j b : Nat) (hid chk : Bool) (ls : List String)
    (prevs : List Elem) (ups : List Frame) :
    collectE (selHideLink (inputCellId j)) (btnCell j b hid chk ls) prevs ups = [b+1] := by
  cases hid <;>
    simp [btnCell, innerChain, hideBox, hideLabel, collectE, collectL, selHideLink,
      matchesAt, matchesSimple, anyFrame, Elem.tag, Elem.classes, Elem.getAttribute,
      Elem.attrs, Elem.ref, someBeq, noneBeq]

theorem collect_idhl_genCell_self (j : Nat) (t : Bool)
    (prevs : List Elem) (ups : List Frame) :
    collectE (selIdHighlight (inputCellId j)) (genCell j t) prevs ups = [6*j+5] := by
  cases t <;>
    simp [genCell, innerChain, collectE, collectL, selIdHighlight, matchesAt,
      matchesSimple, anyFrame, Elem.tag, Elem.classes, Elem.getAttribute, Elem.attrs,
      Elem.ref, someBeq, noneBeq]

theorem collect_idhl_btnCell_self (j b : Nat) (hid chk : Bool) (ls : List String)
    (prevs : List Elem) (ups : List Frame) :
    collectE (selIdHighlight (inputCellId j)) (btnCell j b hid chk ls) prevs ups
      = [6*j+5] := by
  cases hid <;>
    simp [btnCell, innerChain, hideBox, hideLabel, collectE, collectL, selIdHighlight,
      matchesAt, matchesSimple, anyFrame, Elem.tag, Elem.classes, Elem.getAttribute,
      Elem.attrs, Elem.ref, someBeq, noneBeq]

/-- No frame of `ups` carries the id `id` (Bool form fed to the
selector-evaluation lemmas). -/
theorem anyFrame_id_false (id : String) :
    ∀ ups : List Frame, (∀ f ∈ ups, (f.1.getAttribute "id" == some id) = false) →
    anyFrame (fun p pp rest => p.getAttribute "id" == some id) ups = false := by
  intro ups
  induction ups with
  | nil => intro h; rfl
  | cons f rest ih =>
    intro h
    obtain ⟨e, pv⟩ := f
    simp only [anyFrame]
    rw [h (e, pv) (List.mem_cons_self _ _)]
    simp only [Bool.false_or]
    exact ih (fun g hg => h g (List.mem_cons_of_mem _ hg))

theorem collect_hideLink_btnCell_ne (id : String) (j b : Nat) (hid chk : Bool)
    (ls : List String) (prevs : List Elem) (ups : List Frame)
    (hne : (inputCellId j == id) = false)
    (hups : ∀ f ∈ ups, (f.1.getAttribute "id" == some id) = false) :
    collectE (selHideLink id) (btnCell j b hid chk ls) prevs ups = [] := by
  have ha := anyFrame_id_false id ups hups
  cases hid <;>
    (simp [btnCell, innerChain, hideBox, hideLabel, collectE, collectL, selHideLink,
      matchesAt, matchesSimple, anyFrame, Elem.tag, Elem.classes, Elem.getAttribute,
      Elem.attrs, Elem.ref, someBeq, noneBeq, hne]
     exact ha)

theorem collect_idhl_genCell_ne (id : String) (j : Nat) (t : Bool)
    (prevs : List Elem) (ups : List Frame)
    (hne : (inputCellId j == id) = false)
    (hups : ∀ f ∈ ups, (f.1.getAttribute "id" == some id) = false) :
    collectE (selIdHighlight id) (genCell j t) prevs ups = [] := by
  have ha := anyFrame_id_false id ups hups
  cases t <;>
    (simp [genCell, innerChain, collectE, collectL, selIdHighlight, matchesAt,
      matchesSimple, anyFrame, Elem.tag, Elem.classes, Elem.getAttribute, Elem.attrs,
      Elem.ref, someBeq, noneBeq, hne]
     exact ha)

theorem collect_idhl_btnCell_ne (id : String) (j b : Nat) (hid chk : Bool)
    (ls : List String) (prevs : List Elem) (ups : List Frame)
    (hne : (inputCellId j == id) = false)
    (hups : ∀ f ∈ ups, (f.1.getAttribute "id" == some id) = false) :
    collectE (selIdHighlight id) (btnCell j b hid chk ls) prevs ups = [] := by
  have ha := anyFrame_id_false id ups hups
  cases hid <;>
    (simp [btnCell, innerChain, hideBox, hideLabel, collectE, collectL, selIdHighlight,
      matchesAt, matchesSimple, anyFrame, Elem.tag, Elem.classes, Elem.getAttribute,
      Elem.attrs, Elem.ref, someBeq, noneBeq, hne]
     exact ha)

/-!
Page-level assembly: running the DOM primitives and the selector
queries over a generated root whose child list splits into an already
processed region, the cell being processed, and the pending region.
-/

theorem ofListEL_append (l : List Elem) :
    ∀ xs : List Elem, ofListEL (xs ++ l) = consAll xs (ofListEL l) := by
  intro xs
  induction xs with
  | nil => rfl
  | cons a t ih =>
    simp only [List.cons_append, ofListEL, consAll]
    exact congrArg (ElemList.cons a) ih

theorem findE_mkRoot_mid (r : Nat) (xs ys : List Elem) (y v : Elem)
    (hr : r ≠ 0) (hxs : ∀ x ∈ xs, r ∉ refsE x) (hy : findE r y = some v) :
    findE r (mkRoot (xs ++ y :: ys)) = some v := by
  simp only [mkRoot, findE, eq_false (show (0 : Nat) ≠ r from fun hc => hr hc.symm),
    beq_false_of_ne (show (0 : Nat) ≠ r from fun hc => hr hc.symm), if_false]
  rw [findL_ofListEL_skip r (y :: ys) xs
    (fun x hx => (findE_none_iff r x).mpr (hxs x hx))]
  simp only [ofListEL, findL, hy, Bool.false_eq_true, if_false]

theorem appendChildE_mkRoot_mid (r : Nat) (new : List Elem) (xs ys : List Elem)
    (y y2 : Elem) (hr : r ≠ 0) (hxs : ∀ x ∈ xs, r ∉ refsE x)
    (hy : appendChildE r new y = some y2) :
    appendChildE r new (mkRoot (xs ++ y :: ys)) = some (mkRoot (xs ++ y2 :: ys)) := by
  simp only [mkRoot, appendChildE,
    beq_false_of_ne (show (0 : Nat) ≠ r from fun hc => hr hc.symm), if_false]
  rw [appendChildL_ofListEL_skip r new (y :: ys) xs hxs]
  simp only [ofListEL, appendChildL, hy, Option.map_some']
  have hc : consAll xs (ElemList.cons y2 (ofListEL ys)) = ofListEL (xs ++ y2 :: ys) :=
    (ofListEL_append (y2 :: ys) xs).symm
  rw [hc]
  simp only [Bool.false_eq_true, if_false]

theorem updateE_mkRoot_mid (r : Nat) (f : Elem → Elem) (xs ys : List Elem)
    (y y2 : Elem) (hr : r ≠ 0) (hxs : ∀ x ∈ xs, r ∉ refsE x)
    (hy : updateE r f y = some y2) :
    updateE r f (mkRoot (xs ++ y :: ys)) = some (mkRoot (xs ++ y2 :: ys)) := by
  simp only [mkRoot, updateE,
    beq_false_of_ne (show (0 : Nat) ≠ r from fun hc => hr hc.symm), if_false]
  rw [updateL_ofListEL_skip r f (y :: ys) xs hxs]
  simp only [ofListEL, updateL, hy, Option.map_some']
  have hc : consAll xs (ElemList.cons y2 (ofListEL ys)) = ofListEL (xs ++ y2 :: ys) :=
    (ofListEL_append (y2 :: ys) xs).symm
  rw [hc]
  simp only [Bool.false_eq_true, if_false]

theorem collectL_guard_pendCells :
    ∀ (fl : List Bool) (k : Nat) (prevs : List Elem) (ups : List Frame),
    collectL selHideGuard (ofListEL (pendCells k fl)) prevs ups = [] := by
  intro fl
  induction fl with
  | nil => intro k prevs ups; rfl
  | cons t rest ih =>
    intro k prevs ups
    simp only [pendCells, ofListEL, collectL, collect_guard_genCell, List.nil_append]
    exact ih (k+1) _ _

theorem collectL_guard_doneCells :
    ∀ (fl : List Bool) (k b : Nat) (prevs : List Elem) (ups : List Frame),
    collectL selHideGuard (ofListEL (doneCells k b fl)) prevs ups = boxRefs k b fl := by
  intro fl
  induction fl with
  | nil => intro k b prevs ups; rfl
  | cons t rest ih =>
    intro k b prevs ups
    cases t with
    | false =>
      simp only [doneCells, Bool.false_eq_true, if_false, ofListEL, collectL,
        collect_guard_genCell, List.nil_append, boxRefs]
      exact ih (k+1) b _ _
    | true =>
      simp only [doneCells, if_true, ofListEL, collectL, collect_guard_btnCell, boxRefs]
      rw [ih (k+1) (b+4) _ _]
      rfl

theorem collectL_hideLink_pendCells (id : String) :
    ∀ (fl : List Bool) (k : Nat) (prevs : List Elem) (ups : List Frame),
    collectL (selHideLink id) (ofListEL (pendCells k fl)) prevs ups = [] := by
  intro fl
  induction fl with
  | nil => intro k prevs ups; rfl
  | cons t rest ih =>
    intro k prevs ups
    simp only [pendCells, ofListEL, collectL, collect_hideLink_genCell, List.nil_append]
    exact ih (k+1) _ _

theorem collectL_hideLink_doneCells_ne (jT : Nat) :
    ∀ (fl : List Bool) (k b : Nat) (prevs : List Elem) (ups : List Frame),
    (∀ j, j < fl.length → k + j ≠ jT) →
    (∀ f ∈ ups, (f.1.getAttribute "id" == some (inputCellId jT)) = false) →
    collectL (selHideLink (inputCellId jT)) (ofListEL (doneCells k b fl)) prevs ups
      = [] := by
  intro fl
  induction fl with
  | nil => intro k b prevs ups hidx hups; rfl
  | cons t rest ih =>
    intro k b prevs ups hidx hups
    have hk : k ≠ jT := by
      have := hidx 0 (by simp)
      omega
    have htail : ∀ j, j < rest.length → (k+1) + j ≠ jT := by
      intro j hj
      have := hidx (j+1) (by simp; omega)
      omega
    cases t with
    | false =>
      simp only [doneCells, Bool.false_eq_true, if_false, ofListEL, collectL]
      rw [collect_hideLink_genCell, ih (k+1) b _ _ htail hups]
      rfl
    | true =>
      simp only [doneCells, if_true, ofListEL, collectL]
      rw [collect_hideLink_btnCell_ne _ _ _ _ _ _ _ _ (inputCellId_beq_false hk) hups,
        ih (k+1) (b+4) _ _ htail hups]
      rfl

theorem collectL_idhl_pendCells_ne (jT : Nat) :
    ∀ (fl : List Bool) (k : Nat) (prevs : List Elem) (ups : List Frame),
    (∀ j, j < fl.length → k + j ≠ jT) →
    (∀ f ∈ ups, (f.1.getAttribute "id" == some (inputCellId jT)) = false) →
    collectL (selIdHighlight (inputCellId jT)) (ofListEL (pendCells k fl)) prevs ups
      = [] := by
  intro fl
  induction fl with
  | nil => intro k prevs ups hidx hups; rfl
  | cons t rest ih =>
    intro k prevs ups hidx hups
    have hk : k ≠ jT := by
      have := hidx 0 (by simp)
      omega
    have htail : ∀ j, j < rest.length → (k+1) + j ≠ jT := by
      intro j hj
      have := hidx (j+1) (by simp; omega)
      omega
    simp only [pendCells, ofListEL, collectL]
    rw [collect_idhl_genCell_ne _ _ _ _ _ (inputCellId_beq_false hk) hups,
      ih (k+1) _ _ htail hups]
    rfl

theorem collectL_idhl_doneCells_ne (jT : Nat) :
    ∀ (fl : List Bool) (k b : Nat) (prevs : List Elem) (ups : List Frame),
    (∀ j, j < fl.length → k + j ≠ jT) →
    (∀ f ∈ ups, (f.1.getAttribute "id" == some (inputCellId jT)) = false) →
    collectL (selIdHighlight (inputCellId jT)) (ofListEL (doneCells k b fl)) prevs ups
      = [] := by
  intro fl
  induction fl with
  | nil => intro k b prevs ups hidx hups; rfl
  | cons t rest ih =>
    intro k b prevs ups hidx hups
    have hk : k ≠ jT := by
      have := hidx 0 (by simp)
      omega
    have htail : ∀ j, j < rest.length → (k+1) + j ≠ jT := by
      intro j hj
      have := hidx (j+1) (by simp; omega)
      omega
    cases t with
    | false =>
      simp only [doneCells, Bool.false_eq_true, if_false, ofListEL, collectL]
      rw [collect_idhl_genCell_ne _ _ _ _ _ (inputCellId_beq_false hk) hups,
        ih (k+1) b _ _ htail hups]
      rfl
    | true =>
      simp only [doneCells, if_true, ofListEL, collectL]
      rw [collect_idhl_btnCell_ne _ _ _ _ _ _ _ _ (inputCellId_beq_false hk) hups,
        ih (k+1) (b+4) _ _ htail hups]
      rfl

theorem collectL_idhl_finCells_ne (jT : Nat) :
    ∀ (fl : List Bool) (k b : Nat) (prevs : List Elem) (ups : List Frame),
    (∀ j, j < fl.length → k + j ≠ jT) →
    (∀ f ∈ ups, (f.1.getAttribute "id" == some (inputCellId jT)) = false) →
    collectL (selIdHighlight (inputCellId jT)) (ofListEL (finCells k b fl)) prevs ups
      = [] := by
  intro fl
  induction fl with
  | nil => intro k b prevs ups hidx hups; rfl
  | cons t rest ih =>
    intro k b prevs ups hidx hups
    have hk : k ≠ jT := by
      have := hidx 0 (by simp)
      omega
    have htail : ∀ j, j < rest.length → (k+1) + j ≠ jT := by
      intro j hj
      have := hidx (j+1) (by simp; omega)
      omega
    cases t with
    | false =>
      simp only [finCells, Bool.false_eq_true, if_false, ofListEL, collectL]
      rw [collect_idhl_genCell_ne _ _ _ _ _ (inputCellId_beq_false hk) hups,
        ih (k+1) b _ _ htail hups]
      rfl
    | true =>
      simp only [finCells, if_true, ofListEL, collectL]
      rw [collect_idhl_btnCell_ne _ _ _ _ _ _ _ _ (inputCellId_beq_false hk) hups,
        ih (k+1) (b+4) _ _ htail hups]
      rfl

theorem doneCells_append :
    ∀ (xs ys : List Bool) (k b : Nat),
    doneCells k b (xs ++ ys)
      = doneCells k b xs ++ doneCells (k + xs.length) (b + 4 * xs.count true) ys := by
  intro xs
  induction xs with
  | nil => intro ys k b; simp [doneCells]
  | cons t rest ih =>
    intro ys k b
    have e1 : k + (t :: rest).length = k + 1 + rest.length := by
      simp only [List.length_cons]
      omega
    cases t with
    | false =>
      have e2 : b + 4 * List.count true (false :: rest)
          = b + 4 * List.count true rest := by
        simp [List.count_cons]
      simp only [List.cons_append, doneCells, Bool.false_eq_true, if_false,
        List.append_eq]
      rw [ih ys (k+1) b, e1, e2]
    | true =>
      have e2 : b + 4 * List.count true (true :: rest)
          = b + 4 + 4 * List.count true rest := by
        simp only [List.count_cons, beq_self_eq_true, if_true]
        omega
      simp only [List.cons_append, doneCells, if_true, List.append_eq]
      rw [ih ys (k+1) (b+4), e1, e2]

theorem finCells_append :
    ∀ (xs ys : List Bool) (k b : Nat),
    finCells k b (xs ++ ys)
      = finCells k b xs ++ finCells (k + xs.length) (b + 4 * xs.count true) ys := by
  intro xs
  induction xs with
  | nil => intro ys k b; simp [finCells]
  | cons t rest ih =>
    intro ys k b
    have e1 : k + (t :: rest).length = k + 1 + rest.length := by
      simp only [List.length_cons]
      omega
    cases t with
    | false =>
      have e2 : b + 4 * List.count true (false :: rest)
          = b + 4 * List.count true rest := by
        simp [List.count_cons]
      simp only [List.cons_append, finCells, Bool.false_eq_true, if_false,
        List.append_eq]
      rw [ih ys (k+1) b, e1, e2]
    | true =>
      have e2 : b + 4 * List.count true (true :: rest)
          = b + 4 + 4 * List.count true rest := by
        simp only [List.count_cons, beq_self_eq_true, if_true]
        omega
      simp only [List.cons_append, finCells, if_true, List.append_eq]
      rw [ih ys (k+1) (b+4), e1, e2]

/-!
One pass of the `forEach` body of `addHideButton` over a generated
cell, with the rest of the page abstracted into an already processed
`done` region and a pending `pend` region.
-/

theorem addHideButtonStep_gen_false (k b' : Nat) (done pend : List Elem)
    (hl : Option Nat)
    (hm1 : ∀ x ∈ done, (6*k+1) ∉ refsE x) :
    addHideButtonStep (⟨mkRoot (done ++ genCell k false :: pend), b'⟩, hl) (6*k+1)
      = some (⟨mkRoot (done ++ genCell k false :: pend), b'⟩, hl) := by
  unfold addHideButtonStep
  rw [findE_mkRoot_mid (6*k+1) done pend _ _ (by omega) hm1 (findE_genCell_self k false)]
  simp [genCell, Elem.classes]

theorem addHideButtonStep_gen_true (k b' : Nat) (done pend : List Elem)
    (hl : Option Nat) (hb : 6*k+6 < b')
    (hm1 : ∀ x ∈ done, (6*k+1) ∉ refsE x)
    (hm2 : ∀ x ∈ done, (6*k+2) ∉ refsE x)
    (hm3 : ∀ x ∈ done, (b'+1) ∉ refsE x)
    (hcd : ∀ (prevs : List Elem) (ups : List Frame),
      (∀ f ∈ ups, (f.1.getAttribute "id" == some (inputCellId k)) = false) →
      collectL (selHideLink (inputCellId k)) (ofListEL done) prevs ups = [])
    (hcp : ∀ (prevs : List Elem) (ups : List Frame),
      collectL (selHideLink (inputCellId k)) (ofListEL pend) prevs ups = []) :
    addHideButtonStep (⟨mkRoot (done ++ genCell k true :: pend), b'⟩, hl) (6*k+1)
      = some (⟨mkRoot (done ++ btnCell k b' false false ["click"] :: pend), b'+4⟩,
              some (b'+1)) := by
  unfold addHideButtonStep
  rw [findE_mkRoot_mid (6*k+1) done pend _ _ (by omega) hm1 (findE_genCell_self k true)]
  have hid : jsStr ((genCell k true).getAttribute "id") = inputCellId k := by
    simp [genCell, Elem.getAttribute, Elem.attrs, jsStr]
  have hquery : elemQuerySelector
      ⟨mkRoot (done ++ genCell k true :: pend), b'⟩ (6*k+1) selDivInput
      = some (6*k+2) := by
    unfold elemQuerySelector
    rw [findE_mkRoot_mid (6*k+1) done pend _ _ (by omega) hm1 (findE_genCell_self k true)]
    exact firstDescE_genCell k
  have happend : appendChildByRef (mkRoot (done ++ genCell k true :: pend)) (6*k+2)
      (hideCodeButton (inputCellId k) b')
      = mkRoot (done ++ btnCell k b' false false [] :: pend) := by
    unfold appendChildByRef
    rw [appendChildE_mkRoot_mid (6*k+2) _ done pend _ _ (by omega) hm2
      (appendChildE_genCell k b')]
    rfl
  have hqsa : querySelectorAll
      ⟨mkRoot (done ++ btnCell k b' false false [] :: pend), b'+4⟩
      (selHideLink (inputCellId k)) = [b'+1] := by
    unfold querySelectorAll
    simp only [mkRoot, collectE]
    rw [collectL_ofListEL_append]
    rw [hcd _ _ (by
      intro f hf
      simp only [List.mem_singleton] at hf
      subst hf
      simp [Elem.getAttribute, Elem.attrs, noneBeq])]
    simp only [ofListEL, collectL]
    rw [collect_hideLink_btnCell_self k b' false false []]
    rw [hcp]
    simp [selHideLink, matchesAt, matchesSimple, Elem.tag]
  have hupd : updateByRef (mkRoot (done ++ btnCell k b' false false [] :: pend))
      (b'+1) (fun e => e.addListener "click")
      = mkRoot (done ++ btnCell k b' false false ["click"] :: pend) := by
    unfold updateByRef
    rw [updateE_mkRoot_mid (b'+1) _ done pend _ _ (by omega) hm3
      (updateE_btnCell_label k b' false false [] hb)]
    rfl
  have hcontains : ((genCell k true).classes.contains "tag_hide_input" = false) = False := by
    simp [genCell, Elem.classes]
  simp only [hcontains, if_false, hid, querySelectorFirst]
  rw [hquery]
  simp [happend, hqsa, hupd]

/-- The whole `forEach` of `addHideButton` over the generated page:
starting after a processed prefix `pre`, folding the step over the
remaining cells completes the page, threading the checkbox refs. -/
theorem hideFold (n : Nat) :
    ∀ (rest pre : List Bool) (hl : Option Nat),
    pre.length + rest.length = n →
    ∃ hl2,
      (cellRefs pre.length rest).foldlM addHideButtonStep
        (⟨mkRoot (doneCells 0 (6*n+1) pre ++ pendCells pre.length rest),
          6*n+1 + 4 * pre.count true⟩, hl)
        = some
          (⟨mkRoot (doneCells 0 (6*n+1) (pre ++ rest)),
            6*n+1 + 4 * (pre ++ rest).count true⟩, hl2) := by
  intro rest
  induction rest with
  | nil =>
    intro pre hl hlen
    refine ⟨hl, ?_⟩
    simp [cellRefs, pendCells, List.foldlM]
  | cons t rest ih =>
    intro pre hl hlen
    have hklen : pre.length < n := by
      simp only [List.length_cons] at hlen
      omega
    have hmiss : ∀ r, 6 * pre.length < r →
        (r < 6*n+1 ∨ 6*n+1 + 4 * pre.count true ≤ r) →
        ∀ x ∈ doneCells 0 (6*n+1) pre, r ∉ refsE x := by
      intro r h1 h2 x hx hr
      rcases refs_doneCells pre 0 (6*n+1) x hx r hr with ⟨a1, a2⟩ | ⟨a1, a2⟩ <;> omega
    have hlen' : ∀ u : Bool, (pre ++ [u]).length + rest.length = n := by
      intro u
      simp only [List.length_append, List.length_cons, List.length_nil] at hlen ⊢
      omega
    cases t with
    | false =>
      obtain ⟨hl2, hfold⟩ := ih (pre ++ [false]) hl (hlen' false)
      refine ⟨hl2, ?_⟩
      have e1 : (pre ++ [false]).length = pre.length + 1 := by simp
      have e2 : (pre ++ [false]).count true = pre.count true := by simp
      have e3 : (pre ++ [false]) ++ rest = pre ++ false :: rest := by simp
      rw [e1, e2, e3] at hfold
      have e4 : doneCells 0 (6*n+1) (pre ++ [false])
          = doneCells 0 (6*n+1) pre ++ [genCell pre.length false] := by
        rw [doneCells_append]
        simp [doneCells]
      rw [e4] at hfold
      have e5 : (doneCells 0 (6*n+1) pre ++ [genCell pre.length false])
            ++ pendCells (pre.length+1) rest
          = doneCells 0 (6*n+1) pre
            ++ genCell pre.length false :: pendCells (pre.length+1) rest := by
        simp
      rw [e5] at hfold
      simp only [cellRefs, pendCells, List.foldlM_cons]
      rw [addHideButtonStep_gen_false pre.length _ _ _ hl
        (fun x hx => hmiss _ (by omega) (Or.inl (by omega)) x hx)]
      exact hfold
    | true =>
      obtain ⟨hl2, hfold⟩ :=
        ih (pre ++ [true]) (some (6*n+1 + 4 * pre.count true + 1)) (hlen' true)
      refine ⟨hl2, ?_⟩
      have e1 : (pre ++ [true]).length = pre.length + 1 := by simp
      have e2 : (pre ++ [true]).count true = pre.count true + 1 := by simp
      have e3 : (pre ++ [true]) ++ rest = pre ++ true :: rest := by simp
      rw [e1, e2, e3] at hfold
      have e4 : doneCells 0 (6*n+1) (pre ++ [true])
          = doneCells 0 (6*n+1) pre
            ++ [btnCell pre.length (6*n+1 + 4 * pre.count true) false false ["click"]] := by
        rw [doneCells_append]
        simp [doneCells]
      rw [e4] at hfold
      have e5 : (doneCells 0 (6*n+1) pre
            ++ [btnCell pre.length (6*n+1 + 4 * pre.count true) false false ["click"]])
            ++ pendCells (pre.length+1) rest
          = doneCells 0 (6*n+1) pre
            ++ btnCell pre.length (6*n+1 + 4 * pre.count true) false false ["click"]
              :: pendCells (pre.length+1) rest := by
        simp
      rw [e5] at hfold
      have e6 : 6*n+1 + 4 * (pre.count true + 1) = 6*n+1 + 4 * pre.count true + 4 := by
        omega
      rw [e6] at hfold
      simp only [cellRefs, pendCells, List.foldlM_cons]
      rw [addHideButtonStep_gen_true pre.length (6*n+1 + 4 * pre.count true)
        (doneCells 0 (6*n+1) pre) (pendCells (pre.length+1) rest) hl
        (by omega)
        (fun x hx => hmiss _ (by omega) (Or.inl (by omega)) x hx)
        (fun x hx => hmiss _ (by omega) (Or.inl (by omega)) x hx)
        (fun x hx => hmiss _ (by omega) (Or.inr (by omega)) x hx)
        (fun prevs ups hups =>
          collectL_hideLink_doneCells_ne pre.length pre 0 (6*n+1) prevs ups
            (fun j hj => by omega) hups)
        (fun prevs ups =>
          collectL_hideLink_pendCells (inputCellId pre.length) rest (pre.length+1)
            prevs ups)]
      exact hfold

/-!
The visibility pass of `initHiddenCells` over the generated page, and
the guard query.
-/

theorem guard_genDoc (flags : List Bool) :
    querySelectorFirst (genDoc flags) selHideGuard = none := by
  unfold querySelectorFirst querySelectorAll genDoc
  simp only [mkRoot, collectE, collectL_guard_pendCells]
  simp [selHideGuard, matchesAt, matchesSimple, Elem.tag]

theorem guard_doneDoc (flags : List Bool) (b nr : Nat) :
    querySelectorAll ⟨mkRoot (doneCells 0 b flags), nr⟩ selHideGuard
      = boxRefs 0 b flags := by
  unfold querySelectorAll
  simp only [mkRoot, collectE, collectL_guard_doneCells]
  simp [selHideGuard, matchesAt, matchesSimple, Elem.tag]

theorem hideBox_dataId (i b : Nat) (chk : Bool) :
    (hideBox i b chk).getAttribute "data-id" = some (inputCellId i) := by
  simp [hideBox, Elem.getAttribute, Elem.attrs]

theorem visStep_gen_true (k b nr : Nat) (fin done : List Elem)
    (hb : 6*k+6 < b)
    (hm5 : ∀ x ∈ fin, (6*k+5) ∉ refsE x)
    (hmb : ∀ x ∈ fin, b ∉ refsE x)
    (hcf : ∀ (prevs : List Elem) (ups : List Frame),
      (∀ f ∈ ups, (f.1.getAttribute "id" == some (inputCellId k)) = false) →
      collectL (selIdHighlight (inputCellId k)) (ofListEL fin) prevs ups = [])
    (hcd : ∀ (prevs : List Elem) (ups : List Frame),
      (∀ f ∈ ups, (f.1.getAttribute "id" == some (inputCellId k)) = false) →
      collectL (selIdHighlight (inputCellId k)) (ofListEL done) prevs ups = []) :
    (setCodeCellVisibility
        ⟨mkRoot (fin ++ btnCell k b false false ["click"] :: done), nr⟩ b "hidden").map
        (fun d1 => { d1 with root := updateByRef d1.root b (fun e => e.setChecked true) })
      = some ⟨mkRoot (fin ++ btnCell k b true true ["click"] :: done), nr⟩ := by
  have hfind : findE b (mkRoot (fin ++ btnCell k b false false ["click"] :: done))
      = some (hideBox k b false) :=
    findE_mkRoot_mid b fin done _ _ (by omega) hmb
      (findE_btnCell_box k b false false ["click"] hb)
  have hid : jsStr (getAttributeByRef
      (mkRoot (fin ++ btnCell k b false false ["click"] :: done)) b "data-id")
      = inputCellId k := by
    unfold getAttributeByRef
    rw [hfind]
    simp [hideBox_dataId, jsStr]
  have hqsf : querySelectorFirst
      ⟨mkRoot (fin ++ btnCell k b false false ["click"] :: done), nr⟩
      (selIdHighlight (inputCellId k)) = some (6*k+5) := by
    unfold querySelectorFirst querySelectorAll
    simp only [mkRoot, collectE]
    rw [collectL_ofListEL_append]
    rw [hcf _ _ (by
      intro f hf
      simp only [List.mem_singleton] at hf
      subst hf
      simp [Elem.getAttribute, Elem.attrs, noneBeq])]
    simp only [ofListEL, collectL]
    rw [collect_idhl_btnCell_self k b false false ["click"]]
    rw [hcd _ _ (by
      intro f hf
      simp only [List.mem_singleton] at hf
      subst hf
      simp [Elem.getAttribute, Elem.attrs, noneBeq])]
    simp [selIdHighlight, matchesAt, matchesSimple, Elem.tag]
  have hup1 : updateByRef (mkRoot (fin ++ btnCell k b false false ["click"] :: done))
      (6*k+5) (fun e => e.addClass "hidden")
      = mkRoot (fin ++ btnCell k b true false ["click"] :: done) := by
    unfold updateByRef
    rw [updateE_mkRoot_mid (6*k+5) _ fin done _ _ (by omega) hm5
      (updateE_btnCell_highlight k b false ["click"] hb)]
    rfl
  have hup2 : updateByRef (mkRoot (fin ++ btnCell k b true false ["click"] :: done))
      b (fun e => e.setChecked false)
      = mkRoot (fin ++ btnCell k b true false ["click"] :: done) := by
    unfold updateByRef
    rw [updateE_mkRoot_mid b _ fin done _ _ (by omega) hmb
      (updateE_btnCell_box k b true false false ["click"] hb)]
    rfl
  have hup3 : updateByRef (mkRoot (fin ++ btnCell k b true false ["click"] :: done))
      b (fun e => e.setChecked true)
      = mkRoot (fin ++ btnCell k b true true ["click"] :: done) := by
    unfold updateByRef
    rw [updateE_mkRoot_mid b _ fin done _ _ (by omega) hmb
      (updateE_btnCell_box k b true false true ["click"] hb)]
    rfl
  unfold setCodeCellVisibility
  simp only [hid, hqsf]
  simp [hup1, hup2, hup3]

/-- The visibility fold of `initHiddenCells` over the generated page:
every checkbox the guard query returned gets its cell's highlight
hidden and its `checked` property set. -/
theorem visFold (n nr : Nat) :
    ∀ (rest pre : List Bool),
    pre.length + rest.length = n →
    (boxRefs pre.length (6*n+1 + 4 * pre.count true) rest).foldlM
        (fun (d : Doc) item =>
          (setCodeCellVisibility d item "hidden").map
            (fun d1 =>
              { d1 with root := updateByRef d1.root item (fun e => e.setChecked true) }))
        ⟨mkRoot (finCells 0 (6*n+1) pre
          ++ doneCells pre.length (6*n+1 + 4 * pre.count true) rest), nr⟩
      = some ⟨mkRoot (finCells 0 (6*n+1) (pre ++ rest)), nr⟩ := by
  intro rest
  induction rest with
  | nil =>
    intro pre hlen
    simp [boxRefs, doneCells, List.foldlM]
  | cons t rest ih =>
    intro pre hlen
    have hklen : pre.length < n := by
      simp only [List.length_cons] at hlen
      omega
    have hlen' : ∀ u : Bool, (pre ++ [u]).length + rest.length = n := by
      intro u
      simp only [List.length_append, List.length_cons, List.length_nil] at hlen ⊢
      omega
    cases t with
    | false =>
      have hfold := ih (pre ++ [false]) (hlen' false)
      have e1 : (pre ++ [false]).length = pre.length + 1 := by simp
      have e2 : (pre ++ [false]).count true = pre.count true := by simp
      have e3 : (pre ++ [false]) ++ rest = pre ++ false :: rest := by simp
      rw [e1, e2, e3] at hfold
      have e4 : finCells 0 (6*n+1) (pre ++ [false])
          = finCells 0 (6*n+1) pre ++ [genCell pre.length false] := by
        rw [finCells_append]
        simp [finCells]
      rw [e4] at hfold
      have e5 : (finCells 0 (6*n+1) pre ++ [genCell pre.length false])
            ++ doneCells (pre.length+1) (6*n+1 + 4 * pre.count true) rest
          = finCells 0 (6*n+1) pre
            ++ genCell pre.length false
              :: doneCells (pre.length+1) (6*n+1 + 4 * pre.count true) rest := by
        simp
      rw [e5] at hfold
      simp only [boxRefs, doneCells, Bool.false_eq_true, if_false]
      exact hfold
    | true =>
      have hfold := ih (pre ++ [true]) (hlen' true)
      have e1 : (pre ++ [true]).length = pre.length + 1 := by simp
      have e2 : (pre ++ [true]).count true = pre.count true + 1 := by simp
      have e3 : (pre ++ [true]) ++ rest = pre ++ true :: rest := by simp
      rw [e1, e2, e3] at hfold
      have e6 : 6*n+1 + 4 * (pre.count true + 1) = 6*n+1 + 4 * pre.count true + 4 := by
        omega
      rw [e6] at hfold
      have e4 : finCells 0 (6*n+1) (pre ++ [true])
          = finCells 0 (6*n+1) pre
            ++ [btnCell pre.length (6*n+1 + 4 * pre.count true) true true ["click"]] := by
        rw [finCells_append]
        simp [finCells]
      rw [e4] at hfold
      have e5 : (finCells 0 (6*n+1) pre
            ++ [btnCell pre.length (6*n+1 + 4 * pre.count true) true true ["click"]])
            ++ doneCells (pre.length+1) (6*n+1 + 4 * pre.count true + 4) rest
          = finCells 0 (6*n+1) pre
            ++ btnCell pre.length (6*n+1 + 4 * pre.count true) true true ["click"]
              :: doneCells (pre.length+1) (6*n+1 + 4 * pre.count true + 4) rest := by
        simp
      rw [e5] at hfold
      have hmissf : ∀ r, 6 * pre.length < r → r < 6*n+1 →
          ∀ x ∈ finCells 0 (6*n+1) pre, r ∉ refsE x := by
        intro r h1 h2 x hx hr
        rcases refs_finCells pre 0 (6*n+1) x hx r hr with ⟨a1, a2⟩ | ⟨a1, a2⟩ <;> omega
      have hmissb : ∀ x ∈ finCells 0 (6*n+1) pre,
          (6*n+1 + 4 * pre.count true) ∉ refsE x := by
        intro x hx hr
        rcases refs_finCells pre 0 (6*n+1) x hx _ hr with ⟨a1, a2⟩ | ⟨a1, a2⟩ <;> omega
      simp only [boxRefs, doneCells, if_true, List.foldlM_cons]
      rw [visStep_gen_true pre.length (6*n+1 + 4 * pre.count true) nr
        (finCells 0 (6*n+1) pre)
        (doneCells (pre.length+1) (6*n+1 + 4 * pre.count true + 4) rest)
        (by omega)
        (fun x hx => hmissf _ (by omega) (by omega) x hx)
        hmissb
        (fun prevs ups hups =>
          collectL_idhl_finCells_ne pre.length pre 0 (6*n+1) prevs ups
            (fun j hj => by omega) hups)
        (fun prevs ups hups =>
          collectL_idhl_doneCells_ne pre.length rest (pre.length+1)
            (6*n+1 + 4 * pre.count true + 4) prevs ups
            (fun j hj => by omega) hups)]
      exact hfold

/-- `addHideButton` on the generated ready page: the guard query is
empty, so every tagged cell gets the hide-button markup appended inside
its `div.input` and its label wired. -/
theorem addHideButton_gen (flags : List Bool) :
    ∃ hl2, addHideButton (genState flags)
      = some { state := { genState flags with
                  doc := ⟨mkRoot (doneCells 0 (6*flags.length+1) flags),
                          6*flags.length+1 + 4 * flags.count true⟩,
                  hideLink := hl2 },
               retry := none, effects := [] } := by
  obtain ⟨hl2, hfold⟩ := hideFold flags.length flags [] none (by simp)
  simp only [doneCells, List.nil_append, List.count_nil, Nat.mul_zero, Nat.add_zero,
    List.length_nil] at hfold
  refine ⟨hl2, ?_⟩
  unfold addHideButton
  simp only [genState]
  rw [guard_genDoc]
  simp only [Option.isSome_none, Bool.false_eq_true, if_false, genDoc]
  rw [hfold]

/-- `initHiddenCells` on the generated ready page: buttons are added,
then every tagged cell's highlight is hidden and its checkbox checked. -/
theorem initHiddenCells_gen (flags : List Bool) :
    ∃ hl2, initHiddenCells (genState flags)
      = some { state := { genState flags with
                  doc := ⟨mkRoot (finCells 0 (6*flags.length+1) flags),
                          6*flags.length+1 + 4 * flags.count true⟩,
                  hideLink := hl2 },
               retry := none, effects := [] } := by
  obtain ⟨hl2, hrun⟩ := addHideButton_gen flags
  have hvis := visFold flags.length (6*flags.length+1 + 4 * flags.count true) flags []
    (by simp)
  simp only [finCells, List.nil_append, List.count_nil, Nat.mul_zero, Nat.add_zero,
    List.length_nil] at hvis
  refine ⟨hl2, ?_⟩
  unfold initHiddenCells
  rw [hrun]
  simp only [guard_doneDoc]
  rw [hvis]

theorem findE_btnCell_label (i b : Nat) (hid chk : Bool) (ls : List String)
    (hb : 6*i+6 < b) :
    findE (b+1) (btnCell i b hid chk ls) = some (hideLabel i b ls) := by
  simp [btnCell, innerChain, hideBox, hideLabel, findE, findL,
    eq_false (show (6*i+1 : Nat) ≠ b+1 by omega),
    eq_false (show (6*i+2 : Nat) ≠ b+1 by omega),
    eq_false (show (6*i+3 : Nat) ≠ b+1 by omega),
    eq_false (show (6*i+4 : Nat) ≠ b+1 by omega),
    eq_false (show (6*i+5 : Nat) ≠ b+1 by omega),
    eq_false (show (6*i+6 : Nat) ≠ b+1 by omega),
    eq_false (show (6*i : Nat) ≠ b by omega),
    eq_false (show (6*i+1 : Nat) ≠ b by omega),
    eq_false (show (6*i+2 : Nat) ≠ b by omega),
    eq_false (show (6*i+3 : Nat) ≠ b by omega),
    eq_false (show (6*i+4 : Nat) ≠ b by omega),
    eq_false (show (6*i+5 : Nat) ≠ b by omega)]

theorem findE_btnCell_highlight (i b : Nat) (chk : Bool) (ls : List String) :
    findE (6*i+5) (btnCell i b true chk ls)
      = some (.mk (6*i+5) "div" ["highlight", "hidden"] [] false []
          (.cons (.mk (6*i+6) "pre" [] [] false [] .nil) .nil)) := by
  simp [btnCell, innerChain, hideBox, hideLabel, findE, findL]

/-- C6: after `initHiddenCells` completes on a ready generated page
(one whose `pageElements['inputCells']` entry holds the page's cells,
as `findInputCells` leaves it), every cell element carrying the class
`tag_hide_input` contains an injected hide-toggle checkbox (wired to
the cell by its `data-id`) and label, its `div.highlight` descendant
carries the class `hidden`, and that checkbox's `checked` property is
`true` — for every page of the generated family, i.e. any number of
cells with any subset tagged. -/
theorem C6_hidden_cells (flags : List Bool) :
    ∃ rr, initHiddenCells (genState flags) = some rr ∧
      rr.retry = none ∧
      ∀ (i : Nat) (hi : i < flags.length), flags.get ⟨i, hi⟩ = true →
        ∃ cell : Elem, findE (6*i+1) rr.state.doc.root = some cell ∧
          cell.classes.contains "tag_hide_input" = true ∧
          ∃ b : Nat,
            (∃ box : Elem, findE b cell = some box ∧ box.tag = "input" ∧
              box.classes = ["hidebtn"] ∧
              box.getAttribute "data-id" = cell.getAttribute "id" ∧
              box.checked = true) ∧
            (∃ lab : Elem, findE (b+1) cell = some lab ∧ lab.tag = "label" ∧
              lab.listeners = ["click"]) ∧
            (∃ hlt : Elem, findE (6*i+5) cell = some hlt ∧ hlt.tag = "div" ∧
              hlt.classes.contains "highlight" = true ∧
              hlt.classes.contains "hidden" = true) := by
  obtain ⟨hl2, hrun⟩ := initHiddenCells_gen flags
  refine ⟨_, hrun, rfl, ?_⟩
  intro i hi hflag
  have hb : 6*i+6 < 6*flags.length+1 + 4 * (flags.take i).count true := by omega
  have hsplit : flags = flags.take i
      ++ true :: flags.drop (i+1) := by
    conv_lhs => rw [← List.take_append_drop i flags]
    rw [List.drop_eq_getElem_cons hi]
    rw [← List.get_eq_getElem flags ⟨i, hi⟩, hflag]
  have htlen : (flags.take i).length = i := by
    rw [List.length_take]
    omega
  have hfin : finCells 0 (6*flags.length+1) flags
      = finCells 0 (6*flags.length+1) (flags.take i)
        ++ btnCell i (6*flags.length+1 + 4 * (flags.take i).count true) true true
            ["click"]
          :: finCells (i+1) (6*flags.length+1 + 4 * (flags.take i).count true + 4)
            (flags.drop (i+1)) := by
    have hL : (flags.take i ++ true :: flags.drop (i+1)).length = flags.length := by
      rw [← hsplit]
    conv_lhs => rw [hsplit]
    rw [finCells_append]
    simp only [htlen, Nat.zero_add, finCells, if_true, hL]
  have hmissf : ∀ x ∈ finCells 0 (6*flags.length+1) (flags.take i),
      (6*i+1) ∉ refsE x := by
    intro x hx hr
    rcases refs_finCells (flags.take i) 0 (6*flags.length+1) x hx _ hr
      with ⟨a1, a2⟩ | ⟨a1, a2⟩
    · rw [htlen] at a2
      omega
    · omega
  have hcell : findE (6*i+1)
      (mkRoot (finCells 0 (6*flags.length+1) flags))
      = some (btnCell i (6*flags.length+1 + 4 * (flags.take i).count true) true true
          ["click"]) := by
    rw [hfin]
    exact findE_mkRoot_mid _ _ _ _ _ (by omega) hmissf
      (findE_btnCell_self i _ true true ["click"])
  refine ⟨_, hcell, by simp [btnCell, Elem.classes], ?_⟩
  refine ⟨6*flags.length+1 + 4 * (flags.take i).count true, ?_, ?_, ?_⟩
  · exact ⟨hideBox i _ true, findE_btnCell_box i _ true true ["click"] hb, rfl, rfl,
      by simp [hideBox, btnCell, Elem.getAttribute, Elem.attrs], rfl⟩
  · exact ⟨hideLabel i _ ["click"], findE_btnCell_label i _ true true ["click"] hb,
      rfl, rfl⟩
  · exact ⟨_, findE_btnCell_highlight i _ true ["click"], rfl, by simp [Elem.classes],
      by simp [Elem.classes]⟩

/-- Witness for C6: a two-cell page whose second cell is tagged. -/
theorem C6_witness :
    ∃ rr, initHiddenCells (genState [false, true]) = some rr ∧
      rr.retry = none ∧
      ∀ (i : Nat) (hi : i < ([false, true] : List Bool).length),
        ([false, true] : List Bool).get ⟨i, hi⟩ = true →
        ∃ cell : Elem, findE (6*i+1) rr.state.doc.root = some cell ∧
          cell.classes.contains "tag_hide_input" = true ∧
          ∃ b : Nat,
            (∃ box : Elem, findE b cell = some box ∧ box.tag = "input" ∧
              box.classes = ["hidebtn"] ∧
              box.getAttribute "data-id" = cell.getAttribute "id" ∧
              box.checked = true) ∧
            (∃ lab : Elem, findE (b+1) cell = some lab ∧ lab.tag = "label" ∧
              lab.listeners = ["click"]) ∧
            (∃ hlt : Elem, findE (6*i+5) cell = some hlt ∧ hlt.tag = "div" ∧
              hlt.classes.contains "highlight" = true ∧
              hlt.classes.contains "hidden" = true) :=
  C6_hidden_cells [false, true]

/-!
Helpers for the hide-button idempotence claim.
-/

/-- Guard branch of `addHideButton`: a present `div.tag_hide_input
input` match makes it return the state untouched. -/
theorem addHideButton_guard_noop (s : PageState)
    (h : (querySelectorFirst s.doc selHideGuard).isSome = true) :
    addHideButton s = some { state := s, retry := none, effects := [] } := by
  unfold addHideButton
  rw [if_pos h]

/-- The visibility pass only updates scalar fields: it creates no node
and allocates no ref. -/
theorem visSteps_refs :
    ∀ (items : List Nat) (d d2 : Doc),
    items.foldlM
        (fun (d : Doc) item =>
          (setCodeCellVisibility d item "hidden").map
            (fun d1 =>
              { d1 with root := updateByRef d1.root item (fun e => e.setChecked true) }))
        d = some d2 →
    refsE d2.root = refsE d.root ∧ d2.nextRef = d.nextRef := by
  intro items
  induction items with
  | nil =>
    intro d d2 h
    simp only [List.foldlM_nil] at h
    cases h
    exact ⟨rfl, rfl⟩
  | cons a t ih =>
    intro d d2 h
    rw [List.foldlM_cons] at h
    cases hstep : (setCodeCellVisibility d a "hidden").map
        (fun d1 =>
          { d1 with root := updateByRef d1.root a (fun e => e.setChecked true) }) with
    | none =>
      rw [hstep] at h
      exact absurd h (by simp)
    | some d1 =>
      rw [hstep] at h
      replace h : t.foldlM
          (fun (d : Doc) item =>
            (setCodeCellVisibility d item "hidden").map
              (fun d1 =>
                { d1 with
                  root := updateByRef d1.root item (fun e => e.setChecked true) }))
          d1 = some d2 := h
      obtain ⟨h1a, h1b⟩ : refsE d1.root = refsE d.root ∧ d1.nextRef = d.nextRef := by
        cases hv : setCodeCellVisibility d a "hidden" with
        | none =>
          rw [hv] at hstep
          exact Option.noConfusion hstep
        | some dv =>
          rw [hv] at hstep
          simp only [Option.map_some', Option.some.injEq] at hstep
          have hdv : refsE dv.root = refsE d.root ∧ dv.nextRef = d.nextRef := by
            unfold setCodeCellVisibility at hv
            simp only [show (("hidden" : String) == "visible") = false from rfl,
              Bool.false_eq_true, if_false] at hv
            cases hq : querySelectorFirst d
                (selIdHighlight (jsStr (getAttributeByRef d.root a "data-id"))) with
            | none =>
              rw [hq] at hv
              exact Option.noConfusion hv
            | some codeCell =>
              rw [hq] at hv
              simp only [Option.some.injEq] at hv
              subst hv
              refine ⟨?_, rfl⟩
              rw [refsE_updateByRef _ _ _ (scalarF_setChecked false),
                refsE_updateByRef _ _ _ (scalarF_addClass "hidden")]
          subst hstep
          refine ⟨?_, hdv.2⟩
          rw [refsE_updateByRef _ _ _ (scalarF_setChecked true)]
          exact hdv.1
      have hrest := ih d1 d2 h
      exact ⟨hrest.1.trans h1a, hrest.2.trans h1b⟩

/-- When something already matches the guard, `initHiddenCells` leaves
the node set and the ref counter untouched. -/
theorem initHiddenCells_guard_refs (s : PageState) (rr : RunResult)
    (h : (querySelectorFirst s.doc selHideGuard).isSome = true)
    (hrun : initHiddenCells s = some rr) :
    refsE rr.state.doc.root = refsE s.doc.root ∧
    rr.state.doc.nextRef = s.doc.nextRef := by
  unfold initHiddenCells at hrun
  rw [addHideButton_guard_noop s h] at hrun
  simp only at hrun
  cases hfold : (querySelectorAll s.doc selHideGuard).foldlM
      (fun (d : Doc) item =>
        (setCodeCellVisibility d item "hidden").map
          (fun d1 =>
            { d1 with root := updateByRef d1.root item (fun e => e.setChecked true) }))
      s.doc with
  | none =>
    rw [hfold] at hrun
    exact Option.noConfusion hrun
  | some d2 =>
    rw [hfold] at hrun
    simp only [Option.some.injEq] at hrun
    subst hrun
    exact visSteps_refs _ _ _ hfold

theorem collectL_guard_finCells :
    ∀ (fl : List Bool) (k b : Nat) (prevs : List Elem) (ups : List Frame),
    collectL selHideGuard (ofListEL (finCells k b fl)) prevs ups = boxRefs k b fl := by
  intro fl
  induction fl with
  | nil => intro k b prevs ups; rfl
  | cons t rest ih =>
    intro k b prevs ups
    cases t with
    | false =>
      simp only [finCells, Bool.false_eq_true, if_false, ofListEL, collectL,
        collect_guard_genCell, List.nil_append, boxRefs]
      exact ih (k+1) b _ _
    | true =>
      simp only [finCells, if_true, ofListEL, collectL, collect_guard_btnCell, boxRefs]
      rw [ih (k+1) (b+4) _ _]
      rfl

theorem guard_finDoc (flags : List Bool) (b nr : Nat) :
    querySelectorAll ⟨mkRoot (finCells 0 b flags), nr⟩ selHideGuard
      = boxRefs 0 b flags := by
  unfold querySelectorAll
  simp only [mkRoot, collectE, collectL_guard_finCells]
  simp [selHideGuard, matchesAt, matchesSimple, Elem.tag]

theorem boxRefs_ne_nil :
    ∀ (fl : List Bool) (k b : Nat), fl.contains true = true → boxRefs k b fl ≠ [] := by
  intro fl
  induction fl with
  | nil => intro k b h; simp [List.contains] at h
  | cons t rest ih =>
    intro k b h
    cases t with
    | true => simp [boxRefs]
    | false =>
      simp only [boxRefs, Bool.false_eq_true, if_false]
      refine ih (k+1) b ?_
      simpa using h

theorem finCells_of_no_tag :
    ∀ (fl : List Bool) (k b : Nat), fl.contains true = false →
    finCells k b fl = pendCells k fl := by
  intro fl
  induction fl with
  | nil => intro k b h; rfl
  | cons t rest ih =>
    intro k b h
    cases t with
    | true => simp at h
    | false =>
      simp only [finCells, Bool.false_eq_true, if_false, pendCells]
      rw [ih (k+1) b (by simpa using h)]

theorem count_true_of_no_tag :
    ∀ fl : List Bool, fl.contains true = false → fl.count true = 0 := by
  intro fl
  induction fl with
  | nil => intro h; rfl
  | cons t rest ih =>
    intro h
    cases t with
    | true => simp at h
    | false =>
      simp only [List.count_cons]
      rw [ih (by simpa using h)]
      rfl

/-- C8: `addHideButton` is idempotent at the DOM level.  When the
document already holds a `div.tag_hide_input input` match it returns
the state untouched, and a repeated `initHiddenCells` run on such a
document inserts no node and allocates no ref.  On every generated
page with at least one tagged cell a completed `initHiddenCells` run
establishes that guard match, so on the generated family a second run
never inserts: at most one hide button per tagged cell. -/
theorem C8_hide_idempotent :
    (∀ s : PageState, (querySelectorFirst s.doc selHideGuard).isSome = true →
      addHideButton s = some { state := s, retry := none, effects := [] }) ∧
    (∀ (s : PageState) (rr : RunResult),
      (querySelectorFirst s.doc selHideGuard).isSome = true →
      initHiddenCells s = some rr →
      refsE rr.state.doc.root = refsE s.doc.root ∧
      rr.state.doc.nextRef = s.doc.nextRef) ∧
    (∀ (flags : List Bool) (rr : RunResult), flags.contains true = true →
      initHiddenCells (genState flags) = some rr →
      (querySelectorFirst rr.state.doc selHideGuard).isSome = true) ∧
    (∀ (flags : List Bool) (rr rr2 : RunResult),
      initHiddenCells (genState flags) = some rr →
      initHiddenCells rr.state = some rr2 →
      refsE rr2.state.doc.root = refsE rr.state.doc.root ∧
      rr2.state.doc.nextRef = rr.state.doc.nextRef) := by
  have hguard : ∀ (flags : List Bool) (rr : RunResult), flags.contains true = true →
      initHiddenCells (genState flags) = some rr →
      (querySelectorFirst rr.state.doc selHideGuard).isSome = true := by
    intro flags rr hc hrun
    obtain ⟨hl2, hknown⟩ := initHiddenCells_gen flags
    rw [hknown] at hrun
    simp only [Option.some.injEq] at hrun
    subst hrun
    show (querySelectorAll
        ⟨mkRoot (finCells 0 (6*flags.length+1) flags),
          6*flags.length+1 + 4 * flags.count true⟩ selHideGuard).head?.isSome = true
    rw [guard_finDoc]
    have hne := boxRefs_ne_nil flags 0 (6*flags.length+1) hc
    cases hbr : boxRefs 0 (6*flags.length+1) flags with
    | nil => exact absurd hbr hne
    | cons x xs => simp
  refine ⟨addHideButton_guard_noop, initHiddenCells_guard_refs, hguard, ?_⟩
  intro flags rr rr2 hrun1 hrun2
  cases hc : flags.contains true with
  | true =>
    exact initHiddenCells_guard_refs rr.state rr2 (hguard flags rr hc hrun1) hrun2
  | false =>
    obtain ⟨hl2, hknown⟩ := initHiddenCells_gen flags
    rw [hknown] at hrun1
    simp only [Option.some.injEq] at hrun1
    subst hrun1
    have hfc := finCells_of_no_tag flags 0 (6*flags.length+1) hc
    have hct := count_true_of_no_tag flags hc
    have hdoc : (⟨mkRoot (finCells 0 (6*flags.length+1) flags),
        6*flags.length+1 + 4 * flags.count true⟩ : Doc) = genDoc flags := by
      rw [hfc, hct]
      simp [genDoc]
    simp only [] at hrun2
    have hobs := initHiddenCells_read_frame
      ({ doc := ⟨mkRoot (finCells 0 (6*flags.length+1) flags),
                 6*flags.length+1 + 4 * flags.count true⟩,
         pageElements := (genState flags).pageElements,
         win := (genState flags).win,
         hideLink := hl2 } : PageState)
      (genState flags) hdoc rfl
    rw [hrun2, hknown] at hobs
    simp only [Option.map_some', Option.some.injEq, obs, Prod.mk.injEq] at hobs
    refine ⟨?_, ?_⟩ <;> rw [hobs.1]

/-- Witness for C8: a page already holding a hide button is left
untouched, and its one-tagged-cell page gets no second button from a
repeated `initHiddenCells` run. -/
theorem C8_witness :
    (addHideButton
        ⟨⟨mkRoot (finCells 0 7 [true]), 11⟩, ⟨none, some [1]⟩, ⟨true, true, true⟩, none⟩
      = some { state := ⟨⟨mkRoot (finCells 0 7 [true]), 11⟩, ⟨none, some [1]⟩,
                         ⟨true, true, true⟩, none⟩,
               retry := none, effects := [] }) ∧
    (∃ rr rr2 : RunResult, initHiddenCells (genState [true]) = some rr ∧
      initHiddenCells rr.state = some rr2 ∧
      refsE rr2.state.doc.root = refsE rr.state.doc.root ∧
      rr2.state.doc.nextRef = rr.state.doc.nextRef) := by
  constructor
  · exact C8_hide_idempotent.1 _ (by decide)
  · have hrr : initHiddenCells (genState [true])
        = some ((initHiddenCells (genState [true])).getD (noRun (genState [true]))) := rfl
    have hrr2 : initHiddenCells
          ((initHiddenCells (genState [true])).getD (noRun (genState [true]))).state
        = some ((initHiddenCells
            ((initHiddenCells (genState [true])).getD
              (noRun (genState [true]))).state).getD (noRun (genState [true]))) := rfl
    have hres := C8_hide_idempotent.2.2.2 [true] _ _ hrr hrr2
    exact ⟨_, _, hrr, hrr2, hres.1, hres.2⟩

end JBook
